import Mathlib

/-!
# sflux: counter lines to InfluxDB points

A shallow embedding of `src/sflux/sflux.go`.  Go strings are byte strings; the
embedding writes a byte string as a Lean string with one character for each
byte (ASCII text is written as itself), so that the length of a string is its
number of bytes.  The only bytes the program and its scanner inspect are ASCII
(line feed, carriage return, `,`, space, sign, digits, letters, `_`).
-/

namespace Sflux

/-! ## Run-time failures -/

/-- Go run-time panics the program can raise.  Nothing in the program recovers
from a panic, so a panic ends the process. -/
inductive Panic where
  /-- Index expression `a[i]` with `i ≥ len a`. -/
  | indexOutOfRange (index len : Nat)
  /-- Slice expression `a[lo:]` with `lo > len a`. -/
  | sliceOutOfRange (lo len : Nat)
  /-- Dereference of, or method call through, a nil pointer. -/
  | nilDereference
  /-- Call of `reflect.Value.Int` on a value that is not an integer. -/
  | reflectInt
  deriving DecidableEq

deriving instance DecidableEq for Except

/-- Index expression `xs[i]` of Go: panics when `i` is out of range. -/
def index {α : Type} (xs : List α) (i : Nat) : Except Panic α :=
  match xs.get? i with
  | some x => .ok x
  | none => .error (.indexOutOfRange i xs.length)

/-- Slice expression `xs[lo:]` of Go: panics when `lo` exceeds the length. -/
def sliceFrom {α : Type} (xs : List α) (lo : Nat) : Except Panic (List α) :=
  if lo ≤ xs.length then .ok (xs.drop lo) else .error (.sliceOutOfRange lo xs.length)

/-! ## `strings.Split` with a one-character separator -/

/-- Pieces of `cs` between occurrences of `sep`; `cur` holds, reversed, the
characters of the piece being read. -/
def splitAux (sep : Char) : List Char → List Char → List (List Char)
  | [], cur => [cur.reverse]
  | c :: cs, cur =>
    if c = sep then cur.reverse :: splitAux sep cs []
    else splitAux sep cs (c :: cur)

/-- Go `strings.Split(s, sep)` for a separator of one character: the
substrings between separators, one more than the number of separators. -/
def Split (s : String) (sep : Char) : List String :=
  (splitAux sep s.data []).map String.mk

/-! ## `strconv.ParseInt`

The standard library function as documented for base 0: an optional sign, then
the base taken from the prefix (`0b` 2, `0o` or a leading `0` 8, `0x` 16,
otherwise 10), underscores allowed as in Go integer literals.  The value
returned with an error is 0 for a syntax error and the largest magnitude of
the sign for a range error. -/

/-- The two error kinds of `strconv`, and the invalid-argument errors. -/
inductive NumError where
  | errSyntax
  | errRange
  | errBase
  | errBitSize
  deriving DecidableEq

/-- Go `lower(c)`: the byte `c | ('x' - 'X')`. -/
def lower (c : Char) : Nat := c.toNat ||| 0x20

/-- Digit value of one character in `ParseUint`: `none` for a character that is
neither a decimal digit nor a letter. -/
def digitVal (c : Char) : Option Nat :=
  if '0'.toNat ≤ c.toNat ∧ c.toNat ≤ '9'.toNat then some (c.toNat - '0'.toNat)
  else if 'a'.toNat ≤ lower c ∧ lower c ≤ 'z'.toNat then some (lower c - 'a'.toNat + 10)
  else none

/-- The digit loop of `ParseUint`: `n` is the value so far, `us` records
whether an underscore was skipped.  Returns the value, the underscore flag
and the error that stopped the loop. -/
def parseDigits (base cutoff maxVal : Nat) (base0 : Bool) :
    List Char → Nat → Bool → Nat × Bool × Option NumError
  | [], n, us => (n, us, none)
  | c :: cs, n, us =>
    if c = '_' ∧ base0 = true then parseDigits base cutoff maxVal base0 cs n true
    else
      match digitVal c with
      | none => (0, us, some .errSyntax)
      | some d =>
        if d ≥ base then (0, us, some .errSyntax)
        else if n ≥ cutoff then (maxVal, us, some .errRange)
        else
          let n0 := n * base
          let n1 := (n0 + d) % 2 ^ 64
          if n1 < n0 ∨ n1 > maxVal then (maxVal, us, some .errRange)
          else parseDigits base cutoff maxVal base0 cs n1 us

/-- The scan of `underscoreOK` over the number proper.  `saw` is the last
character class seen: `'0'` digit or base prefix, `'_'` underscore, `'^'`
beginning, `'!'` anything else. -/
def underscoreScan (hex : Bool) : List Char → Char → Bool
  | [], saw => saw != '_'
  | c :: cs, saw =>
    if ('0'.toNat ≤ c.toNat ∧ c.toNat ≤ '9'.toNat) ∨
        (hex = true ∧ 'a'.toNat ≤ lower c ∧ lower c ≤ 'f'.toNat) then
      underscoreScan hex cs '0'
    else if c = '_' then
      if saw != '0' then false else underscoreScan hex cs '_'
    else if saw = '_' then false
    else underscoreScan hex cs '!'

/-- Go `underscoreOK`: underscores appear only between digits or between the
base prefix and a digit. -/
def underscoreOK (s : List Char) : Bool :=
  let s := match s with
    | c :: cs => if c = '-' ∨ c = '+' then cs else s
    | [] => s
  match s with
  | c0 :: c1 :: cs =>
    if c0 = '0' ∧ (lower c1 = 'b'.toNat ∨ lower c1 = 'o'.toNat ∨ lower c1 = 'x'.toNat) then
      underscoreScan (lower c1 == 'x'.toNat) cs '0'
    else underscoreScan false s '^'
  | _ => underscoreScan false s '^'

/-- Base and remaining text chosen by `ParseUint` for `base = 0`. -/
def detectBase (s : List Char) : Nat × List Char :=
  match s with
  | '0' :: c1 :: c2 :: cs =>
    if lower c1 = 'b'.toNat then (2, c2 :: cs)
    else if lower c1 = 'o'.toNat then (8, c2 :: cs)
    else if lower c1 = 'x'.toNat then (16, c2 :: cs)
    else (8, c1 :: c2 :: cs)
  | '0' :: cs => (8, cs)
  | _ => (10, s)

/-- Go `strconv.ParseUint(s, base, bitSize)` on the characters of `s`. -/
def ParseUintChars (s0 : List Char) (base bitSize : Nat) : Nat × Option NumError :=
  if s0 = [] then (0, some .errSyntax)
  else
    let base0 := base == 0
    if ¬ (base = 0 ∨ (2 ≤ base ∧ base ≤ 36)) then (0, some .errBase)
    else
      let bs := if base = 0 then detectBase s0 else (base, s0)
      let bitSize := if bitSize = 0 then 64 else bitSize
      if bitSize > 64 then (0, some .errBitSize)
      else
        let cutoff := (2 ^ 64 - 1) / bs.1 + 1
        let maxVal := 2 ^ bitSize - 1
        match parseDigits bs.1 cutoff maxVal base0 bs.2 0 false with
        | (n, _, some e) => (n, some e)
        | (n, us, none) =>
          if us = true ∧ underscoreOK s0 = false then (0, some .errSyntax)
          else (n, none)

/-- Go `strconv.ParseInt(s, base, bitSize)` on the characters of `s`: the
value and the error.  On a range error the value is the largest magnitude of
the sign, not zero. -/
def ParseIntChars (s0 : List Char) (base bitSize : Nat) : Int × Option NumError :=
  match s0 with
  | [] => (0, some .errSyntax)
  | c :: cs =>
    let neg := c == '-'
    let s := if c = '+' ∨ c = '-' then cs else s0
    match ParseUintChars s base bitSize with
    | (un, err) =>
      if err ≠ none ∧ err ≠ some .errRange then (0, err)
      else
        let bitSize := if bitSize = 0 then 64 else bitSize
        let cutoff := 2 ^ (bitSize - 1)
        if neg = false ∧ un ≥ cutoff then ((cutoff : Int) - 1, some .errRange)
        else if neg = true ∧ un > cutoff then (-(cutoff : Int), some .errRange)
        else if neg = true then (-(un : Int), none) else ((un : Int), none)

/-- Go `strconv.ParseInt(s, base, bitSize)`. -/
def ParseInt (s : String) (base bitSize : Nat) : Int × Option NumError :=
  ParseIntChars s.data base bitSize

/-! ## Data model -/

/-- Go `time.Time` at second resolution: seconds since the Unix epoch. -/
structure Time where
  unix : Int
  deriving DecidableEq

/-- Go `time.Unix(sec, 0)`. -/
def Time.Unix (sec : Int) : Time := ⟨sec⟩

/-- The zero `time.Time` (January 1 of year 1, UTC). -/
def Time.zero : Time := ⟨-62135596800⟩

/-- The struct `Counters`, fields in declaration order. -/
structure Counters where
  Source : String
  IfIndex : Int
  IfType : Int
  IfSpeed : Int
  IfDirection : Int
  IfStatus : Int
  IfInOctets : Int
  IfInUcastPkts : Int
  IfInMulticastPkts : Int
  IfInBroadcastPkts : Int
  IfInDiscards : Int
  IfInErrors : Int
  IfInUnknownProtos : Int
  IfOutOctets : Int
  IfOutUcastPkts : Int
  IfOutMulticastPkts : Int
  IfOutBroadcastPkts : Int
  IfOutDiscards : Int
  IfOutErrors : Int
  IfPromiscuousMode : Int
  TimeStamp : Time
  deriving DecidableEq

/-- The array `MetricFields`. -/
def MetricFields : List String :=
  ["IfInOctets", "IfOutOctets", "IfInDiscards", "IfInBroadcastPkts", "IfInMulticastPkts",
   "IfInUcastPkts", "IfOutUcastPkts", "IfOutMulticastPkts", "IfOutBroadcastPkts",
   "IfOutDiscards", "IfOutErrors"]

/-- A `reflect.Value` obtained from a field of `Counters`; `invalid` is the
zero Value that `FieldByName` returns for a name that is not a field. -/
inductive Value where
  | int (i : Int)
  | string (s : String)
  | time (t : Time)
  | invalid
  deriving DecidableEq

/-- Go `reflect.Indirect(reflect.ValueOf(c)).FieldByName(name)`. -/
def Counters.FieldByName (c : Counters) (name : String) : Value :=
  if name = "Source" then .string c.Source
  else if name = "IfIndex" then .int c.IfIndex
  else if name = "IfType" then .int c.IfType
  else if name = "IfSpeed" then .int c.IfSpeed
  else if name = "IfDirection" then .int c.IfDirection
  else if name = "IfStatus" then .int c.IfStatus
  else if name = "IfInOctets" then .int c.IfInOctets
  else if name = "IfInUcastPkts" then .int c.IfInUcastPkts
  else if name = "IfInMulticastPkts" then .int c.IfInMulticastPkts
  else if name = "IfInBroadcastPkts" then .int c.IfInBroadcastPkts
  else if name = "IfInDiscards" then .int c.IfInDiscards
  else if name = "IfInErrors" then .int c.IfInErrors
  else if name = "IfInUnknownProtos" then .int c.IfInUnknownProtos
  else if name = "IfOutOctets" then .int c.IfOutOctets
  else if name = "IfOutUcastPkts" then .int c.IfOutUcastPkts
  else if name = "IfOutMulticastPkts" then .int c.IfOutMulticastPkts
  else if name = "IfOutBroadcastPkts" then .int c.IfOutBroadcastPkts
  else if name = "IfOutDiscards" then .int c.IfOutDiscards
  else if name = "IfOutErrors" then .int c.IfOutErrors
  else if name = "IfPromiscuousMode" then .int c.IfPromiscuousMode
  else if name = "TimeStamp" then .time c.TimeStamp
  else .invalid

/-- Go `reflect.Value.Int`: panics unless the value is an integer. -/
def Value.Int : Value → Except Panic Int
  | .int i => .ok i
  | _ => .error .reflectInt

/-- Decimal digits of `n` put in front of `acc`; `fuel` bounds their number. -/
def natDigits : Nat → Nat → List Char → List Char
  | 0, _, acc => acc
  | fuel + 1, n, acc =>
    if n / 10 = 0 then Char.ofNat (48 + n % 10) :: acc
    else natDigits fuel (n / 10) (Char.ofNat (48 + n % 10) :: acc)

/-- Go `fmt.Sprintf("%d", i)`: decimal rendering, `-` in front of a negative
number. -/
def formatInt : Int → String
  | .ofNat n => String.mk (natDigits (n + 1) n [])
  | .negSucc n => String.mk ('-' :: natDigits (n + 2) (n + 1) [])

/-- The struct `client.Point`.  The two maps are association lists in the
order of the map literal. -/
structure Point where
  Measurement : String
  Tags : List (String × String)
  Fields : List (String × Int)
  Time : Time
  Precision : String
  deriving DecidableEq

/-- The zero `client.Point`, the element `make` fills a new slice with. -/
def Point.zero : Point := ⟨"", [], [], Time.zero, ""⟩

/-- The struct `client.BatchPoints`, the fields the program sets. -/
structure BatchPoints where
  Points : List Point
  Database : String
  RetentionPolicy : String
  deriving DecidableEq

/-! ## Parsing: `getInt` and `scanN` -/

/-- The function `getInt`: the value `ParseInt` returns, its error dropped. -/
def getInt (cols : List String) (index_ : Nat) : Except Panic Int := do
  let col ← index cols index_
  return (ParseInt col 0 64).1

/-- The body of the loop of `scanN` up to the construction of `tmp`
(lines 90-119): one line of text to one record. -/
def scanLine (line : String) : Except Panic Counters := do
  let columns := Split line ','
  let c0 ← index columns 0
  let tsStr ← index (Split c0 ' ') 0
  let ts := (ParseInt tsStr 0 64).1
  let timestamp := Time.Unix ts
  let source ← index columns 1
  let columns ← sliceFrom columns 2
  let f0 ← getInt columns 0
  let f1 ← getInt columns 1
  let f2 ← getInt columns 2
  let f3 ← getInt columns 3
  let f4 ← getInt columns 4
  let f5 ← getInt columns 5
  let f6 ← getInt columns 6
  let f7 ← getInt columns 7
  let f8 ← getInt columns 8
  let f9 ← getInt columns 9
  let f10 ← getInt columns 10
  let f11 ← getInt columns 11
  let f12 ← getInt columns 12
  let f13 ← getInt columns 13
  let f14 ← getInt columns 14
  let f15 ← getInt columns 15
  let f16 ← getInt columns 16
  let f17 ← getInt columns 17
  let f18 ← getInt columns 18
  return ⟨source, f0, f1, f2, f3, f4, f5, f6, f7, f8, f9, f10, f11, f12, f13, f14, f15,
    f16, f17, f18, timestamp⟩

/-! ## The scanner over standard input: `bufio.Scanner` with `ScanLines` -/

/-- Go `bufio.MaxScanTokenSize` (`64 * 1024`): the largest size the buffer of
a scanner made by `bufio.NewScanner` grows to. -/
def maxScanTokenSize : Nat := 65536

/-- Go `dropCR` of `bufio`: the data without one trailing carriage return. -/
def dropCR (data : List Char) : List Char :=
  if data.getLast? = some '\r' then data.dropLast else data

/-- State of a `bufio.Scanner`: the results of its coming calls of `Scan`, in
call order.  An entry `some token` is a call that returns true with
`Text() = token`, an entry `none` a call that returns false; after the last
entry every call returns false.  The program never reads `scanner.Err()`. -/
abbrev Scanner : Type := List (Option String)

/-- The results of `Scan` with the split function `ScanLines` on the unread
bytes `input` of standard input, where `cur` holds, last byte first, the bytes
buffered since the last line feed.

* A line feed ends a token: the buffered bytes with a trailing carriage return
  dropped.
* The buffer holds at most `maxScanTokenSize` bytes.  When it is full and has
  no line feed, `Scan` records `ErrTooLong` and returns false.  The error stays
  set and is passed to `ScanLines` as end of input, so the next `Scan` returns
  true with the buffered bytes as token, and every `Scan` after that returns
  false; the rest of the input is never read.
* At end of input (end of file, or a read error, which the scanner treats
  alike) the buffered bytes, if any, are the last token. -/
def scanResults : List Char → List Char → Scanner
  | [], cur => if cur = [] then [] else [some (String.mk (dropCR cur.reverse))]
  | c :: cs, cur =>
    if c = '\n' then some (String.mk (dropCR cur.reverse)) :: scanResults cs []
    else if maxScanTokenSize ≤ cur.length + 1 then
      [none, some (String.mk (dropCR (c :: cur).reverse))]
    else scanResults cs (c :: cur)

/-- Go `bufio.NewScanner(os.Stdin)` for the bytes `stdin` of standard input. -/
def NewScanner (stdin : String) : Scanner := scanResults stdin.data []

/-- The loop of `scanN`: `for scanner.Scan() { ... }`.  The loop ends when
`Scan` returns false (no entry left, or the entry `none`) or when `all` has
`n` records; `all` is the slice built so far (the empty list is the nil
slice: `append` never returns an empty slice here).  The variable `count` of
the source is written and never read. -/
def scanLoop (n : Int) : Scanner → List Counters →
    Except Panic (List Counters × Scanner)
  | [], all => .ok (all, [])
  | none :: scanner, all => .ok (all, scanner)
  | some line :: scanner, all =>
    match scanLine line with
    | .error e => .error e
    | .ok tmp =>
      if ((all ++ [tmp]).length : Int) = n then .ok (all ++ [tmp], scanner)
      else scanLoop n scanner (all ++ [tmp])

/-- The function `scanN`: the records read and the scanner left behind. -/
def scanN (scanner : Scanner) (n : Int) : Except Panic (List Counters × Scanner) :=
  scanLoop n scanner []

/-! ## The store client and the logger

The client library `github.com/influxdb/influxdb/client`, `net/url` and the
logger are outside the program.  Their calls are recorded in a trace, in call
order, and their answers are taken from an environment that may depend on
everything that was called before. -/

/-- A `client.Client` object; `id` tells the objects apart. -/
structure Client where
  id : Nat
  deriving DecidableEq

/-- A parsed `url.URL`. -/
structure URL where
  raw : String
  deriving DecidableEq

/-- The struct `client.Config`, the fields the program sets. -/
structure ClientConfig where
  URL : URL
  Username : String
  Password : String
  deriving DecidableEq

/-- Severity of a logger call. -/
inductive Level where
  | error
  | warn
  | info
  | debug
  deriving DecidableEq

/-- One call to an outside collaborator. -/
inductive Event where
  /-- A logger call: level and format string (or the error text for
  `log.Error(err)`); the arguments of the format are not recorded. -/
  | log (lvl : Level) (text : String)
  /-- Call of `client.NewClient(conf)`. -/
  | newClient (conf : ClientConfig)
  /-- Call of `c.Ping()`. -/
  | ping (c : Client)
  /-- Call of `c.Write(bps)`. -/
  | write (c : Client) (bps : BatchPoints)
  deriving DecidableEq

/-- Answers of the outside world.  An error is its text; `none` is Go's nil.
Each answer may depend on the trace of calls made so far. -/
structure Env where
  /-- Result of `url.Parse`: the `*url.URL`, nil on a parse error. -/
  urlParse : String → Option URL
  /-- Result of `client.NewClient`: the `*client.Client` and the error. -/
  newClient : List Event → ClientConfig → Option Client × Option String
  /-- Result of `Ping`: the error. -/
  ping : List Event → Client → Option String
  /-- Result of `Write`: the error. -/
  write : List Event → Client → BatchPoints → Option String

/-- The flag variables set by `main`. -/
structure Flags where
  chunkSize : Int
  influxUser : String
  influxPassword : String
  influxPort : Int
  influxHost : String
  influxDB : String
  loglvl : Int

/-- The mutable state: the package variable `myCon` (`none` is nil) and the
trace of outside calls, oldest first. -/
structure World where
  myCon : Option Client
  trace : List Event
  deriving DecidableEq

/-- Record one outside call. -/
def World.emit (w : World) (e : Event) : World :=
  { w with trace := w.trace ++ [e] }

/-- Record `log.Error(err)` when `err != nil`. -/
def World.logIfError (w : World) (err : Option String) : World :=
  match err with
  | some e => w.emit (.log .error e)
  | none => w

/-! ## The connection manager: `getInfluxClient` -/

/-- The text `fmt.Sprintf("http://%s:%d", influxHost, influxPort)`. -/
def storeUrl (cfg : Flags) : String :=
  "http://" ++ cfg.influxHost ++ ":" ++ formatInt cfg.influxPort

/-- Lines 184-204 of `getInfluxClient`: build a new client, ping it, cache it.
`*u` panics when `url.Parse` returned nil; `con.Ping()` and `*con` panic when
`NewClient` returned nil. -/
def connect (env : Env) (cfg : Flags) (w : World) : Except Panic Client × World :=
  let strUrl := storeUrl cfg
  match env.urlParse strUrl with
  | none => (.error .nilDereference, w)
  | some u =>
    let conf : ClientConfig := ⟨u, cfg.influxUser, cfg.influxPassword⟩
    let w := w.emit (.log .info "InfluxDB Client: Connecting to %s")
    let r := env.newClient w.trace conf
    let w := w.emit (.newClient conf)
    let w := w.logIfError r.2
    match r.1 with
    | none => (.error .nilDereference, w)
    | some con =>
      let err := env.ping w.trace con
      let w := w.emit (.ping con)
      let w := w.logIfError err
      let w := { w with myCon := some con }
      let w := w.emit (.log .info "InfluxDB Client: Happy as a hippo! Ping time: %v, Version: %s")
      (.ok con, w)

/-- The function `getInfluxClient`. -/
def getInfluxClient (env : Env) (cfg : Flags) (w : World) : Except Panic Client × World :=
  match w.myCon with
  | some c =>
    let err := env.ping w.trace c
    let w := w.emit (.ping c)
    match err with
    | none =>
      let w := w.emit (.log .debug "Using pooled connection")
      let w := w.emit
        (.log .debug "InfluxDB Client: Happy as a hippo! Ping time: %v, Version: %s")
      (.ok c, w)
    | some _ =>
      let w := w.emit (.log .warn "Ping on pooled conn yielded err %s")
      connect env cfg w
  | none => connect env cfg w

/-! ## Reshape and write: `appendPoints` and `insertIntoInflux` -/

/-- The loop `for ii := range MetricFields` of `appendPoints`, at index `ii`
with `names` the entries of `MetricFields` from `ii` on. -/
def appendPointsLoop (inst : Counters) (i : Nat) :
    List String → Nat → List Point → World → Except Panic (List Point) × World
  | [], _, points, w => (.ok points, w)
  | fieldName :: names, ii, points, w =>
    match (inst.FieldByName fieldName).Int with
    | .error e => (.error e, w)
    | .ok cVal =>
      let w := w.emit
        (.log .debug "CREATE POINT #%d, counter: %s source:%s ifindex:%d: value:%d")
      let pt : Point :=
        { Measurement := fieldName
          Tags := [("Source", inst.Source), ("IfIndex", formatInt inst.IfIndex)]
          Fields := [("value", cVal)]
          Time := inst.TimeStamp
          Precision := "s" }
      let idx := i * MetricFields.length + ii
      if idx < points.length then
        appendPointsLoop inst i names (ii + 1) (points.set idx pt) w
      else (.error (.indexOutOfRange idx points.length), w)

/-- The function `appendPoints`; the slice `points` is updated in place in
Go and returned here. -/
def appendPoints (points : List Point) (counters : List Counters) (i : Nat) (w : World) :
    Except Panic (List Point) × World :=
  match index counters i with
  | .error e => (.error e, w)
  | .ok inst =>
    let w := w.emit (.log .debug "process line: %d")
    appendPointsLoop inst i MetricFields 0 points w

/-- The loop `for i := 0; i < chunk; i++` of `insertIntoInflux`, with `k`
iterations left. -/
def insertLoop (counters : List Counters) :
    Nat → Nat → List Point → World → Except Panic (List Point) × World
  | 0, _, pts, w => (.ok pts, w)
  | k + 1, i, pts, w =>
    match appendPoints pts counters i w with
    | (.error e, w) => (.error e, w)
    | (.ok pts, w) => insertLoop counters k (i + 1) pts w

/-- The function `insertIntoInflux`. -/
def insertIntoInflux (env : Env) (cfg : Flags) (counters : List Counters) (w : World) :
    Except Panic Unit × World :=
  let chunk := counters.length
  let w := w.emit (.log .debug "allocate Point slice of size %d")
  let pts := List.replicate (chunk * MetricFields.length) Point.zero
  match insertLoop counters chunk 0 pts w with
  | (.error e, w) => (.error e, w)
  | (.ok pts, w) =>
    let bps : BatchPoints := ⟨pts, cfg.influxDB, "default"⟩
    match getInfluxClient env cfg w with
    | (.error e, w) => (.error e, w)
    | (.ok con, w) =>
      let w := w.emit (.log .info "InfluxDB Client: start inserting chunk")
      let err := env.write w.trace con bps
      let w := w.emit (.write con bps)
      (.ok (), w.logIfError err)

/-! ## The driving loop: `run` -/

/-- The loop of `run` over a consumer `insert` of batches with state `σ`:
read a batch, stop when it is nil, hand it to `insert`, repeat.  `none` means
that `fuel` rounds were not enough. -/
def runLoop {σ : Type} (insert : List Counters → σ → Except Panic Unit × σ) (n : Int) :
    Nat → Scanner → σ → Option (Except Panic Unit) × σ
  | 0, _, w => (none, w)
  | fuel + 1, scanner, w =>
    match scanN scanner n with
    | .error e => (some (.error e), w)
    | .ok (all, scanner) =>
      if all = [] then (some (.ok ()), w)
      else
        match insert all w with
        | (.error e, w) => (some (.error e), w)
        | (.ok _, w) => runLoop insert n fuel scanner w

/-- The function `run` on the bytes `stdin` of standard input.  Every round
but the last uses up a result of `Scan`, so one round more than there are
results is enough (`runLoop_returns`). -/
def run (env : Env) (cfg : Flags) (stdin : String) (w : World) :
    Option (Except Panic Unit) × World :=
  runLoop (insertIntoInflux env cfg) cfg.chunkSize ((NewScanner stdin).length + 1)
    (NewScanner stdin) w

/-- The batches the loop of `run` hands to its consumer, in order: the loop
run with a consumer that only records its argument. -/
def batches (n : Int) (stdin : String) : Option (Except Panic Unit) × List (List Counters) :=
  runLoop (fun all acc => (.ok (), acc ++ [all])) n ((NewScanner stdin).length + 1)
    (NewScanner stdin) []

/-- The `Write` calls of a trace, in call order. -/
def writes : List Event → List (Client × BatchPoints)
  | [] => []
  | .write c bps :: es => (c, bps) :: writes es
  | _ :: es => writes es

/-! ## Specification-side definitions -/

/-- The counters named by `MetricFields`, in that order, by explicit
accessors. -/
def metricValues (r : Counters) : List Int :=
  [r.IfInOctets, r.IfOutOctets, r.IfInDiscards, r.IfInBroadcastPkts, r.IfInMulticastPkts,
   r.IfInUcastPkts, r.IfOutUcastPkts, r.IfOutMulticastPkts, r.IfOutBroadcastPkts,
   r.IfOutDiscards, r.IfOutErrors]

/-- The point of record `r` for metric `name` with value `v`. -/
def mkPoint (r : Counters) (name : String) (v : Int) : Point :=
  { Measurement := name
    Tags := [("Source", r.Source), ("IfIndex", formatInt r.IfIndex)]
    Fields := [("value", v)]
    Time := r.TimeStamp
    Precision := "s" }

/-- The 11 points of a record in `MetricFields` order. -/
def recordPoints (r : Counters) : List Point :=
  List.zipWith (mkPoint r) MetricFields (metricValues r)

/-- The part of `s` before its first `sep`. -/
def before (s : String) (sep : Char) : String :=
  String.mk (s.data.takeWhile (fun c => c != sep))

/-- The integer `getInt` reads from column `k` of `cols` (the empty column
when there is none). -/
def columnInt (cols : List String) (k : Nat) : Int :=
  (ParseInt (cols.getD k "") 0 64).1

/-- The record the columns of a line describe, column by column. -/
def recordOfColumns (cols : List String) : Counters :=
  { Source := cols.getD 1 ""
    IfIndex := columnInt cols 2
    IfType := columnInt cols 3
    IfSpeed := columnInt cols 4
    IfDirection := columnInt cols 5
    IfStatus := columnInt cols 6
    IfInOctets := columnInt cols 7
    IfInUcastPkts := columnInt cols 8
    IfInMulticastPkts := columnInt cols 9
    IfInBroadcastPkts := columnInt cols 10
    IfInDiscards := columnInt cols 11
    IfInErrors := columnInt cols 12
    IfInUnknownProtos := columnInt cols 13
    IfOutOctets := columnInt cols 14
    IfOutUcastPkts := columnInt cols 15
    IfOutMulticastPkts := columnInt cols 16
    IfOutBroadcastPkts := columnInt cols 17
    IfOutDiscards := columnInt cols 18
    IfOutErrors := columnInt cols 19
    IfPromiscuousMode := columnInt cols 20
    TimeStamp := Time.Unix (ParseInt (before (cols.getD 0 "") ' ') 0 64).1 }

/-- A line with at least 21 comma-separated columns. -/
def WellFormed (line : String) : Prop := 21 ≤ (Split line ',').length

instance (line : String) : Decidable (WellFormed line) := by
  unfold WellFormed; infer_instance

/-- The record of a line: the record of its columns. -/
def parseLine (line : String) : Counters := recordOfColumns (Split line ',')

/-- Consecutive pieces of `xs` of `n` elements each, the last one possibly
shorter; `fuel` bounds the number of pieces. -/
def chunksAux {α : Type} (n : Nat) : Nat → List α → List (List α)
  | 0, _ => []
  | _ + 1, [] => []
  | fuel + 1, x :: xs => (x :: xs).take n :: chunksAux n fuel ((x :: xs).drop n)

/-- The pieces of `xs` of `n` elements each, in order. -/
def chunks {α : Type} (n : Nat) (xs : List α) : List (List α) :=
  chunksAux n xs.length xs

/-- Hand the batches `bs` to `insert` one after the other, stopping at the
first panic. -/
def feed {σ : Type} (insert : List Counters → σ → Except Panic Unit × σ) :
    List (List Counters) → σ → Option (Except Panic Unit) × σ
  | [], w => (some (.ok ()), w)
  | b :: bs, w =>
    match insert b w with
    | (.error e, w) => (some (.error e), w)
    | (.ok _, w) => feed insert bs w

/-- The logger call made for each point in `appendPoints`. -/
def createPointLog : Event :=
  .log .debug "CREATE POINT #%d, counter: %s source:%s ifindex:%d: value:%d"

/-- The logger call made for each record in `appendPoints`. -/
def processLineLog : Event := .log .debug "process line: %d"

/-- The logger calls of the reshape loop of `insertIntoInflux` over `k`
records. -/
def reshapeLog (k : Nat) : List Event :=
  (List.replicate k (processLineLog :: List.replicate 11 createPointLog)).flatten

/-- All points of a batch: the points of its records, in batch order. -/
def allPoints (counters : List Counters) : List Point :=
  (counters.map recordPoints).flatten

/-- The `client.BatchPoints` that `insertIntoInflux` is to write for a batch. -/
def batchPoints (cfg : Flags) (counters : List Counters) : BatchPoints :=
  ⟨allPoints counters, cfg.influxDB, "default"⟩

/-- The world after the reshape loop of `insertIntoInflux`: only logger calls
were added. -/
def reshaped (counters : List Counters) (w : World) : World :=
  ⟨w.myCon, w.trace ++ .log .debug "allocate Point slice of size %d" ::
    reshapeLog counters.length⟩

/-- The store client can be built: the configured URL parses and `NewClient`
always yields a client object. -/
def Env.Constructs (env : Env) (cfg : Flags) : Prop :=
  (env.urlParse (storeUrl cfg)).isSome = true ∧
    ∀ (tr : List Event) (conf : ClientConfig), (env.newClient tr conf).1.isSome = true

/-- The line of end-to-end scenario 1. -/
def scenarioLine : String := "1700000000 x,eth0,1,6,1000,1,1,10,20,0,0,0,0,0,5,6,0,0,1,1,0"

/-- A store that is always reachable: every URL parses, every `NewClient`
yields a new client object, every `Ping` and `Write` succeeds. -/
def healthyEnv : Env :=
  { urlParse := fun s => some ⟨s⟩
    newClient := fun tr _ => (some ⟨tr.length⟩, none)
    ping := fun _ _ => none
    write := fun _ _ _ => none }

/-- The default flags with database `db` and chunk size `n`. -/
def flagsWith (n : Int) : Flags :=
  { chunkSize := n, influxUser := "", influxPassword := "", influxPort := 8086,
    influxHost := "localhost", influxDB := "db", loglvl := 2 }

/-- The world at program start: no cached client, nothing called yet. -/
def World.initial : World := ⟨none, []⟩

/-- The record of the line of scenario 1, field by field. -/
def scenarioRecord : Counters :=
  { Source := "eth0", IfIndex := 1, IfType := 6, IfSpeed := 1000, IfDirection := 1,
    IfStatus := 1, IfInOctets := 10, IfInUcastPkts := 20, IfInMulticastPkts := 0,
    IfInBroadcastPkts := 0, IfInDiscards := 0, IfInErrors := 0, IfInUnknownProtos := 0,
    IfOutOctets := 5, IfOutUcastPkts := 6, IfOutMulticastPkts := 0, IfOutBroadcastPkts := 0,
    IfOutDiscards := 1, IfOutErrors := 1, IfPromiscuousMode := 0,
    TimeStamp := Time.Unix 1700000000 }

/-- A result of the digit loop whose error, if any, is a syntax error with
value 0 or a range error with value `maxVal`. -/
def DigitsErr (maxVal : Nat) (r : Nat × Bool × Option NumError) : Prop :=
  ∀ e, r.2.2 = some e → (e = .errSyntax ∧ r.1 = 0) ∨ (e = .errRange ∧ r.1 = maxVal)

/-- A line with three columns only. -/
def shortLine : String := "1700000000 x,eth0,1"

/-- The line of scenario 1 with `abc` in the IfIndex column. -/
def softLine : String := "1700000000 x,eth0,abc,6,1000,1,1,10,20,0,0,0,0,0,5,6,0,0,1,1,0"

/-- The `NewClient` calls of a trace, in call order. -/
def newClients : List Event → List ClientConfig
  | [] => []
  | .newClient conf :: es => conf :: newClients es
  | _ :: es => newClients es

/-- The `Ping` calls of a trace, in call order. -/
def pings : List Event → List Client
  | [] => []
  | .ping c :: es => c :: pings es
  | _ :: es => pings es

/-- The logger call `log.Error(err)` made when `err` is not nil. -/
def errorLog : Option String → List Event
  | some e => [.log .error e]
  | none => []

/-- The logger call before `NewClient`. -/
def connectingLog : Event := .log .info "InfluxDB Client: Connecting to %s"

/-- The logger call at the end of a reconnect. -/
def happyLog : Event :=
  .log .info "InfluxDB Client: Happy as a hippo! Ping time: %v, Version: %s"

/-- The logger call after a failed ping of the cached client. -/
def warnLog : Event := .log .warn "Ping on pooled conn yielded err %s"

/-- The two logger calls after a successful ping of the cached client. -/
def pooledLog : List Event :=
  [.log .debug "Using pooled connection",
   .log .debug "InfluxDB Client: Happy as a hippo! Ping time: %v, Version: %s"]

/-- The logger call before `Write`. -/
def startLog : Event := .log .info "InfluxDB Client: start inserting chunk"

/-- The `client.Config` built from the flags and the parsed URL. -/
def clientConfig (cfg : Flags) (u : URL) : ClientConfig :=
  ⟨u, cfg.influxUser, cfg.influxPassword⟩

/-- A store that answers every `Ping` and every `Write` with an error, while
URLs parse and `NewClient` yields a new client object. -/
def deadEnv : Env :=
  { urlParse := fun s => some ⟨s⟩
    newClient := fun tr _ => (some ⟨tr.length⟩, none)
    ping := fun _ _ => some "connection refused"
    write := fun _ _ _ => some "connection refused" }

/-- The batches `run` hands on for a chunk size `n` and well-formed lines:
the chunks for `n ≥ 1`, everything at once for `n ≤ 0`. -/
def batchesOf (n : Int) (lines : List String) : List (List Counters) :=
  if 1 ≤ n then chunksAux n.toNat (lines.length + 1) (lines.map parseLine)
  else if lines = [] then [] else [lines.map parseLine]

/-- The names of the 19 `int64` fields of `Counters`, in declaration order. -/
def intFieldNames : List String :=
  ["IfIndex", "IfType", "IfSpeed", "IfDirection", "IfStatus", "IfInOctets", "IfInUcastPkts",
   "IfInMulticastPkts", "IfInBroadcastPkts", "IfInDiscards", "IfInErrors",
   "IfInUnknownProtos", "IfOutOctets", "IfOutUcastPkts", "IfOutMulticastPkts",
   "IfOutBroadcastPkts", "IfOutDiscards", "IfOutErrors", "IfPromiscuousMode"]

/-- Value of a decimal digit character. -/
def decDigit (c : Char) : Option Nat :=
  if 48 ≤ c.toNat ∧ c.toNat ≤ 57 then some (c.toNat - 48) else none

/-- Value of an octal digit character. -/
def octDigit (c : Char) : Option Nat :=
  if 48 ≤ c.toNat ∧ c.toNat ≤ 55 then some (c.toNat - 48) else none

/-- Value of a hexadecimal digit character, either case. -/
def hexDigit (c : Char) : Option Nat :=
  if 48 ≤ c.toNat ∧ c.toNat ≤ 57 then some (c.toNat - 48)
  else if 97 ≤ c.toNat ∧ c.toNat ≤ 102 then some (c.toNat - 97 + 10)
  else if 65 ≤ c.toNat ∧ c.toNat ≤ 70 then some (c.toNat - 65 + 10)
  else none

/-- Value of the digit string `cs` in base `base`, most significant digit
first, on top of the value `acc`; `none` when a character is not a digit. -/
def digitsValue (digit : Char → Option Nat) (base : Nat) : List Char → Nat → Option Nat
  | [], acc => some acc
  | c :: cs, acc =>
    match digit c with
    | some d => digitsValue digit base cs (acc * base + d)
    | none => none

/-- A digit function whose digits `ParseUint` reads with the same value, below
`base`. -/
def DigitsOf (digit : Char → Option Nat) (base : Nat) : Prop :=
  ∀ c d, digit c = some d → digitVal c = some d ∧ d < base ∧ c ≠ '_'

/-- The decimal digits `fmt.Sprintf("%d", n)` prints for a natural number. -/
def decimal (n : Nat) : List Char := natDigits (n + 1) n []

/-- An integer in the range of `int64`. -/
def InInt64 (i : Int) : Prop := -2 ^ 63 ≤ i ∧ i < 2 ^ 63

instance (i : Int) : Decidable (InInt64 i) := by
  unfold InInt64; infer_instance

/-- The pieces `xs` written one after the other with `sep` between them. -/
def joinWith (sep : Char) : List (List Char) → List Char
  | [] => []
  | [x] => x
  | x :: y :: rest => x ++ sep :: joinWith sep (y :: rest)

/-- The 19 integer fields of a record in declaration order, which is the
order of the input format. -/
def Counters.ints (r : Counters) : List Int :=
  [r.IfIndex, r.IfType, r.IfSpeed, r.IfDirection, r.IfStatus, r.IfInOctets, r.IfInUcastPkts,
   r.IfInMulticastPkts, r.IfInBroadcastPkts, r.IfInDiscards, r.IfInErrors,
   r.IfInUnknownProtos, r.IfOutOctets, r.IfOutUcastPkts, r.IfOutMulticastPkts,
   r.IfOutBroadcastPkts, r.IfOutDiscards, r.IfOutErrors, r.IfPromiscuousMode]

/-- The columns of the line that renders a record: the seconds of the
timestamp, the source, the 19 integer fields in decimal. -/
def renderColumns (r : Counters) : List String :=
  formatInt r.TimeStamp.unix :: r.Source :: r.ints.map formatInt

/-- The line `<seconds>,<Source>,<the 19 fields in decimal>` of a record. -/
def renderLine (r : Counters) : String :=
  String.mk (joinWith ',' ((renderColumns r).map String.data))

/-- A line whose first column is a numeral outside the range of `int64`. -/
def hugeStampLine : String :=
  "99999999999999999999 x,eth0,1,6,1000,1,1,10,20,0,0,0,0,0,5,6,0,0,1,1,0"

/-- A line whose first column starts with a token that is no numeral: twenty
digits `9` and the letter `x`. -/
def mixedStampLine : String :=
  "99999999999999999999x y,eth0,1,6,1000,1,1,10,20,0,0,0,0,0,5,6,0,0,1,1,0"

/-- A line whose first column starts with a space. -/
def blankStampLine : String := " 1700000000,eth0,1,6,1000,1,1,10,20,0,0,0,0,0,5,6,0,0,1,1,0"

/-! ## Lines of standard input -/

/-- The lines of the bytes `input`: the pieces that a line feed ends, and the
piece after the last line feed when it is not empty; `cur` holds, last byte
first, the bytes since the last line feed. -/
def linesAux : List Char → List Char → List String
  | [], cur => if cur = [] then [] else [String.mk cur.reverse]
  | c :: cs, cur =>
    if c = '\n' then String.mk cur.reverse :: linesAux cs [] else linesAux cs (c :: cur)

/-- The lines of standard input, without their line feeds. -/
def linesOf (stdin : String) : List String := linesAux stdin.data []

/-- The text of a line: the line without a trailing carriage return. -/
def lineText (line : String) : String := String.mk (dropCR line.data)

/-- The texts of the lines of standard input, in order. -/
def tokens (stdin : String) : List String := (linesOf stdin).map lineText

/-- Every line of standard input is shorter than the buffer of the scanner:
at most 65535 bytes, the line feed not counted. -/
def ShortLines (stdin : String) : Prop :=
  ∀ l ∈ linesOf stdin, l.data.length < maxScanTokenSize

instance (stdin : String) : Decidable (ShortLines stdin) := by
  unfold ShortLines; infer_instance

/-- The input made of the given lines, each ended by a line feed. -/
def unlines (lines : List String) : String :=
  String.mk (lines.map (fun l => l.data ++ ['\n'])).flatten

/-- A first column of 65547 bytes: a timestamp, a space and 65536 times `x`. -/
def longColumn : List Char := "1700000000 ".data ++ List.replicate maxScanTokenSize 'x'

/-- A line of 21 columns and 65595 bytes: the line of scenario 1 with the
first column replaced by `longColumn`. -/
def longLine : String :=
  String.mk (longColumn ++ ',' :: "eth0,1,6,1000,1,1,10,20,0,0,0,0,0,5,6,0,0,1,1,0".data)

/-- The first 65536 bytes of `longLine`. -/
def longLineCut : String := String.mk (longLine.data.take maxScanTokenSize)

/-- An input of three lines of 21 columns, the second one `longLine`. -/
def longStdin : String := unlines [scenarioLine, longLine, scenarioLine]

/-- An input of two lines of 21 columns, the first one `longLine`. -/
def longFirstStdin : String := unlines [longLine, scenarioLine]

/-- The record of scenario 1 with a line feed in its Source. -/
def lineFeedRecord : Counters := { scenarioRecord with Source := String.mk ['a', '\n', 'b'] }

/-- A Source of 65536 bytes. -/
def longSource : String := String.mk (List.replicate maxScanTokenSize 'x')

/-- The record of scenario 1 with a Source of 65536 bytes. -/
def longSourceRecord : Counters := { scenarioRecord with Source := longSource }

/-- The record of scenario 1 with a negative counter and the smallest `int64`
as another. -/
def signedRecord : Counters :=
  { scenarioRecord with IfSpeed := -5, IfInErrors := -9223372036854775808 }

/-! ## Parsing lemmas -/


theorem index_of_lt {α : Type} (xs : List α) (i : Nat) (d : α) (h : i < xs.length) :
    index xs i = .ok (xs.getD i d) := by
  unfold index
  rw [List.get?_eq_getElem?, List.getElem?_eq_getElem h]
  simp [List.getD, List.getElem?_eq_getElem h]

theorem index_of_ge {α : Type} (xs : List α) (i : Nat) (h : xs.length ≤ i) :
    index xs i = .error (.indexOutOfRange i xs.length) := by
  unfold index
  rw [List.get?_eq_getElem?, List.getElem?_eq_none h]

theorem splitAux_head (sep : Char) (cs cur : List Char) :
    ∃ rest, splitAux sep cs cur = (cur.reverse ++ cs.takeWhile (fun c => c != sep)) :: rest := by
  induction cs generalizing cur with
  | nil => exact ⟨[], by simp [splitAux]⟩
  | cons c cs ih =>
    unfold splitAux
    by_cases hc : c = sep
    · exact ⟨splitAux sep cs [], by simp [hc, List.takeWhile]⟩
    · obtain ⟨rest, hr⟩ := ih (c :: cur)
      have hne : (c != sep) = true := by simp [hc]
      exact ⟨rest, by simp [hc, hr, List.takeWhile, hne]⟩

theorem Split_head (s : String) (sep : Char) :
    ∃ rest, Split s sep = before s sep :: rest := by
  obtain ⟨rest, hr⟩ := splitAux_head sep s.data []
  exact ⟨rest.map String.mk, by simp [Split, hr, before]⟩


theorem sliceFrom_of_le {α : Type} (xs : List α) (lo : Nat) (h : lo ≤ xs.length) :
    sliceFrom xs lo = .ok (xs.drop lo) := by
  simp [sliceFrom, h]

theorem getInt_drop (cols : List String) (k : Nat) (h : k + 2 < cols.length) :
    getInt (cols.drop 2) k = .ok (columnInt cols (k + 2)) := by
  have hk : k < (cols.drop 2).length := by simp; omega
  simp only [getInt, index_of_lt _ _ "" hk, columnInt]
  simp [List.getD, List.getElem?_drop, Nat.add_comm, bind, Except.bind, pure, Except.pure]

theorem ok_bind {α β : Type} (x : α) (f : α → Except Panic β) :
    (Except.ok x >>= f) = f x := rfl

theorem error_bind {α β : Type} (e : Panic) (f : α → Except Panic β) :
    (Except.error e >>= f) = Except.error e := rfl

theorem index_Split_zero (s : String) (sep : Char) :
    index (Split s sep) 0 = .ok (before s sep) := by
  obtain ⟨rest, hr⟩ := Split_head s sep
  simp [hr, index]

theorem scanLine_of_columns (line : String) (h : 21 ≤ (Split line ',').length) :
    scanLine line = .ok (recordOfColumns (Split line ',')) := by
  unfold scanLine
  generalize Split line ',' = cols at h
  simp only [index_of_lt cols 0 "" (by omega), index_of_lt cols 1 "" (by omega),
    sliceFrom_of_le cols 2 (by omega), index_Split_zero,
    getInt_drop cols 0 (by omega), getInt_drop cols 1 (by omega),
    getInt_drop cols 2 (by omega), getInt_drop cols 3 (by omega),
    getInt_drop cols 4 (by omega), getInt_drop cols 5 (by omega),
    getInt_drop cols 6 (by omega), getInt_drop cols 7 (by omega),
    getInt_drop cols 8 (by omega), getInt_drop cols 9 (by omega),
    getInt_drop cols 10 (by omega), getInt_drop cols 11 (by omega),
    getInt_drop cols 12 (by omega), getInt_drop cols 13 (by omega),
    getInt_drop cols 14 (by omega), getInt_drop cols 15 (by omega),
    getInt_drop cols 16 (by omega), getInt_drop cols 17 (by omega),
    getInt_drop cols 18 (by omega), ok_bind]
  rfl

theorem Split_length_pos (s : String) (sep : Char) : 0 < (Split s sep).length := by
  obtain ⟨rest, hr⟩ := Split_head s sep
  simp [hr]

theorem getInt_of_ge (cols : List String) (k : Nat) (h : cols.length ≤ k) :
    getInt cols k = .error (.indexOutOfRange k cols.length) := by
  simp only [getInt, index_of_ge _ _ h, error_bind]

theorem scanLine_short (line : String) (h : (Split line ',').length < 21) :
    ∃ i len, scanLine line = .error (.indexOutOfRange i len) := by
  have hpos := Split_length_pos line ','
  unfold scanLine
  generalize Split line ',' = cols at h hpos
  by_cases h1 : cols.length = 1
  · refine ⟨1, 1, ?_⟩
    simp only [index_of_lt cols 0 "" (by omega), index_of_ge cols 1 (by omega),
      index_Split_zero, ok_bind, error_bind, h1]
  · refine ⟨cols.length - 2, cols.length - 2, ?_⟩
    have hd : (cols.drop 2).length = cols.length - 2 := by simp
    have hok : ∀ k, k + 2 < cols.length →
        getInt (cols.drop 2) k = .ok (columnInt cols (k + 2)) := getInt_drop cols
    have herr : getInt (cols.drop 2) (cols.length - 2) =
        .error (.indexOutOfRange (cols.length - 2) (cols.length - 2)) := by
      rw [getInt_of_ge _ _ (by omega), hd]
    simp only [index_of_lt cols 0 "" (by omega), index_of_lt cols 1 "" (by omega),
      sliceFrom_of_le cols 2 (by omega), index_Split_zero, ok_bind]
    have hlen : cols.length = 2 ∨ cols.length = 3 ∨ cols.length = 4 ∨ cols.length = 5 ∨
        cols.length = 6 ∨ cols.length = 7 ∨ cols.length = 8 ∨ cols.length = 9 ∨
        cols.length = 10 ∨ cols.length = 11 ∨ cols.length = 12 ∨ cols.length = 13 ∨
        cols.length = 14 ∨ cols.length = 15 ∨ cols.length = 16 ∨ cols.length = 17 ∨
        cols.length = 18 ∨ cols.length = 19 ∨ cols.length = 20 := by omega
    rcases hlen with hl | hl | hl | hl | hl | hl | hl | hl | hl | hl | hl | hl | hl | hl |
      hl | hl | hl | hl | hl <;>
    · rw [hl] at herr hok
      simp only [hl, Nat.reduceSub] at herr ⊢
      simp +decide only [hok, herr, ok_bind, error_bind]


/-! ## Scanner lemmas -/

theorem linesAux_head (input : List Char) :
    ∀ cur : List Char, cur ≠ [] →
      ∃ l ∈ linesAux input cur, cur.length ≤ l.data.length := by
  induction input with
  | nil =>
    intro cur hcur
    exact ⟨String.mk cur.reverse, by simp [linesAux, hcur], by simp⟩
  | cons c cs ih =>
    intro cur hcur
    rw [linesAux]
    by_cases hc : c = '\n'
    · rw [if_pos hc]
      exact ⟨String.mk cur.reverse, List.mem_cons_self _ _, by simp⟩
    · rw [if_neg hc]
      obtain ⟨l, hl, hlen⟩ := ih (c :: cur) (by simp)
      exact ⟨l, hl, by simp only [List.length_cons] at hlen; omega⟩

theorem scanResults_of_short (input : List Char) :
    ∀ cur : List Char, (∀ l ∈ linesAux input cur, l.data.length < maxScanTokenSize) →
      scanResults input cur = (linesAux input cur).map (fun l => some (lineText l)) := by
  induction input with
  | nil =>
    intro cur _
    rw [scanResults, linesAux]
    by_cases hcur : cur = []
    · simp [hcur]
    · simp [hcur, lineText]
  | cons c cs ih =>
    intro cur h
    rw [linesAux] at h
    rw [scanResults, linesAux]
    by_cases hc : c = '\n'
    · simp only [if_pos hc] at h ⊢
      rw [ih [] (fun l hl => h l (List.mem_cons_of_mem _ hl))]
      simp [lineText]
    · simp only [if_neg hc] at h ⊢
      obtain ⟨l, hl, hlen⟩ := linesAux_head cs (c :: cur) (by simp)
      have hlt := h l hl
      have hfull : ¬ maxScanTokenSize ≤ cur.length + 1 := by
        simp only [List.length_cons] at hlen; omega
      rw [if_neg hfull, ih (c :: cur) h]

theorem NewScanner_of_short (stdin : String) (h : ShortLines stdin) :
    NewScanner stdin = (tokens stdin).map some := by
  unfold NewScanner tokens linesOf
  rw [scanResults_of_short stdin.data [] h]
  simp

theorem linesAux_line (l tail : List Char) (h : '\n' ∉ l) :
    ∀ cur : List Char,
      linesAux (l ++ '\n' :: tail) cur = String.mk (cur.reverse ++ l) :: linesAux tail [] := by
  induction l with
  | nil => intro cur; simp [linesAux]
  | cons a l ih =>
    intro cur
    have ha : a ≠ '\n' := fun e => h (by rw [e]; exact List.mem_cons_self _ _)
    have hl : '\n' ∉ l := fun e => h (List.mem_cons_of_mem _ e)
    rw [List.cons_append, linesAux, if_neg ha, ih hl]
    simp

theorem linesOf_unlines (lines : List String) (h : ∀ l ∈ lines, '\n' ∉ l.data) :
    linesOf (unlines lines) = lines := by
  unfold linesOf unlines
  induction lines with
  | nil => simp [linesAux]
  | cons l ls ih =>
    simp only [List.map_cons, List.flatten_cons, List.append_assoc, List.singleton_append]
    rw [linesAux_line _ _ (h l (List.mem_cons_self _ _)),
      ih (fun l hl => h l (List.mem_cons_of_mem _ hl))]
    simp

theorem scanResults_line (l tail : List Char) (h : '\n' ∉ l) :
    ∀ cur : List Char, cur.length + l.length < maxScanTokenSize →
      scanResults (l ++ '\n' :: tail) cur =
        some (String.mk (dropCR (cur.reverse ++ l))) :: scanResults tail [] := by
  induction l with
  | nil => intro cur _; simp [scanResults]
  | cons a l ih =>
    intro cur hlen
    have ha : a ≠ '\n' := fun e => h (by rw [e]; exact List.mem_cons_self _ _)
    have hl : '\n' ∉ l := fun e => h (List.mem_cons_of_mem _ e)
    simp only [List.length_cons] at hlen
    have hfull : ¬ maxScanTokenSize ≤ cur.length + 1 := by omega
    rw [List.cons_append, scanResults, if_neg ha, if_neg hfull,
      ih hl (a :: cur) (by simp only [List.length_cons]; omega)]
    simp

theorem scanResults_long (l tail : List Char) (h : '\n' ∉ l) :
    ∀ cur : List Char, cur.length < maxScanTokenSize →
      maxScanTokenSize ≤ cur.length + l.length →
      scanResults (l ++ tail) cur =
        [none, some (String.mk
          (dropCR (cur.reverse ++ l.take (maxScanTokenSize - cur.length))))] := by
  induction l with
  | nil =>
    intro cur h1 h2
    simp only [List.length_nil] at h2
    omega
  | cons a l ih =>
    intro cur h1 h2
    have ha : a ≠ '\n' := fun e => h (by rw [e]; exact List.mem_cons_self _ _)
    have hl : '\n' ∉ l := fun e => h (List.mem_cons_of_mem _ e)
    simp only [List.length_cons] at h2
    rw [List.cons_append, scanResults, if_neg ha]
    by_cases hfull : maxScanTokenSize ≤ cur.length + 1
    · rw [if_pos hfull]
      have h1' : maxScanTokenSize - cur.length = 1 := by omega
      rw [h1']
      simp
    · rw [if_neg hfull, ih hl (a :: cur) (by simp only [List.length_cons]; omega)
        (by simp only [List.length_cons]; omega)]
      have h1' : maxScanTokenSize - cur.length =
          (maxScanTokenSize - (a :: cur).length) + 1 := by
        simp only [List.length_cons]; omega
      rw [h1', List.take_succ_cons]
      simp

theorem NewScanner_unlines_long (pre : List String) (long : String) (post : List String)
    (hpre : ∀ l ∈ pre, '\n' ∉ l.data ∧ l.data.length < maxScanTokenSize)
    (hlong : '\n' ∉ long.data) (hlen : maxScanTokenSize ≤ long.data.length) :
    NewScanner (unlines (pre ++ long :: post)) =
      pre.map (fun l => some (lineText l)) ++
        [none, some (lineText (String.mk (long.data.take maxScanTokenSize)))] := by
  unfold NewScanner unlines
  induction pre with
  | nil =>
    simp only [List.nil_append, List.map_cons, List.flatten_cons, List.map_nil]
    rw [List.append_assoc, scanResults_long _ _ hlong [] (by decide) (by simpa using hlen)]
    simp [lineText]
  | cons l ls ih =>
    obtain ⟨h1, h2⟩ := hpre l (List.mem_cons_self _ _)
    simp only [List.cons_append, List.map_cons, List.flatten_cons, List.append_assoc,
      List.singleton_append]
    rw [scanResults_line _ _ h1 [] (by simpa using h2)]
    have := ih (fun l hl => hpre l (List.mem_cons_of_mem _ hl))
    simp only [List.map_cons, List.flatten_cons] at this
    rw [List.nil_append, this]
    simp [lineText]

theorem splitAux_length (sep : Char) (cs : List Char) :
    ∀ cur : List Char, (splitAux sep cs cur).length = cs.count sep + 1 := by
  induction cs with
  | nil => intro cur; simp [splitAux]
  | cons c cs ih =>
    intro cur
    rw [splitAux]
    by_cases hc : c = sep
    · rw [if_pos hc, List.length_cons, ih, hc, List.count_cons_self]
    · rw [if_neg hc, ih, List.count_cons_of_ne (fun e => hc e.symm)]

theorem Split_length (s : String) (sep : Char) :
    (Split s sep).length = s.data.count sep + 1 := by
  unfold Split
  rw [List.length_map, splitAux_length]

theorem count_dropCR (data : List Char) : (dropCR data).count ',' = data.count ',' := by
  unfold dropCR
  by_cases h : data.getLast? = some '\r'
  · rw [if_pos h]
    obtain ⟨ys, rfl⟩ : ∃ ys, data = ys ++ ['\r'] := by
      rw [List.getLast?_eq_some_iff] at h
      exact h
    rw [List.dropLast_concat, List.count_append]
    simp
  · rw [if_neg h]

theorem WellFormed_lineText (l : String) : WellFormed (lineText l) ↔ WellFormed l := by
  unfold WellFormed lineText
  rw [Split_length, Split_length, count_dropCR]

theorem tokens_wellFormed (stdin : String) (hwf : ∀ l ∈ linesOf stdin, WellFormed l) :
    ∀ t ∈ tokens stdin, WellFormed t := by
  intro t ht
  unfold tokens at ht
  rw [List.mem_map] at ht
  obtain ⟨l, hl, rfl⟩ := ht
  exact (WellFormed_lineText l).mpr (hwf l hl)

theorem tokens_length (stdin : String) : (tokens stdin).length = (linesOf stdin).length := by
  simp [tokens]

theorem lineText_of_no_cr (l : String) (h : l.data.getLast? ≠ some '\r') : lineText l = l := by
  unfold lineText dropCR
  rw [if_neg h]

/-! ## The loops on a stream of whole lines -/

theorem scanLoop_wellFormed (n : Int) (lines : List String)
    (hwf : ∀ l ∈ lines, WellFormed l) :
    ∀ (k : Nat) (all : List Counters), n = (all.length : Int) + k + 1 →
      scanLoop n (lines.map some) all =
        .ok (all ++ (lines.take (k + 1)).map parseLine, (lines.drop (k + 1)).map some) := by
  induction lines with
  | nil => intro k all _; simp [scanLoop]
  | cons line rest ih =>
    intro k all hn
    have hl : scanLine line = .ok (parseLine line) :=
      scanLine_of_columns line (hwf line (List.mem_cons_self _ _))
    have hrest : ∀ l ∈ rest, WellFormed l := fun l hl => hwf l (List.mem_cons_of_mem _ hl)
    rw [List.map_cons]
    unfold scanLoop
    simp only [hl]
    by_cases hk : k = 0
    · subst hk
      have : (((all ++ [parseLine line]).length : Nat) : Int) = n := by
        simp [hn]
      rw [if_pos this]
      simp
    · obtain ⟨k', rfl⟩ := Nat.exists_eq_succ_of_ne_zero hk
      have hne : ¬ ((((all ++ [parseLine line]).length : Nat) : Int) = n) := by
        simp [hn]; omega
      rw [if_neg hne, ih hrest k' (all ++ [parseLine line]) (by simp [hn]; omega)]
      simp

theorem scanN_wellFormed (n : Nat) (lines : List String)
    (hwf : ∀ l ∈ lines, WellFormed l) (hn : 1 ≤ n) :
    scanN (lines.map some) (n : Int) =
      .ok ((lines.take n).map parseLine, (lines.drop n).map some) := by
  obtain ⟨k, rfl⟩ : ∃ k, n = k + 1 := ⟨n - 1, by omega⟩
  have := scanLoop_wellFormed ((k + 1 : Nat) : Int) lines hwf k [] (by simp)
  simpa [scanN] using this

/-! ## Batching lemmas -/

theorem chunksAux_map {α β : Type} (f : α → β) (n : Nat) :
    ∀ (fuel : Nat) (xs : List α),
      chunksAux n fuel (xs.map f) = (chunksAux n fuel xs).map (List.map f) := by
  intro fuel
  induction fuel with
  | zero => intro xs; simp [chunksAux]
  | succ fuel ih =>
    intro xs
    cases xs with
    | nil => simp [chunksAux]
    | cons x xs =>
      have := ih ((x :: xs).drop n)
      simp only [List.map_cons, chunksAux, List.map_drop, List.map_take] at this ⊢
      rw [← this]

theorem runLoop_eq_feed {σ : Type} (insert : List Counters → σ → Except Panic Unit × σ)
    (n : Nat) (hn : 1 ≤ n) :
    ∀ (fuel : Nat) (lines : List String) (w : σ), lines.length < fuel →
      (∀ l ∈ lines, WellFormed l) →
      runLoop insert (n : Int) fuel (lines.map some) w =
        feed insert (chunksAux n fuel (lines.map parseLine)) w := by
  intro fuel
  induction fuel with
  | zero => intro lines w h; omega
  | succ fuel ih =>
    intro lines w hlen hwf
    unfold runLoop
    rw [scanN_wellFormed n lines hwf hn]
    cases lines with
    | nil => simp [chunksAux, feed]
    | cons l ls =>
      have hne : List.map parseLine (List.take n (l :: ls)) ≠ [] := by
        obtain ⟨k, rfl⟩ : ∃ k, n = k + 1 := ⟨n - 1, by omega⟩
        simp
      have hdrop : ((l :: ls).drop n).length < fuel := by
        simp only [List.length_drop, List.length_cons] at hlen ⊢
        omega
      have hwf2 : ∀ x ∈ (l :: ls).drop n, WellFormed x :=
        fun x hx => hwf x (List.mem_of_mem_drop hx)
      simp only [if_neg hne, List.map_cons, chunksAux, feed]
      rw [← List.map_cons, ← List.map_take]
      cases hins : insert (List.map parseLine (List.take n (l :: ls))) w with
      | mk r w2 =>
        cases r with
        | error e => rfl
        | ok u =>
          simp only []
          rw [ih _ w2 hdrop hwf2, List.map_drop]

theorem chunksAux_sizes {α : Type} (n : Nat) (hn : 1 ≤ n) :
    ∀ (fuel : Nat) (xs : List α), xs.length ≤ fuel →
      (chunksAux n fuel xs).map List.length =
        List.replicate (xs.length / n) n ++ (if xs.length % n = 0 then [] else [xs.length % n]) := by
  intro fuel
  induction fuel with
  | zero =>
    intro xs h
    have : xs = [] := List.length_eq_zero.mp (by omega)
    subst this
    simp [chunksAux]
  | succ fuel ih =>
    intro xs h
    cases xs with
    | nil => simp [chunksAux]
    | cons x xs =>
      have hd : ((x :: xs).drop n).length ≤ fuel := by
        simp only [List.length_drop, List.length_cons] at h ⊢
        omega
      simp only [chunksAux, List.map_cons, ih _ hd, List.length_take, List.length_drop]
      have hpos : 1 ≤ (x :: xs).length := by simp
      generalize (x :: xs).length = L at hpos
      by_cases hL : n ≤ L
      · have h1 : L / n = (L - n) / n + 1 := by
          rw [← Nat.sub_add_cancel hL]
          rw [Nat.add_div_right _ (by omega)]
          simp
        have h2 : (L - n) % n = L % n := by
          conv_rhs => rw [← Nat.sub_add_cancel hL]
          simp
        rw [h1, h2, Nat.min_eq_left hL, List.replicate_succ]
        simp
      · have h0 : L - n = 0 := by omega
        have h1 : L / n = 0 := Nat.div_eq_of_lt (by omega)
        have h2 : L % n = L := Nat.mod_eq_of_lt (by omega)
        have h3 : min n L = L := by omega
        have h4 : L ≠ 0 := by omega
        simp [h0, h1, h2, h3, h4]

theorem chunksAux_join {α : Type} (n : Nat) (hn : 1 ≤ n) :
    ∀ (fuel : Nat) (xs : List α), xs.length ≤ fuel →
      (chunksAux n fuel xs).flatten = xs := by
  intro fuel
  induction fuel with
  | zero =>
    intro xs h
    have : xs = [] := List.length_eq_zero.mp (by omega)
    subst this
    simp [chunksAux]
  | succ fuel ih =>
    intro xs h
    cases xs with
    | nil => simp [chunksAux]
    | cons x xs =>
      have hd : ((x :: xs).drop n).length ≤ fuel := by
        simp only [List.length_drop, List.length_cons] at h ⊢
        omega
      simp only [chunksAux, List.flatten_cons, ih _ hd, List.take_append_drop]

theorem MetricFields_length : MetricFields.length = 11 := rfl

theorem fieldByName_metric (r : Counters) :
    List.Forall₂ (fun nm v => (r.FieldByName nm).Int = .ok v) MetricFields (metricValues r) := by
  simp +decide [MetricFields, metricValues, Counters.FieldByName, Value.Int]

theorem appendPointsLoop_spec (inst : Counters) (i : Nat) :
    ∀ (names : List String) (vals : List Int) (ii : Nat) (points : List Point) (w : World),
      List.Forall₂ (fun nm v => (inst.FieldByName nm).Int = .ok v) names vals →
      i * 11 + ii + names.length ≤ points.length →
      appendPointsLoop inst i names ii points w =
        (.ok (points.take (i * 11 + ii) ++ List.zipWith (mkPoint inst) names vals ++
            points.drop (i * 11 + ii + names.length)),
          ⟨w.myCon, w.trace ++ List.replicate names.length createPointLog⟩) := by
  intro names
  induction names with
  | nil =>
    intro vals ii points w h _
    cases h
    simp [appendPointsLoop]
  | cons nm names ih =>
    intro vals ii points w h hlen
    cases h with
    | cons hv hrest =>
      rename_i v vals
      simp only [List.length_cons] at hlen
      have hidx : i * MetricFields.length + ii < points.length := by
        rw [MetricFields_length]; omega
      unfold appendPointsLoop
      simp only [hv, if_pos hidx]
      rw [ih vals (ii + 1) _ _ hrest (by simp; omega)]
      simp only [MetricFields_length, World.emit, List.set_eq_take_append_cons_drop,
        if_pos (by omega : i * 11 + ii < points.length)]
      congr 1
      · congr 1
        have hk1 : i * 11 + ii < points.length := by omega
        have ea : i * 11 + (ii + 1) = i * 11 + ii + 1 := by omega
        rw [ea]
        generalize i * 11 + ii = k at hlen hk1 ⊢
        have hlk : (List.take k points).length = k := by
          rw [List.length_take]; omega
        have e1 : ∀ pt : Point, List.take (k + 1) (List.take k points ++ pt ::
            List.drop (k + 1) points) = List.take k points ++ [pt] := by
          intro pt
          rw [List.take_append_eq_append_take, hlk]
          simp [List.take_take]
        have e2 : ∀ pt : Point, List.drop (k + 1 + names.length) (List.take k points ++ pt ::
            List.drop (k + 1) points) = List.drop (k + (names.length + 1)) points := by
          intro pt
          rw [List.drop_append_eq_append_drop, hlk]
          have h0 : List.drop (k + 1 + names.length) (List.take k points) = [] :=
            List.drop_eq_nil_of_le (by rw [hlk]; omega)
          have h1 : k + 1 + names.length - k = names.length + 1 := by omega
          rw [h0, h1, List.nil_append, List.drop_succ_cons, List.drop_drop]
          congr 1
          omega
        rw [e1, e2]
        simp [mkPoint]
      · simp [List.replicate_succ, createPointLog]

theorem take_of_append {α : Type} (A C : List α) (n : Nat) (h : A.length = n) :
    (A ++ C).take n = A := by
  subst h; simp

theorem drop_of_append {α : Type} (A C : List α) (n m : Nat) (h : A.length + m = n) :
    (A ++ C).drop n = C.drop m := by
  subst h
  rw [List.drop_append_eq_append_drop]
  simp

theorem recordPoints_length (r : Counters) : (recordPoints r).length = 11 := rfl

theorem appendPoints_spec (points : List Point) (counters : List Counters) (i : Nat)
    (w : World) (r : Counters) (hr : counters.get? i = some r)
    (hlen : i * 11 + 11 ≤ points.length) :
    appendPoints points counters i w =
      (.ok (points.take (i * 11) ++ recordPoints r ++ points.drop (i * 11 + 11)),
        ⟨w.myCon, w.trace ++ processLineLog :: List.replicate 11 createPointLog⟩) := by
  unfold appendPoints index
  simp only [hr]
  rw [appendPointsLoop_spec r i MetricFields (metricValues r) 0 points _
    (fieldByName_metric r) (by rw [MetricFields_length]; omega)]
  simp [World.emit, recordPoints, MetricFields_length, processLineLog]

theorem insertLoop_spec (counters : List Counters) :
    ∀ (k i : Nat) (pts : List Point) (w : World), i + k ≤ counters.length →
      (i + k) * 11 ≤ pts.length →
      insertLoop counters k i pts w =
        (.ok (pts.take (i * 11) ++ (((counters.drop i).take k).map recordPoints).flatten ++
            pts.drop ((i + k) * 11)),
          ⟨w.myCon, w.trace ++ reshapeLog k⟩) := by
  intro k
  induction k with
  | zero =>
    intro i pts w _ _
    simp [insertLoop, reshapeLog]
  | succ k ih =>
    intro i pts w hik hlen
    have hi : i < counters.length := by omega
    have hr : counters.get? i = some counters[i] := by
      rw [List.get?_eq_getElem?, List.getElem?_eq_getElem hi]
    unfold insertLoop
    rw [appendPoints_spec pts counters i w counters[i] hr (by omega)]
    simp only []
    have hnew : (pts.take (i * 11) ++ recordPoints counters[i] ++
        pts.drop (i * 11 + 11)).length = pts.length := by
      simp only [List.length_append, List.length_take, List.length_drop, recordPoints_length]
      omega
    rw [ih (i + 1) _ _ (by omega) (by rw [hnew]; omega)]
    congr 1
    · congr 1
      have hA : (List.take (i * 11) pts ++ recordPoints counters[i]).length = (i + 1) * 11 := by
        simp only [List.length_append, List.length_take, recordPoints_length]
        omega
      rw [take_of_append _ _ _ hA,
        drop_of_append _ _ ((i + 1 + k) * 11) (k * 11) (by rw [hA]; ring),
        List.drop_drop]
      have e : i * 11 + 11 + k * 11 = (i + (k + 1)) * 11 := by ring
      have hd : List.drop i counters = counters[i] :: List.drop (i + 1) counters :=
        List.drop_eq_getElem_cons hi
      rw [e, hd, List.take_succ_cons, List.map_cons, List.flatten_cons]
      simp only [List.append_assoc]
    · simp [reshapeLog, List.replicate_succ]

/-! ## Trace lemmas -/

theorem writes_append (a b : List Event) : writes (a ++ b) = writes a ++ writes b := by
  induction a with
  | nil => rfl
  | cons e a ih => cases e <;> simp [writes, ih]

theorem writes_replicate_log (k : Nat) (lvl : Level) (t : String) :
    writes (List.replicate k (.log lvl t)) = [] := by
  induction k with
  | zero => rfl
  | succ k ih => simp [List.replicate_succ, writes, ih]

theorem writes_reshapeLog (k : Nat) : writes (reshapeLog k) = [] := by
  induction k with
  | zero => rfl
  | succ k ih =>
    have h : reshapeLog (k + 1) =
        (processLineLog :: List.replicate 11 createPointLog) ++ reshapeLog k := by
      simp [reshapeLog, List.replicate_succ]
    rw [h, writes_append, ih]
    rfl

theorem writes_emit (w : World) (e : Event) :
    writes (w.emit e).trace = writes w.trace ++ writes [e] := by
  simp [World.emit, writes_append]

theorem writes_logIfError (w : World) (err : Option String) :
    writes (w.logIfError err).trace = writes w.trace := by
  cases err <;> simp [World.logIfError, writes_emit, writes]

theorem connect_writes (env : Env) (cfg : Flags) (w : World) :
    writes (connect env cfg w).2.trace = writes w.trace := by
  unfold connect
  dsimp only
  split
  · rfl
  · split
    · simp [writes_logIfError, writes_emit, writes]
    · simp [writes_logIfError, writes_emit, writes, writes_append]

theorem getInfluxClient_writes (env : Env) (cfg : Flags) (w : World) :
    writes (getInfluxClient env cfg w).2.trace = writes w.trace := by
  unfold getInfluxClient
  dsimp only
  split
  · split
    · simp [writes_emit, writes]
    · simp [connect_writes, writes_emit, writes]
  · exact connect_writes env cfg w

theorem connect_ok (env : Env) (cfg : Flags) (h : env.Constructs cfg) (w : World) :
    ∃ c, (connect env cfg w).1 = .ok c := by
  obtain ⟨hu, hn⟩ := h
  unfold connect
  obtain ⟨u, hu⟩ := Option.isSome_iff_exists.mp hu
  obtain ⟨c, hc⟩ := Option.isSome_iff_exists.mp (hn (w.emit
    (.log .info "InfluxDB Client: Connecting to %s")).trace ⟨u, cfg.influxUser, cfg.influxPassword⟩)
  dsimp only
  rw [hu]
  dsimp only
  rw [hc]
  exact ⟨c, rfl⟩

theorem getInfluxClient_ok (env : Env) (cfg : Flags) (h : env.Constructs cfg) (w : World) :
    ∃ c, (getInfluxClient env cfg w).1 = .ok c := by
  unfold getInfluxClient
  dsimp only
  split
  · split
    · exact ⟨_, rfl⟩
    · exact connect_ok env cfg h _
  · exact connect_ok env cfg h w

theorem insertIntoInflux_eq (env : Env) (cfg : Flags) (counters : List Counters) (w : World) :
    insertIntoInflux env cfg counters w =
      match getInfluxClient env cfg (reshaped counters w) with
      | (.error e, w1) => (.error e, w1)
      | (.ok con, w1) =>
        (.ok (), ((w1.emit (.log .info "InfluxDB Client: start inserting chunk")).emit
          (.write con (batchPoints cfg counters))).logIfError
            (env.write (w1.trace ++ [.log .info "InfluxDB Client: start inserting chunk"]) con
              (batchPoints cfg counters))) := by
  unfold insertIntoInflux
  simp only []
  rw [insertLoop_spec counters counters.length 0 _ _ (by simp)
    (by simp [MetricFields_length])]
  simp only [MetricFields_length]
  have hp : List.take (0 * 11) (List.replicate (counters.length * 11) Point.zero) ++
      (List.map recordPoints (List.take counters.length (List.drop 0 counters))).flatten ++
      List.drop ((0 + counters.length) * 11) (List.replicate (counters.length * 11) Point.zero)
      = allPoints counters := by
    simp [allPoints]
  rw [hp]
  have hw : (⟨(w.emit (.log .debug "allocate Point slice of size %d")).myCon,
      (w.emit (.log .debug "allocate Point slice of size %d")).trace ++
        reshapeLog counters.length⟩ : World) = reshaped counters w := by
    simp [World.emit, reshaped]
  rw [hw]
  rfl


theorem writes_reshaped (counters : List Counters) (w : World) :
    writes (reshaped counters w).trace = writes w.trace := by
  simp [reshaped, writes_append, writes, writes_reshapeLog]

theorem insertIntoInflux_ok (env : Env) (cfg : Flags) (h : env.Constructs cfg)
    (counters : List Counters) (w : World) :
    ∃ w', insertIntoInflux env cfg counters w = (.ok (), w') ∧
      (writes w'.trace).map Prod.snd =
        (writes w.trace).map Prod.snd ++ [batchPoints cfg counters] := by
  rw [insertIntoInflux_eq]
  obtain ⟨c, hc⟩ := getInfluxClient_ok env cfg h (reshaped counters w)
  have hw := getInfluxClient_writes env cfg (reshaped counters w)
  cases hg : getInfluxClient env cfg (reshaped counters w) with
  | mk r w1 =>
    rw [hg] at hc hw
    simp only at hc hw
    subst hc
    refine ⟨_, rfl, ?_⟩
    simp [writes_logIfError, writes_emit, writes, hw, writes_reshaped]

theorem feed_insert_ok (env : Env) (cfg : Flags) (h : env.Constructs cfg) :
    ∀ (bs : List (List Counters)) (w : World),
      ∃ w', feed (insertIntoInflux env cfg) bs w = (some (.ok ()), w') ∧
        (writes w'.trace).map Prod.snd =
          (writes w.trace).map Prod.snd ++ bs.map (batchPoints cfg) := by
  intro bs
  induction bs with
  | nil => intro w; exact ⟨w, rfl, by simp⟩
  | cons b bs ih =>
    intro w
    obtain ⟨w1, h1, hw1⟩ := insertIntoInflux_ok env cfg h b w
    obtain ⟨w2, h2, hw2⟩ := ih w1
    refine ⟨w2, ?_, ?_⟩
    · simp only [feed, h1, h2]
    · rw [hw2, hw1]; simp

/-! ## End-to-end order and batch partition -/

theorem scanLoop_length (n : Int) :
    ∀ (scanner : Scanner) (all all' : List Counters) (rest : Scanner),
      scanLoop n scanner all = .ok (all', rest) →
        rest.length ≤ scanner.length ∧ (all' ≠ all → rest.length < scanner.length) := by
  intro scanner
  induction scanner with
  | nil =>
    intro all all' rest h
    simp only [scanLoop, Except.ok.injEq, Prod.mk.injEq] at h
    obtain ⟨h1, h2⟩ := h
    subst h1 h2
    exact ⟨Nat.le_refl _, fun hne => absurd rfl hne⟩
  | cons r scanner ih =>
    intro all all' rest h
    cases r with
    | none =>
      simp only [scanLoop, Except.ok.injEq, Prod.mk.injEq] at h
      obtain ⟨h1, h2⟩ := h
      subst h1 h2
      exact ⟨Nat.le_succ _, fun hne => absurd rfl hne⟩
    | some line =>
      rw [scanLoop] at h
      cases hl : scanLine line with
      | error e => rw [hl] at h; exact absurd h (by simp)
      | ok tmp =>
        rw [hl] at h
        simp only at h
        by_cases hfull : ((all ++ [tmp]).length : Int) = n
        · rw [if_pos hfull] at h
          simp only [Except.ok.injEq, Prod.mk.injEq] at h
          obtain ⟨_, h2⟩ := h
          subst h2
          exact ⟨Nat.le_succ _, fun _ => Nat.lt_succ_self _⟩
        · rw [if_neg hfull] at h
          have := (ih _ _ _ h).1
          simp only [List.length_cons]
          exact ⟨by omega, fun _ => by omega⟩

theorem runLoop_returns {σ : Type} (insert : List Counters → σ → Except Panic Unit × σ)
    (n : Int) :
    ∀ (fuel : Nat) (scanner : Scanner) (w : σ), scanner.length < fuel →
      (runLoop insert n fuel scanner w).1 ≠ none := by
  intro fuel
  induction fuel with
  | zero => intro scanner w h; omega
  | succ fuel ih =>
    intro scanner w hlen
    rw [runLoop]
    cases hs : scanN scanner n with
    | error e => simp
    | ok p =>
      obtain ⟨all, rest⟩ := p
      simp only
      by_cases hall : all = []
      · rw [if_pos hall]; simp
      · rw [if_neg hall]
        cases hi : insert all w with
        | mk r w2 =>
          cases r with
          | error e => simp
          | ok u =>
            simp only
            have := (scanLoop_length n scanner [] all rest hs).2 hall
            exact ih rest w2 (by omega)

/-- The function `run` returns or panics on every input: the fuel of its loop
never runs out. -/
theorem run_returns (env : Env) (cfg : Flags) (stdin : String) (w : World) :
    (run env cfg stdin w).1 ≠ none :=
  runLoop_returns _ _ _ _ _ (Nat.lt_succ_self _)

theorem run_eq_feed (env : Env) (cfg : Flags) (n : Nat) (hn : 1 ≤ n) (stdin : String)
    (w : World) (hchunk : cfg.chunkSize = (n : Int)) (hshort : ShortLines stdin)
    (hwf : ∀ l ∈ linesOf stdin, WellFormed l) :
    run env cfg stdin w = feed (insertIntoInflux env cfg)
      (chunksAux n ((tokens stdin).length + 1) ((tokens stdin).map parseLine)) w := by
  unfold run
  rw [hchunk, NewScanner_of_short stdin hshort, List.length_map,
    runLoop_eq_feed _ n hn _ _ _ (Nat.lt_succ_self _) (tokens_wellFormed stdin hwf)]

theorem batches_eq_chunks (n : Nat) (hn : 1 ≤ n) (stdin : String) (hshort : ShortLines stdin)
    (hwf : ∀ l ∈ linesOf stdin, WellFormed l) :
    batches (n : Int) stdin =
      (some (.ok ()),
        chunksAux n ((tokens stdin).length + 1) ((tokens stdin).map parseLine)) := by
  unfold batches
  rw [NewScanner_of_short stdin hshort, List.length_map,
    runLoop_eq_feed _ n hn _ _ _ (Nat.lt_succ_self _) (tokens_wellFormed stdin hwf)]
  generalize chunksAux n ((tokens stdin).length + 1) ((tokens stdin).map parseLine) = bs
  have : ∀ (bs acc : List (List Counters)),
      feed (fun all acc => ((.ok () : Except Panic Unit), acc ++ [all])) bs acc =
        (some (.ok ()), acc ++ bs) := by
    intro bs
    induction bs with
    | nil => intro acc; simp [feed]
    | cons b bs ih => intro acc; simp [feed, ih]
  simpa using this bs []

theorem tokens_map {β : Type} (stdin : String) (f : String → β) :
    (tokens stdin).map f = (linesOf stdin).map (fun l => f (lineText l)) := by
  simp [tokens]

/-- C1 as amended: for every chunk size `n ≥ 1`, every input whose lines are
well-formed (at least 21 columns) and shorter than 65536 bytes, and a store
whose client can be built, `run` returns, the text of every line parses to
its record, and the points of the `Write` calls it makes, concatenated in
call order, are the 11 points of each parsed record in `MetricFields` order,
concatenated in input order: nothing is dropped, duplicated or reordered. -/
theorem run_points_in_order (env : Env) (cfg : Flags) (n : Nat) (stdin : String) (w : World)
    (hn : 1 ≤ n) (hchunk : cfg.chunkSize = (n : Int)) (hshort : ShortLines stdin)
    (hwf : ∀ l ∈ linesOf stdin, WellFormed l) (henv : env.Constructs cfg) :
    (∀ l ∈ linesOf stdin, scanLine (lineText l) = .ok (parseLine (lineText l))) ∧
    ∃ w', run env cfg stdin w = (some (.ok ()), w') ∧
      ((writes w'.trace).map (fun cw => cw.2.Points)).flatten =
        ((writes w.trace).map (fun cw => cw.2.Points)).flatten ++
          ((linesOf stdin).map (fun l => recordPoints (parseLine (lineText l)))).flatten := by
  refine ⟨fun l hl => scanLine_of_columns _ ((WellFormed_lineText l).mpr (hwf l hl)), ?_⟩
  rw [run_eq_feed env cfg n hn stdin w hchunk hshort hwf]
  obtain ⟨w', hrun, hw⟩ := feed_insert_ok env cfg henv
    (chunksAux n ((tokens stdin).length + 1) ((tokens stdin).map parseLine)) w
  refine ⟨w', hrun, ?_⟩
  have hmap : (writes w'.trace).map (fun cw => cw.2.Points) =
      ((writes w'.trace).map Prod.snd).map BatchPoints.Points := by
    simp
  have hmap0 : (writes w.trace).map (fun cw => cw.2.Points) =
      ((writes w.trace).map Prod.snd).map BatchPoints.Points := by
    simp
  rw [hmap, hmap0, hw, List.map_append, List.flatten_append]
  congr 1
  have hj := chunksAux_join n hn ((tokens stdin).length + 1) ((tokens stdin).map parseLine)
    (by simp)
  have : (List.map BatchPoints.Points (List.map (batchPoints cfg)
      (chunksAux n ((tokens stdin).length + 1) ((tokens stdin).map parseLine)))).flatten =
      ((chunksAux n ((tokens stdin).length + 1)
        ((tokens stdin).map parseLine)).flatten.map recordPoints).flatten := by
    generalize chunksAux n ((tokens stdin).length + 1) ((tokens stdin).map parseLine) = bs
    induction bs with
    | nil => rfl
    | cons b bs ih =>
      simp only [List.map_cons, List.flatten_cons, List.map_append, List.flatten_append, ih]
      rfl
  rw [this, hj, List.map_map, tokens_map]
  rfl

/-- Witness of amended C1: two scenario lines, chunk size 2, a healthy
store. -/
theorem run_points_in_order_witness :
    1 ≤ 2 ∧ (flagsWith 2).chunkSize = ((2 : Nat) : Int) ∧
    ShortLines (unlines [scenarioLine, scenarioLine]) ∧
    linesOf (unlines [scenarioLine, scenarioLine]) = [scenarioLine, scenarioLine] ∧
    (∀ l ∈ linesOf (unlines [scenarioLine, scenarioLine]), WellFormed l) ∧
    healthyEnv.Constructs (flagsWith 2) ∧
    ((∀ l ∈ linesOf (unlines [scenarioLine, scenarioLine]),
      scanLine (lineText l) = .ok (parseLine (lineText l))) ∧
    ∃ w', run healthyEnv (flagsWith 2) (unlines [scenarioLine, scenarioLine]) World.initial =
        (some (.ok ()), w') ∧
      ((writes w'.trace).map (fun cw => cw.2.Points)).flatten =
        ((writes World.initial.trace).map (fun cw => cw.2.Points)).flatten ++
          ((linesOf (unlines [scenarioLine, scenarioLine])).map
            (fun l => recordPoints (parseLine (lineText l)))).flatten) :=
  ⟨by decide, rfl, by decide, by decide, by decide, ⟨rfl, fun _ _ => rfl⟩,
    run_points_in_order healthyEnv (flagsWith 2) 2 (unlines [scenarioLine, scenarioLine])
      World.initial (by decide) rfl (by decide) (by decide) ⟨rfl, fun _ _ => rfl⟩⟩

theorem sizes_length (n : Nat) (hn : 1 ≤ n) (L k : Nat)
    (h : k = L / n + (if L % n = 0 then 0 else 1)) : k = (L + n - 1) / n := by
  have hdm := Nat.div_add_mod L n
  have hmod : L % n < n := Nat.mod_lt _ (by omega)
  have hc : n * (L / n) = L / n * n := Nat.mul_comm _ _
  symm
  by_cases hm : L % n = 0
  · rw [if_pos hm, Nat.add_zero] at h
    subst h
    apply Nat.div_eq_of_lt_le
    · omega
    · rw [Nat.add_mul]; omega
  · rw [if_neg hm] at h
    subst h
    apply Nat.div_eq_of_lt_le
    · rw [Nat.add_mul]; omega
    · rw [Nat.add_mul, Nat.add_mul]; omega

theorem chunksAux_partition {α : Type} (n : Nat) (hn : 1 ≤ n) (xs : List α) (L : Nat)
    (hL : xs.length = L) :
    (chunksAux n (L + 1) xs).length = (L + n - 1) / n ∧
    (chunksAux n (L + 1) xs).map List.length =
      List.replicate (L / n) n ++ (if L % n = 0 then [] else [L % n]) ∧
    (∀ i, i + 1 < (chunksAux n (L + 1) xs).length →
      ((chunksAux n (L + 1) xs).map List.length).get? i = some n) ∧
    (0 < L → ((chunksAux n (L + 1) xs).map List.length).getLast? =
      some (if L % n = 0 then n else L % n)) ∧
    ((chunksAux n (L + 1) xs).map List.length).sum = L ∧
    (chunksAux n (L + 1) xs).flatten = xs := by
  subst hL
  have hsz := chunksAux_sizes n hn (xs.length + 1) xs (by simp)
  have hj := chunksAux_join n hn (xs.length + 1) xs (by simp)
  generalize chunksAux n (xs.length + 1) xs = bs at hsz hj
  refine ⟨?_, hsz, ?_, ?_, ?_, hj⟩
  · apply sizes_length n hn
    have hl := congrArg List.length hsz
    by_cases hm : xs.length % n = 0
    · simpa [hm] using hl
    · simpa [hm] using hl
  · intro i hi
    rw [hsz]
    have hb : bs.length = (bs.map List.length).length := by simp
    rw [hb, hsz] at hi
    have hiq : i < xs.length / n := by
      by_cases hm : xs.length % n = 0
      · simp [hm] at hi; omega
      · simp [hm] at hi; omega
    rw [List.get?_eq_getElem?, List.getElem?_append_left (by simpa using hiq)]
    simp [hiq]
  · intro hpos
    rw [hsz]
    by_cases hm : xs.length % n = 0
    · have hq : 1 ≤ xs.length / n :=
        Nat.div_pos (Nat.le_of_dvd hpos (Nat.dvd_of_mod_eq_zero hm)) (by omega)
      obtain ⟨q, hq'⟩ : ∃ q, xs.length / n = q + 1 := ⟨xs.length / n - 1, by omega⟩
      simp [hm, hq', List.replicate_succ', List.getLast?_append]
    · simp [hm, List.getLast?_append]
  · rw [hsz]
    have := Nat.div_add_mod xs.length n
    by_cases hm : xs.length % n = 0
    · simp [hm] at this ⊢
      rw [Nat.mul_comm]; exact this
    · simp [hm]
      rw [Nat.mul_comm]; exact this

/-- C2 as amended: for every chunk size `n ≥ 1` and every input of `L`
well-formed lines, each shorter than 65536 bytes, the loop of `run` finishes
and hands on exactly `ceil(L/n)` batches; every batch but the last has `n`
records and the last has `L mod n` (or `n` when `n` divides `L`), that is, the
sizes are `L / n` times `n` followed by `L mod n` when that is not zero; the
sizes sum to `L`; the batches are the parsed lines in order; and `run` itself
hands these same batches to `insertIntoInflux`. -/
theorem batches_partition (n : Nat) (stdin : String) (hn : 1 ≤ n) (hshort : ShortLines stdin)
    (hwf : ∀ l ∈ linesOf stdin, WellFormed l) :
    ∃ bs, batches (n : Int) stdin = (some (.ok ()), bs) ∧
      bs.length = ((linesOf stdin).length + n - 1) / n ∧
      bs.map List.length = List.replicate ((linesOf stdin).length / n) n ++
        (if (linesOf stdin).length % n = 0 then [] else [(linesOf stdin).length % n]) ∧
      (∀ i, i + 1 < bs.length → (bs.map List.length).get? i = some n) ∧
      (0 < (linesOf stdin).length → (bs.map List.length).getLast? =
        some (if (linesOf stdin).length % n = 0 then n else (linesOf stdin).length % n)) ∧
      (bs.map List.length).sum = (linesOf stdin).length ∧
      bs.flatten = (linesOf stdin).map (fun l => parseLine (lineText l)) ∧
      (∀ (env : Env) (cfg : Flags) (w : World), cfg.chunkSize = (n : Int) →
        run env cfg stdin w = feed (insertIntoInflux env cfg) bs w) := by
  have hlen : ((tokens stdin).map parseLine).length = (linesOf stdin).length := by
    simp [tokens]
  have hb := batches_eq_chunks n hn stdin hshort hwf
  have hrun := fun (env : Env) (cfg : Flags) (w : World) (hc : cfg.chunkSize = (n : Int)) =>
    run_eq_feed env cfg n hn stdin w hc hshort hwf
  rw [tokens_length] at hb hrun
  obtain ⟨h1, h2, h3, h4, h5, h6⟩ :=
    chunksAux_partition n hn ((tokens stdin).map parseLine) (linesOf stdin).length hlen
  exact ⟨_, hb, h1, h2, h3, h4, h5, h6.trans (tokens_map stdin parseLine), hrun⟩

/-- Witness of amended C2: chunk size 100 and 250 well-formed lines give
three batches of sizes 100, 100 and 50. -/
theorem batches_partition_witness :
    1 ≤ 100 ∧ ShortLines (unlines (List.replicate 250 scenarioLine)) ∧
    (∀ l ∈ linesOf (unlines (List.replicate 250 scenarioLine)), WellFormed l) ∧
    (linesOf (unlines (List.replicate 250 scenarioLine))).length = 250 ∧
    ∃ bs, batches ((100 : Nat) : Int) (unlines (List.replicate 250 scenarioLine)) =
        (some (.ok ()), bs) ∧
      bs.length = 3 ∧ bs.map List.length = [100, 100, 50] ∧
      (bs.map List.length).sum = 250 := by
  have hlines : linesOf (unlines (List.replicate 250 scenarioLine)) =
      List.replicate 250 scenarioLine := by
    apply linesOf_unlines
    intro l hl
    rw [List.eq_of_mem_replicate hl]
    decide
  have hshort : ShortLines (unlines (List.replicate 250 scenarioLine)) := by
    unfold ShortLines
    rw [hlines]
    intro l hl
    rw [List.eq_of_mem_replicate hl]
    decide
  have hwf : ∀ l ∈ linesOf (unlines (List.replicate 250 scenarioLine)), WellFormed l := by
    rw [hlines]
    intro l hl
    rw [List.eq_of_mem_replicate hl]
    decide
  have hL : (linesOf (unlines (List.replicate 250 scenarioLine))).length = 250 := by
    rw [hlines, List.length_replicate]
  obtain ⟨bs, hb, hlen, hsz, _, _, hsum, _, _⟩ :=
    batches_partition 100 (unlines (List.replicate 250 scenarioLine)) (by decide) hshort hwf
  rw [hL] at hlen hsz hsum
  exact ⟨by decide, hshort, hwf, hL, bs, hb, hlen, hsz, hsum⟩

/-! ## Reshape and positional parsing -/

theorem getElem?_middle {α : Type} (A B C : List α) (n j : Nat) (hA : A.length = n)
    (hj : j < B.length) : (A ++ B ++ C).get? (n + j) = B.get? j := by
  subst hA
  rw [List.get?_eq_getElem?, List.get?_eq_getElem?, List.append_assoc,
    List.getElem?_append_right (by omega)]
  simp only [Nat.add_sub_cancel_left]
  rw [List.getElem?_append_left hj]

theorem getElem?_before {α : Type} (A B C : List α) (P : List α) (n k : Nat)
    (hA : A = P.take n) (hk : k < n) (hn : n ≤ P.length) :
    (A ++ B ++ C).get? k = P.get? k := by
  subst hA
  rw [List.get?_eq_getElem?, List.get?_eq_getElem?, List.append_assoc,
    List.getElem?_append_left (by rw [List.length_take]; omega), List.getElem?_take, if_pos hk]

theorem getElem?_after {α : Type} (A B : List α) (P : List α) (n b k : Nat)
    (hA : A.length = n) (hB : B.length = b) (hk : n + b ≤ k) :
    (A ++ B ++ P.drop (n + b)).get? k = P.get? k := by
  subst hA hB
  rw [List.get?_eq_getElem?, List.get?_eq_getElem?,
    List.getElem?_append_right (by simp; omega), List.getElem?_drop]
  congr 1
  simp only [List.length_append]
  omega

theorem recordPoints_get (r : Counters) (j : Nat) (hj : j < 11) :
    (recordPoints r).get? j =
      some (mkPoint r (MetricFields.getD j "") ((metricValues r).getD j 0)) ∧
    r.FieldByName (MetricFields.getD j "") = .int ((metricValues r).getD j 0) := by
  have h : j = 0 ∨ j = 1 ∨ j = 2 ∨ j = 3 ∨ j = 4 ∨ j = 5 ∨ j = 6 ∨ j = 7 ∨ j = 8 ∨ j = 9 ∨
      j = 10 := by omega
  rcases h with h | h | h | h | h | h | h | h | h | h | h <;> subst h <;>
    exact ⟨rfl, by simp +decide [MetricFields, metricValues, Counters.FieldByName]⟩

/-- C3: for the record `r` at position `i` of a batch, `appendPoints` returns
and fills exactly the 11 slots `11*i .. 11*i+10` of the point slice: slot
`11*i+j` gets Measurement `MetricFields[j]`, Tags Source = `r.Source` and
IfIndex = the decimal rendering of `r.IfIndex`, Fields value = the integer
field of `r` named `MetricFields[j]`, Time `r.TimeStamp` and Precision `"s"`;
every other slot and the cached client are left as they were. -/
theorem appendPoints_reshape (points : List Point) (counters : List Counters) (i : Nat)
    (w : World) (r : Counters) (hr : counters.get? i = some r)
    (hlen : i * 11 + 11 ≤ points.length) :
    ∃ points' w', appendPoints points counters i w = (.ok points', w') ∧
      points'.length = points.length ∧ MetricFields.length = 11 ∧
      (∀ j, j < 11 →
        r.FieldByName (MetricFields.getD j "") = .int ((metricValues r).getD j 0) ∧
        points'.get? (i * 11 + j) = some
          { Measurement := MetricFields.getD j ""
            Tags := [("Source", r.Source), ("IfIndex", formatInt r.IfIndex)]
            Fields := [("value", (metricValues r).getD j 0)]
            Time := r.TimeStamp
            Precision := "s" }) ∧
      (∀ k, k < i * 11 ∨ i * 11 + 11 ≤ k → points'.get? k = points.get? k) ∧
      w'.myCon = w.myCon := by
  refine ⟨_, _, appendPoints_spec points counters i w r hr hlen, ?_, rfl, ?_, ?_, rfl⟩
  · simp only [List.length_append, List.length_take, List.length_drop, recordPoints_length]
    omega
  · intro j hj
    refine ⟨(recordPoints_get r j hj).2, ?_⟩
    rw [getElem?_middle _ _ _ (i * 11) j (by rw [List.length_take]; omega)
      (by rw [recordPoints_length]; exact hj), (recordPoints_get r j hj).1]
    rfl
  · intro k hk
    rcases hk with hk | hk
    · exact getElem?_before _ _ _ points (i * 11) k rfl hk (by omega)
    · exact getElem?_after _ _ points (i * 11) 11 k (by rw [List.length_take]; omega)
        (recordPoints_length r) hk

/-- Witness of C3: the record of scenario 1 at position 0 gives a first point
IfInOctets with value 10, Source eth0, IfIndex 1 and time 1700000000. -/
theorem appendPoints_reshape_witness :
    [scenarioRecord].get? 0 = some scenarioRecord ∧
    0 * 11 + 11 ≤ (List.replicate 11 Point.zero).length ∧
    ∃ points' w', appendPoints (List.replicate 11 Point.zero) [scenarioRecord] 0
        World.initial = (.ok points', w') ∧
      points'.length = 11 ∧
      points'.get? 0 = some
        { Measurement := "IfInOctets"
          Tags := [("Source", "eth0"), ("IfIndex", "1")]
          Fields := [("value", 10)]
          Time := ⟨1700000000⟩
          Precision := "s" } := by
  obtain ⟨points', w', h, hl, _, hj, _, _⟩ :=
    appendPoints_reshape (List.replicate 11 Point.zero) [scenarioRecord] 0 World.initial
      scenarioRecord rfl (by decide)
  have e : formatInt scenarioRecord.IfIndex = "1" := by decide
  have h0 := (hj 0 (by decide)).2
  rw [e] at h0
  exact ⟨rfl, by decide, points', w', h, hl, h0⟩

/-- C4: for every line whose comma split has at least 21 columns, the loop
body of `scanN` builds the record with TimeStamp = the integer parse of the
part of column 0 before its first space (epoch seconds), Source = column 1
and the 19 integer fields = `getInt` of columns 2..20 in declaration order;
`scanN` returns that record. -/
theorem scanN_positional (line : String) (cols : List String) (rest : Scanner)
    (hcols : Split line ',' = cols) (h : 21 ≤ cols.length) :
    scanLine line = .ok
      { Source := cols.getD 1 ""
        IfIndex := columnInt cols 2
        IfType := columnInt cols 3
        IfSpeed := columnInt cols 4
        IfDirection := columnInt cols 5
        IfStatus := columnInt cols 6
        IfInOctets := columnInt cols 7
        IfInUcastPkts := columnInt cols 8
        IfInMulticastPkts := columnInt cols 9
        IfInBroadcastPkts := columnInt cols 10
        IfInDiscards := columnInt cols 11
        IfInErrors := columnInt cols 12
        IfInUnknownProtos := columnInt cols 13
        IfOutOctets := columnInt cols 14
        IfOutUcastPkts := columnInt cols 15
        IfOutMulticastPkts := columnInt cols 16
        IfOutBroadcastPkts := columnInt cols 17
        IfOutDiscards := columnInt cols 18
        IfOutErrors := columnInt cols 19
        IfPromiscuousMode := columnInt cols 20
        TimeStamp := Time.Unix (ParseInt (before (cols.getD 0 "") ' ') 0 64).1 } ∧
    (∀ k, k < 19 → getInt (cols.drop 2) k = .ok (columnInt cols (k + 2))) ∧
    (∀ k, columnInt cols k = (ParseInt (cols.getD k "") 0 64).1) ∧
    scanN (some line :: rest) 1 = .ok ([recordOfColumns cols], rest) ∧
    scanN [some line] 100 = .ok ([recordOfColumns cols], []) := by
  subst hcols
  have hl := scanLine_of_columns line h
  refine ⟨hl, fun k hk => getInt_drop _ k (by omega), fun _ => rfl, ?_, ?_⟩
  · simp [scanN, scanLoop, hl]
  · simp [scanN, scanLoop, hl]

/-- Witness of C4: the line of scenario 1 gives TimeStamp 1700000000, Source
eth0, IfIndex 1, IfInOctets 10, IfOutOctets 5, IfOutErrors 1. -/
theorem scanN_positional_witness :
    Split scenarioLine ',' = Split scenarioLine ',' ∧ 21 ≤ (Split scenarioLine ',').length ∧
    scanLine scenarioLine = .ok scenarioRecord ∧
    scanN [some scenarioLine] 1 = .ok ([scenarioRecord], []) ∧
    scenarioRecord.TimeStamp = Time.Unix 1700000000 ∧ scenarioRecord.Source = "eth0" ∧
    scenarioRecord.IfIndex = 1 ∧ scenarioRecord.IfInOctets = 10 ∧
    scenarioRecord.IfOutOctets = 5 ∧ scenarioRecord.IfOutErrors = 1 := by
  obtain ⟨h1, _, _, h2, _⟩ :=
    scanN_positional scenarioLine (Split scenarioLine ',') [] rfl (by decide)
  have e : recordOfColumns (Split scenarioLine ',') = scenarioRecord := by decide
  rw [e] at h2
  exact ⟨rfl, by decide, h1.trans (congrArg Except.ok e), h2, rfl, rfl, rfl, rfl, rfl, rfl⟩

/-! ## Malformed lines and failed integer parses -/

theorem parseDigits_error (base cutoff maxVal : Nat) (base0 : Bool) :
    ∀ (cs : List Char) (n : Nat) (us : Bool),
      DigitsErr maxVal (parseDigits base cutoff maxVal base0 cs n us) := by
  intro cs
  induction cs with
  | nil => intro n us e h; simp [parseDigits] at h
  | cons c cs ih =>
    intro n us
    unfold parseDigits
    split
    · exact ih _ _
    · split
      · intro e h
        exact Or.inl ⟨(Option.some.inj h).symm, rfl⟩
      · split
        · intro e h
          exact Or.inl ⟨(Option.some.inj h).symm, rfl⟩
        · split
          · intro e h
            exact Or.inr ⟨(Option.some.inj h).symm, rfl⟩
          · dsimp only
            split
            · intro e h
              exact Or.inr ⟨(Option.some.inj h).symm, rfl⟩
            · exact ih _ _

theorem ParseUintChars_error (s : List Char) (e : NumError)
    (h : (ParseUintChars s 0 64).2 = some e) :
    (e = .errSyntax ∧ (ParseUintChars s 0 64).1 = 0) ∨
    (e = .errRange ∧ (ParseUintChars s 0 64).1 = 2 ^ 64 - 1) := by
  have hr := parseDigits_error (detectBase s).1 ((2 ^ 64 - 1) / (detectBase s).1 + 1)
      (2 ^ 64 - 1) (0 == 0) (detectBase s).2 0 false
  revert h
  unfold ParseUintChars
  split
  · intro h
    exact Or.inl ⟨(Option.some.inj h).symm, rfl⟩
  · dsimp only
    rw [if_neg (by decide), if_pos rfl, if_neg (by decide), if_neg (by decide)]
    generalize parseDigits (detectBase s).1 ((2 ^ 64 - 1) / (detectBase s).1 + 1)
      (2 ^ 64 - 1) (0 == 0) (detectBase s).2 0 false = r at hr
    obtain ⟨n, us, err⟩ := r
    cases err with
    | some e' =>
      intro h
      have := hr e' rfl
      rw [← Option.some.inj h]
      exact this
    | none =>
      dsimp only
      split
      · intro h
        exact Or.inl ⟨(Option.some.inj h).symm, rfl⟩
      · intro h
        exact absurd h (by simp)

theorem ParseIntChars_error (s : List Char) (e : NumError)
    (h : (ParseIntChars s 0 64).2 = some e) :
    (e = .errSyntax ∧ (ParseIntChars s 0 64).1 = 0) ∨
    (e = .errRange ∧ s.head? ≠ some '-' ∧
      (ParseIntChars s 0 64).1 = 9223372036854775807) ∨
    (e = .errRange ∧ s.head? = some '-' ∧
      (ParseIntChars s 0 64).1 = -9223372036854775808) := by
  revert h
  unfold ParseIntChars
  cases s with
  | nil =>
    intro h
    exact Or.inl ⟨(Option.some.inj h).symm, rfl⟩
  | cons c cs =>
    dsimp only
    have hu := ParseUintChars_error (if c = '+' ∨ c = '-' then cs else c :: cs)
    generalize ParseUintChars (if c = '+' ∨ c = '-' then cs else c :: cs) 0 64 = r at hu
    obtain ⟨un, err⟩ := r
    dsimp only
    split
    · rename_i hne
      intro h
      dsimp only at h
      obtain ⟨e', he'⟩ := Option.ne_none_iff_exists'.mp hne.1
      subst he'
      rcases hu e' rfl with ⟨h1, _⟩ | ⟨h1, _⟩
      · exact Or.inl ⟨(Option.some.inj h).symm.trans h1, rfl⟩
      · exact absurd (congrArg some h1) hne.2
    · have h64 : (if 64 = 0 then 64 else 64) = 64 := rfl
      rw [h64]
      split
      · rename_i hpos
        intro h
        have hc : c ≠ '-' := by simpa using hpos.1
        exact Or.inr (Or.inl ⟨(Option.some.inj h).symm,
          by simpa using hc, by norm_num⟩)
      · split
        · rename_i hneg
          intro h
          have hc : c = '-' := by simpa using hneg.1
          exact Or.inr (Or.inr ⟨(Option.some.inj h).symm, by simp [hc], by norm_num⟩)
        · split
          · intro h; exact absurd h (by simp)
          · intro h; exact absurd h (by simp)

/-- C5, the code at the failing input: a three-column line between two
well-formed lines makes `scanN` panic with an index out of range, as does an
empty line; no record is returned, and `run` ends in that panic without any
call to the store. -/
theorem scanN_short_line_panics :
    WellFormed scenarioLine ∧ ¬ WellFormed shortLine ∧ ¬ WellFormed "" ∧
    NewScanner (unlines [scenarioLine, shortLine, scenarioLine]) =
      [some scenarioLine, some shortLine, some scenarioLine] ∧
    scanN (NewScanner (unlines [scenarioLine, shortLine, scenarioLine])) 100 =
      .error (.indexOutOfRange 1 1) ∧
    NewScanner (unlines [""]) = [some ""] ∧
    scanN (NewScanner (unlines [""])) 100 = .error (.indexOutOfRange 1 1) ∧
    run healthyEnv (flagsWith 100) (unlines [scenarioLine, shortLine, scenarioLine])
      World.initial = (some (.error (.indexOutOfRange 1 1)), World.initial) := by
  decide

/-- C6 as stated fails: the parse of `99999999999999999999` fails with a
range error and `getInt` returns the largest `int64`, not 0; the parse of
`-99999999999999999999` fails with a range error and `getInt` returns the
smallest `int64`, not 0. -/
theorem getInt_range_not_zero :
    (ParseInt "99999999999999999999" 0 64).2 = some .errRange ∧
    getInt ["99999999999999999999"] 0 = .ok 9223372036854775807 ∧
    getInt ["99999999999999999999"] 0 ≠ .ok 0 ∧
    (ParseInt "-99999999999999999999" 0 64).2 = some .errRange ∧
    getInt ["-99999999999999999999"] 0 = .ok (-9223372036854775808) ∧
    getInt ["-99999999999999999999"] 0 ≠ .ok 0 := by
  decide

/-- C6 as amended: when the integer parse of column `k` of a line with at
least 21 columns fails, the record is still produced, every integer field
being `getInt` of its own column; `getInt` of the failing column is 0 on a
syntax error and the nearest `int64` bound on a range error: the largest
`int64` when the column does not start with `-`, the smallest when it
does. -/
theorem getInt_soft_decode (line : String) (cols : List String) (k : Nat)
    (hcols : Split line ',' = cols) (h21 : 21 ≤ cols.length) (hk : k < cols.length)
    (hfail : (ParseInt (cols.getD k "") 0 64).2 ≠ none) :
    scanLine line = .ok (recordOfColumns cols) ∧
    getInt cols k = .ok (columnInt cols k) ∧
    (((ParseInt (cols.getD k "") 0 64).2 = some .errSyntax ∧ getInt cols k = .ok 0) ∨
     ((ParseInt (cols.getD k "") 0 64).2 = some .errRange ∧
       (cols.getD k "").data.head? ≠ some '-' ∧
       getInt cols k = .ok 9223372036854775807) ∨
     ((ParseInt (cols.getD k "") 0 64).2 = some .errRange ∧
       (cols.getD k "").data.head? = some '-' ∧
       getInt cols k = .ok (-9223372036854775808))) := by
  subst hcols
  have hg : getInt (Split line ',') k = .ok (columnInt (Split line ',') k) := by
    simp only [getInt, index_of_lt _ _ "" hk, ok_bind]
    rfl
  refine ⟨scanLine_of_columns line h21, hg, ?_⟩
  obtain ⟨e, he⟩ := Option.ne_none_iff_exists'.mp hfail
  rw [hg, he]
  rcases ParseIntChars_error _ e he with ⟨h1, h2⟩ | ⟨h1, hs, h2⟩ | ⟨h1, hs, h2⟩
  · exact Or.inl ⟨congrArg some h1, congrArg Except.ok h2⟩
  · exact Or.inr (Or.inl ⟨congrArg some h1, hs, congrArg Except.ok h2⟩)
  · exact Or.inr (Or.inr ⟨congrArg some h1, hs, congrArg Except.ok h2⟩)

/-- Witness of amended C6: `abc` in column 2 gives IfIndex 0 and leaves the
other fields of the record of scenario 1 as they are. -/
theorem getInt_soft_decode_witness :
    Split softLine ',' = Split softLine ',' ∧ 21 ≤ (Split softLine ',').length ∧
    2 < (Split softLine ',').length ∧
    (ParseInt ((Split softLine ',').getD 2 "") 0 64).2 ≠ none ∧
    scanLine softLine = .ok { scenarioRecord with IfIndex := 0 } ∧
    getInt (Split softLine ',') 2 = .ok 0 := by
  obtain ⟨h1, h2, _⟩ := getInt_soft_decode softLine (Split softLine ',') 2 rfl
    (by decide) (by decide) (by decide)
  have e : recordOfColumns (Split softLine ',') = { scenarioRecord with IfIndex := 0 } := by
    decide
  have e2 : columnInt (Split softLine ',') 2 = 0 := by decide
  rw [e] at h1
  rw [e2] at h2
  exact ⟨rfl, by decide, by decide, by decide, h1, h2⟩

/-! ## Connection manager and single write -/

theorem logIfError_trace (w : World) (err : Option String) :
    w.logIfError err = ⟨w.myCon, w.trace ++ errorLog err⟩ := by
  cases err with
  | none => simp [World.logIfError, errorLog]
  | some e => rfl

theorem connect_spec (env : Env) (cfg : Flags) (w : World) (u : URL) (c' : Client)
    (enew : Option String) (hurl : env.urlParse (storeUrl cfg) = some u)
    (hnew : env.newClient (w.trace ++ [connectingLog]) (clientConfig cfg u) = (some c', enew)) :
    connect env cfg w = (.ok c', ⟨some c', w.trace ++
      [connectingLog, .newClient (clientConfig cfg u)] ++ errorLog enew ++ [.ping c'] ++
      errorLog (env.ping (w.trace ++ [connectingLog, .newClient (clientConfig cfg u)] ++
        errorLog enew) c') ++ [happyLog]⟩) := by
  unfold connect
  dsimp only
  rw [hurl]
  dsimp only
  have hnew' : env.newClient (w.emit (.log .info "InfluxDB Client: Connecting to %s")).trace
      ⟨u, cfg.influxUser, cfg.influxPassword⟩ = (some c', enew) := hnew
  rw [hnew']
  simp only [logIfError_trace, World.emit, connectingLog, happyLog, clientConfig,
    List.append_assoc, List.cons_append, List.nil_append]

theorem connect_trace_extends (env : Env) (cfg : Flags) (w : World) :
    ∃ tail, (connect env cfg w).2.trace = w.trace ++ tail := by
  unfold connect
  dsimp only
  split
  · exact ⟨[], by simp⟩
  · split
    · exact ⟨_, by simp only [logIfError_trace, World.emit, List.append_assoc]; rfl⟩
    · exact ⟨_, by simp only [logIfError_trace, World.emit, List.append_assoc]; rfl⟩

theorem newClients_append (a b : List Event) :
    newClients (a ++ b) = newClients a ++ newClients b := by
  induction a with
  | nil => rfl
  | cons e a ih => cases e <;> simp [newClients, ih]

theorem pings_append (a b : List Event) : pings (a ++ b) = pings a ++ pings b := by
  induction a with
  | nil => rfl
  | cons e a ih => cases e <;> simp [pings, ih]

theorem filters_errorLog (err : Option String) :
    newClients (errorLog err) = [] ∧ pings (errorLog err) = [] ∧ writes (errorLog err) = [] := by
  cases err <;> exact ⟨rfl, rfl, rfl⟩

/-- C9: whenever a cached handle exists, the first outside call of
`getInfluxClient` is the ping of that handle, whatever happens afterwards;
when that ping succeeds the function returns the same handle, the cache is
unchanged, and the only calls made are the ping and two logger calls: no
client is constructed and nothing is written. -/
theorem getInfluxClient_probe_before_reuse (env : Env) (cfg : Flags) (w : World) (c : Client)
    (hc : w.myCon = some c) :
    (∃ tail, (getInfluxClient env cfg w).2.trace = w.trace ++ .ping c :: tail) ∧
    (env.ping w.trace c = none →
      getInfluxClient env cfg w = (.ok c, ⟨some c, w.trace ++ .ping c :: pooledLog⟩) ∧
      newClients (getInfluxClient env cfg w).2.trace = newClients w.trace ∧
      pings (getInfluxClient env cfg w).2.trace = pings w.trace ++ [c] ∧
      writes (getInfluxClient env cfg w).2.trace = writes w.trace ∧
      (getInfluxClient env cfg w).2.myCon = w.myCon) := by
  have hok : env.ping w.trace c = none →
      getInfluxClient env cfg w = (.ok c, ⟨some c, w.trace ++ .ping c :: pooledLog⟩) := by
    intro hp
    unfold getInfluxClient
    rw [hc]
    dsimp only
    rw [hp]
    simp [World.emit, pooledLog, hc]
  constructor
  · cases hp : env.ping w.trace c with
    | none => exact ⟨pooledLog, by rw [hok hp]⟩
    | some e =>
      unfold getInfluxClient
      rw [hc]
      dsimp only
      rw [hp]
      dsimp only
      obtain ⟨tail, ht⟩ := connect_trace_extends env cfg
        ((w.emit (.ping c)).emit (.log .warn "Ping on pooled conn yielded err %s"))
      exact ⟨.log .warn "Ping on pooled conn yielded err %s" :: tail,
        by rw [ht]; simp [World.emit]⟩
  · intro hp
    rw [hok hp]
    refine ⟨rfl, ?_, ?_, ?_, hc.symm⟩
    · simp [newClients_append, newClients, pooledLog]
    · simp [pings_append, pings, pooledLog]
    · simp [writes_append, writes, pooledLog]

/-- Witness of C9: a cached client 7 and a healthy store. -/
theorem getInfluxClient_probe_before_reuse_witness :
    (⟨some ⟨7⟩, []⟩ : World).myCon = some ⟨7⟩ ∧
    ((∃ tail, (getInfluxClient healthyEnv (flagsWith 100) ⟨some ⟨7⟩, []⟩).2.trace =
        ([] : List Event) ++ .ping ⟨7⟩ :: tail) ∧
    (healthyEnv.ping [] ⟨7⟩ = none →
      getInfluxClient healthyEnv (flagsWith 100) ⟨some ⟨7⟩, []⟩ =
        (.ok ⟨7⟩, ⟨some ⟨7⟩, [] ++ .ping ⟨7⟩ :: pooledLog⟩) ∧
      newClients (getInfluxClient healthyEnv (flagsWith 100) ⟨some ⟨7⟩, []⟩).2.trace =
        newClients [] ∧
      pings (getInfluxClient healthyEnv (flagsWith 100) ⟨some ⟨7⟩, []⟩).2.trace =
        pings [] ++ [⟨7⟩] ∧
      writes (getInfluxClient healthyEnv (flagsWith 100) ⟨some ⟨7⟩, []⟩).2.trace = writes [] ∧
      (getInfluxClient healthyEnv (flagsWith 100) ⟨some ⟨7⟩, []⟩).2.myCon = some ⟨7⟩)) :=
  ⟨rfl, getInfluxClient_probe_before_reuse healthyEnv (flagsWith 100) ⟨some ⟨7⟩, []⟩ ⟨7⟩ rfl⟩

theorem getInfluxClient_stale (env : Env) (cfg : Flags) (w : World) (c : Client) (e : String)
    (hc : w.myCon = some c) (hping : env.ping w.trace c = some e) :
    getInfluxClient env cfg w = connect env cfg ⟨w.myCon, w.trace ++ [.ping c, warnLog]⟩ := by
  unfold getInfluxClient
  rw [hc]
  dsimp only
  rw [hping]
  simp [World.emit, warnLog, hc]

/-- C7: when a cached handle exists and its ping fails, and the URL parses
and `NewClient` yields a client, one call of `getInfluxClient` makes exactly
one `NewClient` call and, after the failed ping of the cached handle, exactly
one ping, that of the new client; it makes no `Write`; the handle it returns
and the handle it caches is the one `NewClient` returned. -/
theorem getInfluxClient_reconnect (env : Env) (cfg : Flags) (w : World) (c c' : Client)
    (e : String) (u : URL) (enew : Option String)
    (hc : w.myCon = some c) (hping : env.ping w.trace c = some e)
    (hurl : env.urlParse (storeUrl cfg) = some u)
    (hnew : env.newClient (w.trace ++ [.ping c, warnLog, connectingLog]) (clientConfig cfg u) =
      (some c', enew)) :
    ∃ w' tail, getInfluxClient env cfg w = (.ok c', w') ∧ w'.myCon = some c' ∧
      w'.trace = w.trace ++ tail ∧
      newClients tail = [clientConfig cfg u] ∧ pings tail = [c, c'] ∧ writes tail = [] := by
  rw [getInfluxClient_stale env cfg w c e hc hping,
    connect_spec env cfg _ u c' enew hurl (by simpa using hnew)]
  refine ⟨_, [.ping c, warnLog, connectingLog, .newClient (clientConfig cfg u)] ++
      errorLog enew ++ [.ping c'] ++ errorLog (env.ping (w.trace ++ [.ping c, warnLog] ++
        [connectingLog, .newClient (clientConfig cfg u)] ++ errorLog enew) c') ++ [happyLog],
    rfl, rfl, ?_, ?_, ?_, ?_⟩
  · simp
  · simp [newClients_append, newClients, filters_errorLog, warnLog, connectingLog, happyLog]
  · simp [pings_append, pings, filters_errorLog, warnLog, connectingLog, happyLog]
  · simp [writes_append, writes, filters_errorLog, warnLog, connectingLog, happyLog]

/-- Witness of C7: a cached client 7 whose ping fails; the dead store still
builds a client, number 3, which is returned and cached. -/
theorem getInfluxClient_reconnect_witness :
    (⟨some ⟨7⟩, []⟩ : World).myCon = some ⟨7⟩ ∧
    deadEnv.ping [] ⟨7⟩ = some "connection refused" ∧
    deadEnv.urlParse (storeUrl (flagsWith 100)) = some ⟨"http://localhost:8086"⟩ ∧
    deadEnv.newClient ([] ++ [.ping ⟨7⟩, warnLog, connectingLog])
      (clientConfig (flagsWith 100) ⟨"http://localhost:8086"⟩) = (some ⟨3⟩, none) ∧
    ∃ w' tail, getInfluxClient deadEnv (flagsWith 100) ⟨some ⟨7⟩, []⟩ = (.ok ⟨3⟩, w') ∧
      w'.myCon = some ⟨3⟩ ∧ w'.trace = [] ++ tail ∧
      newClients tail = [clientConfig (flagsWith 100) ⟨"http://localhost:8086"⟩] ∧
      pings tail = [⟨7⟩, ⟨3⟩] ∧ writes tail = [] :=
  ⟨rfl, rfl, by decide, rfl,
    getInfluxClient_reconnect deadEnv (flagsWith 100) ⟨some ⟨7⟩, []⟩ ⟨7⟩ ⟨3⟩
      "connection refused" ⟨"http://localhost:8086"⟩ none rfl rfl (by decide) rfl⟩

/-- C8 as stated fails: on first use with a store whose ping fails,
`getInfluxClient` returns the new client 1 as an ordinary result and caches
it, although the ping of that client failed and was only logged. -/
theorem getInfluxClient_failed_probe_returns_handle :
    getInfluxClient deadEnv (flagsWith 100) World.initial =
      (.ok ⟨1⟩, ⟨some ⟨1⟩,
        [connectingLog, .newClient (clientConfig (flagsWith 100) ⟨"http://localhost:8086"⟩),
         .ping ⟨1⟩, .log .error "connection refused", happyLog]⟩) ∧
    deadEnv.ping [connectingLog,
      .newClient (clientConfig (flagsWith 100) ⟨"http://localhost:8086"⟩)] ⟨1⟩ =
        some "connection refused" := by
  decide

/-- C8 as amended: when the ping of the newly built client fails, on first
use (`w0 = w`) or after a failed ping of the cached handle, `getInfluxClient`
logs the error of `NewClient` if any, logs the ping error at level error,
caches the new client and returns it; it makes one `NewClient` call and one
ping of the new client and returns no error. -/
theorem getInfluxClient_probe_failure_logged (env : Env) (cfg : Flags) (w w0 : World)
    (u : URL) (c' : Client) (enew : Option String) (e : String)
    (hentry : (w.myCon = none ∧ w0 = w) ∨
      (∃ c e0, w.myCon = some c ∧ env.ping w.trace c = some e0 ∧
        w0 = ⟨w.myCon, w.trace ++ [.ping c, warnLog]⟩))
    (hurl : env.urlParse (storeUrl cfg) = some u)
    (hnew : env.newClient (w0.trace ++ [connectingLog]) (clientConfig cfg u) = (some c', enew))
    (hprobe : env.ping (w0.trace ++ [connectingLog, .newClient (clientConfig cfg u)] ++
      errorLog enew) c' = some e) :
    getInfluxClient env cfg w = (.ok c', ⟨some c', w0.trace ++
      [connectingLog, .newClient (clientConfig cfg u)] ++ errorLog enew ++
      [.ping c', .log .error e, happyLog]⟩) := by
  have hcon : getInfluxClient env cfg w = connect env cfg w0 := by
    rcases hentry with ⟨h1, h2⟩ | ⟨c, e0, h1, h2, h3⟩
    · subst h2
      unfold getInfluxClient
      rw [h1]
    · subst h3
      exact getInfluxClient_stale env cfg w c e0 h1 h2
  rw [hcon, connect_spec env cfg w0 u c' enew hurl hnew, hprobe]
  simp [errorLog]

/-- Witness of amended C8: first use with the dead store. -/
theorem getInfluxClient_probe_failure_logged_witness :
    ((World.initial.myCon = none ∧ World.initial = World.initial) ∨
      (∃ c e0, World.initial.myCon = some c ∧ deadEnv.ping World.initial.trace c = some e0 ∧
        World.initial = ⟨World.initial.myCon, World.initial.trace ++ [.ping c, warnLog]⟩)) ∧
    deadEnv.urlParse (storeUrl (flagsWith 100)) = some ⟨"http://localhost:8086"⟩ ∧
    getInfluxClient deadEnv (flagsWith 100) World.initial = (.ok ⟨1⟩, ⟨some ⟨1⟩,
      World.initial.trace ++
      [connectingLog, .newClient (clientConfig (flagsWith 100) ⟨"http://localhost:8086"⟩)] ++
      errorLog none ++ [.ping ⟨1⟩, .log .error "connection refused", happyLog]⟩) :=
  ⟨Or.inl ⟨rfl, rfl⟩, by decide,
    getInfluxClient_probe_failure_logged deadEnv (flagsWith 100) World.initial World.initial
      ⟨"http://localhost:8086"⟩ ⟨1⟩ none "connection refused" (Or.inl ⟨rfl, rfl⟩) (by decide)
      rfl rfl⟩

theorem allPoints_length (counters : List Counters) :
    (allPoints counters).length = 11 * counters.length := by
  unfold allPoints
  induction counters with
  | nil => rfl
  | cons r rs ih =>
    rw [List.map_cons, List.flatten_cons, List.length_append, recordPoints_length, ih]
    simp only [List.length_cons]
    omega

/-- C10: for every batch for which a connection is acquired,
`insertIntoInflux` returns after exactly one `Write` call, made through the
acquired client, carrying all points of the batch in record-then-field order,
the configured database name and retention policy `default`; after the
acquisition its only calls are one logger call, that `Write`, and, when the
`Write` returns an error, one logger call with that error: no second `Write`. -/
theorem insertIntoInflux_single_write (env : Env) (cfg : Flags) (counters : List Counters)
    (w w1 : World) (c : Client)
    (hacq : getInfluxClient env cfg (reshaped counters w) = (.ok c, w1)) :
    ∃ w', insertIntoInflux env cfg counters w = (.ok (), w') ∧
      w'.trace = w1.trace ++ [startLog, .write c (batchPoints cfg counters)] ++
        errorLog (env.write (w1.trace ++ [startLog]) c (batchPoints cfg counters)) ∧
      writes w'.trace = writes w.trace ++ [(c, batchPoints cfg counters)] ∧
      (batchPoints cfg counters).Points = (counters.map recordPoints).flatten ∧
      (batchPoints cfg counters).Points.length = 11 * counters.length ∧
      (batchPoints cfg counters).Database = cfg.influxDB ∧
      (batchPoints cfg counters).RetentionPolicy = "default" ∧
      w'.myCon = w1.myCon := by
  have hw := getInfluxClient_writes env cfg (reshaped counters w)
  rw [hacq, writes_reshaped] at hw
  rw [insertIntoInflux_eq, hacq]
  refine ⟨_, rfl, ?_, ?_, rfl, ?_, rfl, rfl, ?_⟩
  · simp [logIfError_trace, World.emit, startLog]
  · simp [logIfError_trace, World.emit, writes_append, writes, filters_errorLog, hw]
  · exact allPoints_length counters
  · simp [logIfError_trace, World.emit]

/-- Witness of C10: the record of scenario 1 written to the dead store: the
single `Write` fails, the error is logged and the function returns. -/
theorem insertIntoInflux_single_write_witness :
    getInfluxClient deadEnv (flagsWith 100) (reshaped [scenarioRecord] World.initial) =
      (.ok ⟨14⟩, (getInfluxClient deadEnv (flagsWith 100)
        (reshaped [scenarioRecord] World.initial)).2) ∧
    ∃ w', insertIntoInflux deadEnv (flagsWith 100) [scenarioRecord] World.initial =
        (.ok (), w') ∧
      writes w'.trace = [(⟨14⟩, ⟨recordPoints scenarioRecord, "db", "default"⟩)] ∧
      w'.trace.getLast? = some (.log .error "connection refused") := by
  have hacq : getInfluxClient deadEnv (flagsWith 100)
      (reshaped [scenarioRecord] World.initial) =
      (.ok ⟨14⟩, (getInfluxClient deadEnv (flagsWith 100)
        (reshaped [scenarioRecord] World.initial)).2) := by decide
  obtain ⟨w', h1, h2, h3, _⟩ := insertIntoInflux_single_write deadEnv (flagsWith 100)
    [scenarioRecord] World.initial _ ⟨14⟩ hacq
  refine ⟨hacq, w', h1, ?_, ?_⟩
  · rw [h3]
    simp [World.initial, writes, batchPoints, allPoints, flagsWith]
  · rw [h2]
    simp [deadEnv, errorLog]

/-! ## Writer layout -/

theorem allPoints_get (counters : List Counters) (i j : Nat) (r : Counters)
    (hr : counters.get? i = some r) (hj : j < 11) :
    (allPoints counters).get? (11 * i + j) =
      some (mkPoint r (MetricFields.getD j "") ((metricValues r).getD j 0)) := by
  induction counters generalizing i with
  | nil => simp at hr
  | cons c cs ih =>
    unfold allPoints
    rw [List.map_cons, List.flatten_cons, List.get?_eq_getElem?]
    cases i with
    | zero =>
      simp only [List.get?_cons_zero, Option.some.injEq] at hr
      subst hr
      rw [List.getElem?_append_left (by rw [recordPoints_length]; omega)]
      have := (recordPoints_get c j hj).1
      rw [List.get?_eq_getElem?] at this
      simpa using this
    | succ i =>
      simp only [List.get?_cons_succ] at hr
      rw [List.getElem?_append_right (by rw [recordPoints_length]; omega), recordPoints_length]
      have e : 11 * (i + 1) + j - 11 = 11 * i + j := by omega
      rw [e, ← List.get?_eq_getElem?]
      exact ih i hr

/-- C12: for every batch of `k` records and every world, the reshape loop of
`insertIntoInflux` returns a point slice of length exactly `11 * k` whose
slot `11 * i + j` holds, for every record `i` of the batch and every
`j < 11`, the point of record `i` for `MetricFields[j]` (so no slot keeps
the zero point and batch order and field order are preserved); these are the
points `insertIntoInflux` passes to `Write` once a client is acquired. -/
theorem insertIntoInflux_layout (env : Env) (cfg : Flags) (counters : List Counters)
    (w : World) :
    ∃ pts w1,
      insertLoop counters counters.length 0
        (List.replicate (counters.length * MetricFields.length) Point.zero)
        (w.emit (.log .debug "allocate Point slice of size %d")) = (.ok pts, w1) ∧
      pts.length = 11 * counters.length ∧
      (∀ i j r, counters.get? i = some r → j < 11 →
        pts.get? (11 * i + j) =
          some (mkPoint r (MetricFields.getD j "") ((metricValues r).getD j 0))) ∧
      (∀ p ∈ pts, p ≠ Point.zero) ∧
      pts = (counters.map recordPoints).flatten ∧
      (∀ c w2, getInfluxClient env cfg w1 = (.ok c, w2) →
        writes (insertIntoInflux env cfg counters w).2.trace =
          writes w.trace ++ [(c, ⟨pts, cfg.influxDB, "default"⟩)]) := by
  have hl := insertLoop_spec counters counters.length 0
    (List.replicate (counters.length * MetricFields.length) Point.zero)
    (w.emit (.log .debug "allocate Point slice of size %d")) (by simp)
    (by simp [MetricFields_length])
  have hp : List.take (0 * 11) (List.replicate (counters.length * MetricFields.length)
      Point.zero) ++
      (List.map recordPoints (List.take counters.length (List.drop 0 counters))).flatten ++
      List.drop ((0 + counters.length) * 11)
        (List.replicate (counters.length * MetricFields.length) Point.zero)
      = allPoints counters := by
    simp [allPoints, MetricFields_length]
  rw [hp] at hl
  refine ⟨_, _, hl, allPoints_length counters, ?_, ?_, rfl, ?_⟩
  · intro i j r hr hj
    exact allPoints_get counters i j r hr hj
  · intro p hp
    unfold allPoints at hp
    rw [List.mem_flatten] at hp
    obtain ⟨l, hl1, hl2⟩ := hp
    rw [List.mem_map] at hl1
    obtain ⟨r, _, rfl⟩ := hl1
    have : p.Precision = "s" := by
      simp only [recordPoints, MetricFields, metricValues, List.zipWith_cons_cons,
        List.zipWith_nil_right, List.mem_cons, List.mem_singleton, List.not_mem_nil,
        or_false] at hl2
      rcases hl2 with h | h | h | h | h | h | h | h | h | h | h <;> rw [h] <;> rfl
    intro hz
    rw [hz] at this
    exact absurd this (by decide)
  · intro c w2 hacq
    have hw1 : (⟨(w.emit (.log .debug "allocate Point slice of size %d")).myCon,
        (w.emit (.log .debug "allocate Point slice of size %d")).trace ++
        reshapeLog counters.length⟩ : World) = reshaped counters w := by
      simp [World.emit, reshaped]
    have hw := getInfluxClient_writes env cfg (reshaped counters w)
    rw [hw1] at hacq
    rw [hacq, writes_reshaped] at hw
    rw [insertIntoInflux_eq, hacq]
    simp [writes_logIfError, writes_emit, writes, hw, batchPoints]

/-! ## End of stream and non-positive chunk size -/

theorem scanLoop_nonpositive (n : Int) (hn : n ≤ 0) (lines : List String)
    (hwf : ∀ l ∈ lines, WellFormed l) :
    ∀ (all : List Counters),
      scanLoop n (lines.map some) all = .ok (all ++ lines.map parseLine, []) := by
  induction lines with
  | nil => intro all; simp [scanLoop]
  | cons line rest ih =>
    intro all
    have hl : scanLine line = .ok (parseLine line) :=
      scanLine_of_columns line (hwf line (List.mem_cons_self _ _))
    have hrest : ∀ l ∈ rest, WellFormed l := fun l hl => hwf l (List.mem_cons_of_mem _ hl)
    rw [List.map_cons]
    unfold scanLoop
    simp only [hl]
    have hne : ¬ ((((all ++ [parseLine line]).length : Nat) : Int) = n) := by
      simp; omega
    rw [if_neg hne, ih hrest]
    simp

theorem scanN_nonpositive_eq (n : Int) (hn : n ≤ 0) (lines : List String)
    (hwf : ∀ l ∈ lines, WellFormed l) :
    scanN (lines.map some) n = .ok (lines.map parseLine, []) := by
  have := scanLoop_nonpositive n hn lines hwf []
  simpa [scanN] using this

theorem runLoop_nonpositive {σ : Type} (insert : List Counters → σ → Except Panic Unit × σ)
    (n : Int) (hn : n ≤ 0) (fuel : Nat) (lines : List String) (w : σ)
    (hfuel : lines.length < fuel) (hwf : ∀ l ∈ lines, WellFormed l) :
    runLoop insert n fuel (lines.map some) w =
      feed insert (if lines = [] then [] else [lines.map parseLine]) w := by
  obtain ⟨f, rfl⟩ : ∃ f, fuel = f + 1 := ⟨fuel - 1, by omega⟩
  unfold runLoop
  rw [scanN_nonpositive_eq n hn lines hwf]
  cases lines with
  | nil => simp [feed]
  | cons l ls =>
    have hne : List.map parseLine (l :: ls) ≠ [] := by simp
    simp only [if_neg hne, feed]
    cases insert (List.map parseLine (l :: ls)) w with
    | mk r w2 =>
      cases r with
      | error e => rfl
      | ok u =>
        simp only []
        obtain ⟨f', rfl⟩ : ∃ f', f = f' + 1 := ⟨f - 1, by simp at hfuel; omega⟩
        unfold runLoop
        simp [scanN, scanLoop]

theorem feed_record (bs : List (List Counters)) (acc : List (List Counters)) :
    feed (fun all acc => ((.ok () : Except Panic Unit), acc ++ [all])) bs acc =
      (some (.ok ()), acc ++ bs) := by
  induction bs generalizing acc with
  | nil => simp [feed]
  | cons b bs ih => simp [feed, ih]

theorem chunksAux_nonempty {α : Type} (n : Nat) (hn : 1 ≤ n) :
    ∀ (fuel : Nat) (xs : List α), ∀ b ∈ chunksAux n fuel xs, b ≠ [] := by
  intro fuel
  induction fuel with
  | zero => intro xs b hb; simp [chunksAux] at hb
  | succ fuel ih =>
    intro xs b hb
    cases xs with
    | nil => simp [chunksAux] at hb
    | cons x xs =>
      simp only [chunksAux, List.mem_cons] at hb
      rcases hb with hb | hb
      · obtain ⟨k, rfl⟩ : ∃ k, n = k + 1 := ⟨n - 1, by omega⟩
        rw [hb]; simp
      · exact ih _ b hb

theorem runLoop_batchesOf {σ : Type} (insert : List Counters → σ → Except Panic Unit × σ)
    (n : Int) (lines : List String) (w : σ) (hwf : ∀ l ∈ lines, WellFormed l) :
    runLoop insert n (lines.length + 1) (lines.map some) w =
      feed insert (batchesOf n lines) w := by
  unfold batchesOf
  by_cases hn : 1 ≤ n
  · rw [if_pos hn]
    obtain ⟨m, rfl⟩ : ∃ m : Nat, n = m := ⟨n.toNat, by omega⟩
    rw [runLoop_eq_feed insert m (by omega) _ _ _ (Nat.lt_succ_self _) hwf]
    simp
  · rw [if_neg hn]
    exact runLoop_nonpositive insert n (by omega) _ lines w (Nat.lt_succ_self _) hwf

theorem batchesOf_nonempty (n : Int) (lines : List String) :
    ∀ b ∈ batchesOf n lines, b ≠ [] := by
  unfold batchesOf
  by_cases hn : 1 ≤ n
  · rw [if_pos hn]
    exact chunksAux_nonempty n.toNat (by omega) _ _
  · rw [if_neg hn]
    by_cases hl : lines = []
    · simp [hl]
    · simp [hl]

theorem run_batchesOf (env : Env) (cfg : Flags) (stdin : String) (w : World)
    (hshort : ShortLines stdin) (hwf : ∀ l ∈ linesOf stdin, WellFormed l) :
    run env cfg stdin w =
      feed (insertIntoInflux env cfg) (batchesOf cfg.chunkSize (tokens stdin)) w := by
  unfold run
  rw [NewScanner_of_short stdin hshort, List.length_map,
    runLoop_batchesOf _ _ (tokens stdin) w (tokens_wellFormed stdin hwf)]

theorem batches_batchesOf (n : Int) (stdin : String)
    (hshort : ShortLines stdin) (hwf : ∀ l ∈ linesOf stdin, WellFormed l) :
    batches n stdin = (some (.ok ()), batchesOf n (tokens stdin)) := by
  unfold batches
  rw [NewScanner_of_short stdin hshort, List.length_map,
    runLoop_batchesOf _ n (tokens stdin) [] (tokens_wellFormed stdin hwf), feed_record]
  simp

/-- C13 as amended: for every `n` and every stream of well-formed lines, each
shorter than 65536 bytes, `scanN` returns; its result is empty (nil) exactly
when no line remains; when it returns fewer than `n` records the stream is
exhausted and the records are all remaining lines; the scanner it leaves
behind holds the lines not yet read, whole; and the loop of `run` finishes
having handed on only non-empty batches, the same ones `run` hands to
`insertIntoInflux`. -/
theorem scanN_end_of_stream (n : Int) (stdin : String) (hshort : ShortLines stdin)
    (hwf : ∀ l ∈ linesOf stdin, WellFormed l) :
    ∃ recs rest, scanN (NewScanner stdin) n = .ok (recs, rest) ∧
      (recs = [] ↔ linesOf stdin = []) ∧
      ((recs.length : Int) < n →
        rest = [] ∧ recs = (linesOf stdin).map (fun l => parseLine (lineText l))) ∧
      rest = (((linesOf stdin).drop recs.length).map (fun l => some (lineText l))) ∧
      ∃ bs, batches n stdin = (some (.ok ()), bs) ∧ (∀ b ∈ bs, b ≠ []) ∧
        ∀ (env : Env) (cfg : Flags) (w : World), cfg.chunkSize = n →
          run env cfg stdin w = feed (insertIntoInflux env cfg) bs w := by
  have hb : ∃ bs, batches n stdin = (some (.ok ()), bs) ∧ (∀ b ∈ bs, b ≠ []) ∧
      ∀ (env : Env) (cfg : Flags) (w : World), cfg.chunkSize = n →
        run env cfg stdin w = feed (insertIntoInflux env cfg) bs w := by
    refine ⟨batchesOf n (tokens stdin), batches_batchesOf n stdin hshort hwf,
      batchesOf_nonempty n (tokens stdin), ?_⟩
    intro env cfg w hc
    rw [run_batchesOf env cfg stdin w hshort hwf, hc]
  have hwt := tokens_wellFormed stdin hwf
  rw [NewScanner_of_short stdin hshort]
  have htok : tokens stdin = (linesOf stdin).map lineText := rfl
  by_cases hn : 1 ≤ n
  · obtain ⟨m, rfl⟩ : ∃ m : Nat, n = m := ⟨n.toNat, by omega⟩
    have hm : 1 ≤ m := by omega
    refine ⟨_, _, scanN_wellFormed m (tokens stdin) hwt hm, ?_, ?_, ?_, hb⟩
    · obtain ⟨k, rfl⟩ : ∃ k, m = k + 1 := ⟨m - 1, by omega⟩
      rw [htok]
      cases linesOf stdin with
      | nil => simp
      | cons l ls => simp
    · intro hlt
      simp only [List.length_map, List.length_take, Nat.cast_lt] at hlt
      have hle : (tokens stdin).length ≤ m := by omega
      refine ⟨?_, ?_⟩
      · rw [List.drop_eq_nil_of_le hle]; rfl
      · rw [List.take_of_length_le hle, tokens_map]
    · rw [htok]
      simp only [List.length_map, List.length_take, List.map_drop, List.map_map]
      by_cases hle : m ≤ (linesOf stdin).length
      · rw [Nat.min_eq_left hle]; rfl
      · rw [Nat.min_eq_right (by omega), List.drop_eq_nil_of_le (by simp; omega),
          List.drop_eq_nil_of_le (by simp)]
  · refine ⟨_, _, scanN_nonpositive_eq n (by omega) (tokens stdin) hwt, ?_, ?_, ?_, hb⟩
    · rw [htok]; simp
    · intro _
      exact ⟨rfl, tokens_map stdin parseLine⟩
    · rw [htok]
      simp

/-- Witness of amended C13: three scenario lines read with chunk size 2. -/
theorem scanN_end_of_stream_witness :
    ShortLines (unlines [scenarioLine, scenarioLine, scenarioLine]) ∧
    (∀ l ∈ linesOf (unlines [scenarioLine, scenarioLine, scenarioLine]), WellFormed l) ∧
    ∃ recs rest,
      scanN (NewScanner (unlines [scenarioLine, scenarioLine, scenarioLine])) 2 =
        .ok (recs, rest) ∧
      (recs = [] ↔ linesOf (unlines [scenarioLine, scenarioLine, scenarioLine]) = []) ∧
      ((recs.length : Int) < 2 →
        rest = [] ∧ recs = (linesOf (unlines [scenarioLine, scenarioLine, scenarioLine])).map
          (fun l => parseLine (lineText l))) ∧
      rest = (((linesOf (unlines [scenarioLine, scenarioLine, scenarioLine])).drop
        recs.length).map (fun l => some (lineText l))) ∧
      ∃ bs, batches 2 (unlines [scenarioLine, scenarioLine, scenarioLine]) =
          (some (.ok ()), bs) ∧
        (∀ b ∈ bs, b ≠ []) ∧
        ∀ (env : Env) (cfg : Flags) (w : World), cfg.chunkSize = 2 →
          run env cfg (unlines [scenarioLine, scenarioLine, scenarioLine]) w =
            feed (insertIntoInflux env cfg) bs w :=
  ⟨by decide, by decide,
    scanN_end_of_stream 2 (unlines [scenarioLine, scenarioLine, scenarioLine]) (by decide)
      (by decide)⟩

/-- C18 as amended: for every `n ≤ 0` and every stream of `L ≥ 1` well-formed
lines, each shorter than 65536 bytes, `scanN` never returns early: it returns
all `L` records at once and leaves the stream empty, so `run` hands
`insertIntoInflux` one batch of `L` records. -/
theorem scanN_nonpositive (n : Int) (stdin : String) (hn : n ≤ 0) (hshort : ShortLines stdin)
    (hwf : ∀ l ∈ linesOf stdin, WellFormed l) (hL : 1 ≤ (linesOf stdin).length) :
    scanN (NewScanner stdin) n =
      .ok ((linesOf stdin).map (fun l => parseLine (lineText l)), []) ∧
    ((linesOf stdin).map (fun l => parseLine (lineText l))).length = (linesOf stdin).length ∧
    batches n stdin =
      (some (.ok ()), [(linesOf stdin).map (fun l => parseLine (lineText l))]) ∧
    ∀ (env : Env) (cfg : Flags) (w : World), cfg.chunkSize = n →
      run env cfg stdin w = feed (insertIntoInflux env cfg)
        [(linesOf stdin).map (fun l => parseLine (lineText l))] w := by
  have hwt := tokens_wellFormed stdin hwf
  have hne : tokens stdin ≠ [] := by
    intro h
    have := congrArg List.length h
    rw [tokens_length] at this
    simp only [List.length_nil] at this
    omega
  have hbo : batchesOf n (tokens stdin) =
      [(linesOf stdin).map (fun l => parseLine (lineText l))] := by
    unfold batchesOf
    rw [if_neg (by omega), if_neg hne, tokens_map]
  refine ⟨?_, by simp, ?_, ?_⟩
  · rw [NewScanner_of_short stdin hshort, scanN_nonpositive_eq n hn (tokens stdin) hwt,
      tokens_map]
  · rw [batches_batchesOf n stdin hshort hwf, hbo]
  · intro env cfg w hc
    rw [run_batchesOf env cfg stdin w hshort hwf, hc, hbo]

/-- Witness of amended C18: chunk size 0 and three scenario lines. -/
theorem scanN_nonpositive_witness :
    (0 : Int) ≤ 0 ∧ ShortLines (unlines [scenarioLine, scenarioLine, scenarioLine]) ∧
    (∀ l ∈ linesOf (unlines [scenarioLine, scenarioLine, scenarioLine]), WellFormed l) ∧
    1 ≤ (linesOf (unlines [scenarioLine, scenarioLine, scenarioLine])).length ∧
    scanN (NewScanner (unlines [scenarioLine, scenarioLine, scenarioLine])) 0 =
      .ok ([scenarioRecord, scenarioRecord, scenarioRecord], []) := by
  have h := (scanN_nonpositive 0 (unlines [scenarioLine, scenarioLine, scenarioLine])
    (by decide) (by decide) (by decide) (by decide)).1
  have e : (linesOf (unlines [scenarioLine, scenarioLine, scenarioLine])).map
      (fun l => parseLine (lineText l)) = [scenarioRecord, scenarioRecord, scenarioRecord] := by
    decide
  rw [e] at h
  exact ⟨by decide, by decide, by decide, by decide, h⟩

/-! ## Points per write, index safety, field table, statelessness -/

/-- C14 as amended: for every chunk size `n ≥ 1`, every input of `L`
well-formed lines, each shorter than 65536 bytes, and a store whose client
can be built, `run` returns and its `Write` calls carry, in order, `n * 11`
points each for `L / n` writes, followed by one write of `(L mod n) * 11`
points when `n` does not divide `L`. -/
theorem run_points_per_write (env : Env) (cfg : Flags) (n : Nat) (stdin : String)
    (w : World) (hn : 1 ≤ n) (hchunk : cfg.chunkSize = (n : Int)) (hshort : ShortLines stdin)
    (hwf : ∀ l ∈ linesOf stdin, WellFormed l) (henv : env.Constructs cfg) :
    ∃ w', run env cfg stdin w = (some (.ok ()), w') ∧
      (writes w'.trace).map (fun cw => cw.2.Points.length) =
        (writes w.trace).map (fun cw => cw.2.Points.length) ++
          List.replicate ((linesOf stdin).length / n) (n * 11) ++
          (if (linesOf stdin).length % n = 0 then [] else [(linesOf stdin).length % n * 11]) := by
  rw [run_eq_feed env cfg n hn stdin w hchunk hshort hwf]
  obtain ⟨w', hrun, hw⟩ := feed_insert_ok env cfg henv
    (chunksAux n ((tokens stdin).length + 1) ((tokens stdin).map parseLine)) w
  refine ⟨w', hrun, ?_⟩
  have hsz := chunksAux_sizes n hn ((tokens stdin).length + 1) ((tokens stdin).map parseLine)
    (by simp)
  rw [List.length_map, tokens_length] at hsz
  have hmap : ∀ tr : List Event, (writes tr).map (fun cw => cw.2.Points.length) =
      ((writes tr).map Prod.snd).map (fun b => b.Points.length) := by
    intro tr; simp
  rw [hmap, hmap, hw, List.map_append, List.append_assoc]
  congr 1
  have hb : List.map (fun b => b.Points.length) (List.map (batchPoints cfg)
      (chunksAux n ((tokens stdin).length + 1) ((tokens stdin).map parseLine))) =
      ((chunksAux n ((tokens stdin).length + 1) ((tokens stdin).map parseLine)).map
        List.length).map (fun k => k * 11) := by
    simp only [List.map_map]
    apply List.map_congr_left
    intro b _
    simp only [Function.comp, batchPoints, allPoints_length]
    omega
  rw [hb, tokens_length, hsz, List.map_append, List.map_replicate]
  by_cases hm : (linesOf stdin).length % n = 0
  · simp [hm]
  · simp [hm]

/-- Witness of amended C14: chunk size 2 and three scenario lines give writes
of 22 and 11 points. -/
theorem run_points_per_write_witness :
    1 ≤ 2 ∧ (flagsWith 2).chunkSize = ((2 : Nat) : Int) ∧
    ShortLines (unlines [scenarioLine, scenarioLine, scenarioLine]) ∧
    (∀ l ∈ linesOf (unlines [scenarioLine, scenarioLine, scenarioLine]), WellFormed l) ∧
    healthyEnv.Constructs (flagsWith 2) ∧
    ∃ w', run healthyEnv (flagsWith 2) (unlines [scenarioLine, scenarioLine, scenarioLine])
        World.initial = (some (.ok ()), w') ∧
      (writes w'.trace).map (fun cw => cw.2.Points.length) = [22, 11] := by
  obtain ⟨w', h1, h2⟩ := run_points_per_write healthyEnv (flagsWith 2) 2
    (unlines [scenarioLine, scenarioLine, scenarioLine]) World.initial (by decide) rfl
    (by decide) (by decide) ⟨rfl, fun _ _ => rfl⟩
  have hL : (linesOf (unlines [scenarioLine, scenarioLine, scenarioLine])).length = 3 := by
    decide
  rw [hL] at h2
  exact ⟨by decide, rfl, by decide, by decide, ⟨rfl, fun _ _ => rfl⟩, w', h1, h2⟩

/-- C15: parsing one line in `scanN` ends in an index-out-of-range panic
exactly when the comma split of the line has fewer than 21 columns, and
produces a record exactly when it has at least 21; `columns[0]` and the first
space-separated token of `columns[0]` always exist; with at least 21 columns
`columns[1]`, `columns[2:]` and `columns[2:][0..18]` are all in range,
whatever the columns contain. -/
theorem scanLine_out_of_range_iff (line : String) :
    ((∃ i len, scanLine line = .error (.indexOutOfRange i len)) ↔
      (Split line ',').length < 21) ∧
    ((∃ r, scanLine line = .ok r) ↔ 21 ≤ (Split line ',').length) ∧
    (∃ c0 tok, index (Split line ',') 0 = .ok c0 ∧ index (Split c0 ' ') 0 = .ok tok) ∧
    (21 ≤ (Split line ',').length →
      scanLine line = .ok (parseLine line) ∧
      (∃ c1, index (Split line ',') 1 = .ok c1) ∧
      sliceFrom (Split line ',') 2 = .ok ((Split line ',').drop 2) ∧
      ∀ k, k < 19 → ∃ v, getInt ((Split line ',').drop 2) k = .ok v) := by
  have hpos := Split_length_pos line ','
  refine ⟨?_, ?_, ?_, ?_⟩
  · constructor
    · rintro ⟨i, len, h⟩
      by_contra hc
      rw [scanLine_of_columns line (by omega)] at h
      exact absurd h (by simp)
    · exact scanLine_short line
  · constructor
    · rintro ⟨r, h⟩
      by_contra hc
      obtain ⟨i, len, h2⟩ := scanLine_short line (by omega)
      rw [h2] at h
      exact absurd h (by simp)
    · intro h
      exact ⟨_, scanLine_of_columns line h⟩
  · exact ⟨_, _, index_of_lt _ 0 "" hpos, index_Split_zero _ _⟩
  · intro h
    exact ⟨scanLine_of_columns line h, ⟨_, index_of_lt _ 1 "" (by omega)⟩,
      sliceFrom_of_le _ 2 (by omega), fun k hk => ⟨_, getInt_drop _ k (by omega)⟩⟩

theorem fieldByName_int_iff (r : Counters) (nm : String) :
    (∃ v, r.FieldByName nm = .int v) ↔ nm ∈ intFieldNames := by
  constructor
  · rintro ⟨v, hv⟩
    by_contra hn
    simp only [intFieldNames, List.mem_cons, List.mem_singleton, List.not_mem_nil, or_false,
      not_or] at hn
    simp only [Counters.FieldByName, hn, if_false] at hv
    split_ifs at hv
  · intro h
    simp only [intFieldNames, List.mem_cons, List.mem_singleton, List.not_mem_nil,
      or_false] at h
    rcases h with h | h | h | h | h | h | h | h | h | h | h | h | h | h | h | h | h | h | h <;>
      subst h <;> exact ⟨_, rfl⟩

/-- C16: `MetricFields` is the list of 11 names given, in that order and
without repetition; for every record the by-name lookup of each entry yields
the integer field of that name, so `Int()` succeeds; every entry is one of the
19 `int64` field names of `Counters`, which are exactly the names whose lookup
is an integer, and some of the 19 are not in `MetricFields`. -/
theorem MetricFields_table :
    MetricFields = ["IfInOctets", "IfOutOctets", "IfInDiscards", "IfInBroadcastPkts",
      "IfInMulticastPkts", "IfInUcastPkts", "IfOutUcastPkts", "IfOutMulticastPkts",
      "IfOutBroadcastPkts", "IfOutDiscards", "IfOutErrors"] ∧
    MetricFields.length = 11 ∧ MetricFields.Nodup ∧
    intFieldNames.length = 19 ∧ intFieldNames.Nodup ∧
    (∀ nm ∈ MetricFields, nm ∈ intFieldNames) ∧
    (∃ nm ∈ intFieldNames, nm ∉ MetricFields) ∧
    (∀ (r : Counters) (nm : String), (∃ v, r.FieldByName nm = .int v) ↔ nm ∈ intFieldNames) ∧
    (∀ r : Counters, MetricFields.map r.FieldByName = (metricValues r).map Value.int) ∧
    (∀ r : Counters, MetricFields.map (fun nm => (r.FieldByName nm).Int) =
      (metricValues r).map Except.ok) := by
  refine ⟨rfl, rfl, by decide, rfl, by decide, by decide, ⟨"IfIndex", by decide, by decide⟩,
    fieldByName_int_iff, ?_, ?_⟩
  · intro r
    simp +decide [MetricFields, metricValues, Counters.FieldByName]
  · intro r
    simp +decide [MetricFields, metricValues, Counters.FieldByName, Value.Int]

theorem take_drop_middle {α : Type} (A B C : List α) (n b : Nat) (hA : A.length = n)
    (hB : B.length = b) : ((A ++ B ++ C).drop n).take b = B := by
  subst hA hB
  rw [List.append_assoc, List.drop_left, List.take_left]

theorem allPoints_slice (counters : List Counters) (i : Nat) (r : Counters)
    (hr : counters.get? i = some r) :
    ((allPoints counters).drop (11 * i)).take 11 = recordPoints r := by
  induction counters generalizing i with
  | nil => simp at hr
  | cons c cs ih =>
    unfold allPoints
    rw [List.map_cons, List.flatten_cons]
    cases i with
    | zero =>
      simp only [List.get?_cons_zero, Option.some.injEq] at hr
      subst hr
      simp only [Nat.mul_zero, List.drop_zero]
      rw [List.take_append_of_le_length (by rw [recordPoints_length])]
      exact List.take_of_length_le (by rw [recordPoints_length])
    | succ i =>
      simp only [List.get?_cons_succ] at hr
      have e : 11 * (i + 1) = (recordPoints c).length + 11 * i := by
        rw [recordPoints_length]; omega
      rw [e, ← List.drop_drop, List.drop_left]
      exact ih i hr

/-- C17: the points `appendPoints` produces for a record depend only on the
record: for any two batches holding `r` at positions `i` and `i'`, any two
point slices with room for them and any two worlds (whatever was called
before), both calls return, slots `11*i .. 11*i+10` of the first result equal
slots `11*i' .. 11*i'+10` of the second, both being the points of `r`; the same
holds for the point sequences `insertIntoInflux` builds for the two batches. -/
theorem appendPoints_no_hidden_state (pts1 pts2 : List Point)
    (counters1 counters2 : List Counters) (i i' : Nat) (w1 w2 : World) (r : Counters)
    (h1 : counters1.get? i = some r) (h2 : counters2.get? i' = some r)
    (hl1 : i * 11 + 11 ≤ pts1.length) (hl2 : i' * 11 + 11 ≤ pts2.length) :
    ∃ p1 v1 p2 v2, appendPoints pts1 counters1 i w1 = (.ok p1, v1) ∧
      appendPoints pts2 counters2 i' w2 = (.ok p2, v2) ∧
      (p1.drop (11 * i)).take 11 = recordPoints r ∧
      (p2.drop (11 * i')).take 11 = recordPoints r ∧
      (p1.drop (11 * i)).take 11 = (p2.drop (11 * i')).take 11 ∧
      ((allPoints counters1).drop (11 * i)).take 11 =
        ((allPoints counters2).drop (11 * i')).take 11 := by
  have e1 := take_drop_middle (pts1.take (i * 11)) (recordPoints r)
    (pts1.drop (i * 11 + 11)) (11 * i) 11 (by rw [List.length_take]; omega)
    (recordPoints_length r)
  have e2 := take_drop_middle (pts2.take (i' * 11)) (recordPoints r)
    (pts2.drop (i' * 11 + 11)) (11 * i') 11 (by rw [List.length_take]; omega)
    (recordPoints_length r)
  exact ⟨_, _, _, _, appendPoints_spec pts1 counters1 i w1 r h1 hl1,
    appendPoints_spec pts2 counters2 i' w2 r h2 hl2, e1, e2, e1.trans e2.symm,
    (allPoints_slice counters1 i r h1).trans (allPoints_slice counters2 i' r h2).symm⟩

/-- Witness of C17: the record of scenario 1 first in one batch and second in
another, reshaped in two different worlds. -/
theorem appendPoints_no_hidden_state_witness :
    [scenarioRecord].get? 0 = some scenarioRecord ∧
    [{ scenarioRecord with Source := "eth1" }, scenarioRecord].get? 1 = some scenarioRecord ∧
    0 * 11 + 11 ≤ (List.replicate 11 Point.zero).length ∧
    1 * 11 + 11 ≤ (List.replicate 22 Point.zero).length ∧
    ∃ p1 v1 p2 v2,
      appendPoints (List.replicate 11 Point.zero) [scenarioRecord] 0 World.initial =
        (.ok p1, v1) ∧
      appendPoints (List.replicate 22 Point.zero)
        [{ scenarioRecord with Source := "eth1" }, scenarioRecord] 1
        ⟨some ⟨7⟩, [.ping ⟨7⟩]⟩ = (.ok p2, v2) ∧
      (p1.drop (11 * 0)).take 11 = (p2.drop (11 * 1)).take 11 := by
  obtain ⟨p1, v1, p2, v2, a, b, _, _, c, _⟩ :=
    appendPoints_no_hidden_state (List.replicate 11 Point.zero) (List.replicate 22 Point.zero)
      [scenarioRecord] [{ scenarioRecord with Source := "eth1" }, scenarioRecord] 0 1
      World.initial ⟨some ⟨7⟩, [.ping ⟨7⟩]⟩ scenarioRecord rfl rfl (by decide) (by decide)
  exact ⟨rfl, rfl, by decide, by decide, p1, v1, p2, v2, a, b, c⟩

/-! ## Base-prefixed literals -/

theorem lower_of_digit (t : Nat) (h1 : 48 ≤ t) (h2 : t ≤ 57) : t ||| 32 = t := by
  interval_cases t <;> rfl

theorem lower_of_lowercase (t : Nat) (h1 : 97 ≤ t) (h2 : t ≤ 122) : t ||| 32 = t := by
  interval_cases t <;> rfl

theorem lower_of_uppercase (t : Nat) (h1 : 65 ≤ t) (h2 : t ≤ 90) : t ||| 32 = t + 32 := by
  interval_cases t <;> rfl

theorem toNat_ne_of_ne (c : Char) (k : Char) (h : c.toNat ≠ k.toNat) : c ≠ k := by
  intro e; exact h (by rw [e])

theorem hexDigit_digitsOf : DigitsOf hexDigit 16 := by
  intro c d h
  unfold hexDigit at h
  unfold digitVal lower
  have e0 : '0'.toNat = 48 := rfl
  have e9 : '9'.toNat = 57 := rfl
  have ea : 'a'.toNat = 97 := rfl
  have ez : 'z'.toNat = 122 := rfl
  rw [e0, e9, ea, ez]
  split_ifs at h with h1 h2 h3
  · rw [if_pos h1]
    have := Option.some.inj h
    exact ⟨h, by omega, toNat_ne_of_ne _ _ (by
      have : '_'.toNat = 95 := rfl
      omega)⟩
  · have hl := lower_of_lowercase c.toNat h2.1 (by omega)
    rw [if_neg h1, hl, if_pos ⟨h2.1, by omega⟩]
    have := Option.some.inj h
    exact ⟨h, by omega, toNat_ne_of_ne _ _ (by
      have : '_'.toNat = 95 := rfl
      omega)⟩
  · have hl := lower_of_uppercase c.toNat h3.1 (by omega)
    rw [if_neg h1, hl, if_pos ⟨by omega, by omega⟩]
    have := Option.some.inj h
    refine ⟨?_, by omega, toNat_ne_of_ne _ _ (by
      have : '_'.toNat = 95 := rfl
      omega)⟩
    rw [← h]
    exact congrArg some (by omega)

theorem decDigit_digitsOf : DigitsOf decDigit 10 := by
  intro c d h
  unfold decDigit at h
  unfold digitVal
  have e0 : '0'.toNat = 48 := rfl
  have e9 : '9'.toNat = 57 := rfl
  rw [e0, e9]
  split_ifs at h with h1
  rw [if_pos h1]
  have := Option.some.inj h
  exact ⟨h, by omega, toNat_ne_of_ne _ _ (by
    have : '_'.toNat = 95 := rfl
    omega)⟩

theorem octDigit_digitsOf : DigitsOf octDigit 8 := by
  intro c d h
  unfold octDigit at h
  unfold digitVal
  have e0 : '0'.toNat = 48 := rfl
  have e9 : '9'.toNat = 57 := rfl
  rw [e0, e9]
  split_ifs at h with h1
  rw [if_pos ⟨h1.1, by omega⟩]
  have := Option.some.inj h
  exact ⟨h, by omega, toNat_ne_of_ne _ _ (by
    have : '_'.toNat = 95 := rfl
    omega)⟩

theorem digitsValue_le (digit : Char → Option Nat) (base : Nat) (hb : 1 ≤ base) :
    ∀ (cs : List Char) (p v : Nat), digitsValue digit base cs p = some v → p ≤ v := by
  intro cs
  induction cs with
  | nil => intro p v h; simp [digitsValue] at h; omega
  | cons c cs ih =>
    intro p v h
    unfold digitsValue at h
    cases hd : digit c with
    | none => rw [hd] at h; simp at h
    | some d =>
      rw [hd] at h
      have := ih _ _ h
      have h2 : p ≤ p * base := Nat.le_mul_of_pos_right p (by omega)
      omega

theorem parseDigits_cons (base cutoff maxVal : Nat) (b0 : Bool) (c : Char) (cs : List Char)
    (n : Nat) (us : Bool) :
    parseDigits base cutoff maxVal b0 (c :: cs) n us =
      if c = '_' ∧ b0 = true then parseDigits base cutoff maxVal b0 cs n true
      else
        match digitVal c with
        | none => (0, us, some .errSyntax)
        | some d =>
          if d ≥ base then (0, us, some .errSyntax)
          else if n ≥ cutoff then (maxVal, us, some .errRange)
          else
            if (n * base + d) % 2 ^ 64 < n * base ∨ (n * base + d) % 2 ^ 64 > maxVal then
              (maxVal, us, some .errRange)
            else parseDigits base cutoff maxVal b0 cs ((n * base + d) % 2 ^ 64) us := by
  rw [parseDigits]

theorem parseDigits_of_digits (digit : Char → Option Nat) (base : Nat)
    (hd : DigitsOf digit base) (hb : 1 ≤ base) (b0 : Bool) (rest : List Char) :
    ∀ (cs : List Char) (p v : Nat) (us : Bool),
      digitsValue digit base cs p = some v → v < 2 ^ 64 →
      parseDigits base ((2 ^ 64 - 1) / base + 1) (2 ^ 64 - 1) b0 (cs ++ rest) p us =
        parseDigits base ((2 ^ 64 - 1) / base + 1) (2 ^ 64 - 1) b0 rest v us := by
  intro cs
  induction cs with
  | nil =>
    intro p v us h _
    simp only [digitsValue, Option.some.injEq] at h
    subst h
    rfl
  | cons c cs ih =>
    intro p v us h hv
    unfold digitsValue at h
    cases hdc : digit c with
    | none => rw [hdc] at h; simp at h
    | some d =>
      rw [hdc] at h
      simp only at h
      obtain ⟨h1, h2, h3⟩ := hd c d hdc
      have hle := digitsValue_le digit base hb cs _ _ h
      have hp : p * base ≤ 2 ^ 64 - 1 := by omega
      have hcut : ¬ (p ≥ (2 ^ 64 - 1) / base + 1) := by
        have : p ≤ (2 ^ 64 - 1) / base := (Nat.le_div_iff_mul_le (by omega)).mpr hp
        omega
      have hmod : (p * base + d) % 2 ^ 64 = p * base + d := Nat.mod_eq_of_lt (by omega)
      rw [List.cons_append, parseDigits_cons]
      rw [if_neg (fun hc => h3 hc.1)]
      simp only [h1]
      rw [if_neg (by omega), if_neg hcut]
      simp only [hmod]
      rw [if_neg (by omega)]
      exact ih _ _ _ h hv

theorem detectBase_hex (c2 : Char) (cs : List Char) :
    detectBase ('0' :: 'x' :: c2 :: cs) = (16, c2 :: cs) := by
  simp +decide [detectBase]

theorem detectBase_zero_digit (c : Char) (cs : List Char) (h1 : 48 ≤ c.toNat)
    (h2 : c.toNat ≤ 57) : detectBase ('0' :: c :: cs) = (8, c :: cs) := by
  have hl : lower c = c.toNat := lower_of_digit c.toNat h1 h2
  have eb : 'b'.toNat = 98 := rfl
  have eo : 'o'.toNat = 111 := rfl
  have ex : 'x'.toNat = 120 := rfl
  cases cs with
  | nil => simp [detectBase]
  | cons c2 cs =>
    simp only [detectBase, hl, eb, eo, ex]
    rw [if_neg (by omega), if_neg (by omega), if_neg (by omega)]

theorem detectBase_dec (c : Char) (cs : List Char) (h : c ≠ '0') :
    detectBase (c :: cs) = (10, c :: cs) := by
  unfold detectBase
  split
  · rename_i heq
    exact absurd (List.cons.inj heq).1 h
  · rename_i heq
    exact absurd (List.cons.inj heq).1 h
  · rfl

theorem ParseUintChars_eq (s : List Char) (hs : s ≠ []) :
    ParseUintChars s 0 64 =
      match parseDigits (detectBase s).1 ((2 ^ 64 - 1) / (detectBase s).1 + 1) (2 ^ 64 - 1)
        true (detectBase s).2 0 false with
      | (n, _, some e) => (n, some e)
      | (n, us, none) =>
        if us = true ∧ underscoreOK s = false then (0, some .errSyntax) else (n, none) := by
  unfold ParseUintChars
  rw [if_neg hs]
  rfl

theorem ParseUintChars_digits (s ds : List Char) (b v : Nat) (hs : s ≠ [])
    (hdb : detectBase s = (b, ds))
    (hp : parseDigits b ((2 ^ 64 - 1) / b + 1) (2 ^ 64 - 1) true ds 0 false =
      (v, false, none)) :
    ParseUintChars s 0 64 = (v, none) := by
  rw [ParseUintChars_eq s hs, hdb]
  simp only [hp]
  rw [if_neg (by simp)]

theorem ParseUintChars_invalid (s ds : List Char) (b : Nat) (us : Bool) (hs : s ≠ [])
    (hdb : detectBase s = (b, ds))
    (hp : parseDigits b ((2 ^ 64 - 1) / b + 1) (2 ^ 64 - 1) true ds 0 false =
      (0, us, some .errSyntax)) :
    ParseUintChars s 0 64 = (0, some .errSyntax) := by
  rw [ParseUintChars_eq s hs, hdb]
  simp only [hp]

theorem ParseIntChars_unsigned (c : Char) (cs : List Char) (un : Nat)
    (hc : c ≠ '+' ∧ c ≠ '-') (hu : ParseUintChars (c :: cs) 0 64 = (un, none))
    (hlt : un < 2 ^ 63) : ParseIntChars (c :: cs) 0 64 = ((un : Int), none) := by
  unfold ParseIntChars
  simp only [hc.1, hc.2, or_self, if_false, hu]
  have hneg : (c == '-') = false := by simp [hc.2]
  simp only [hneg]
  rw [if_neg (by simp), if_neg (by simp; omega)]
  simp

theorem ParseIntChars_negative (s : List Char) (un : Nat)
    (hu : ParseUintChars s 0 64 = (un, none)) (hle : un ≤ 2 ^ 63) :
    ParseIntChars ('-' :: s) 0 64 = (-(un : Int), none) := by
  unfold ParseIntChars
  simp only [or_true, if_true, hu]
  have hneg : ('-' == '-') = true := by decide
  simp only [hneg]
  rw [if_neg (by simp), if_neg (by simp), if_neg (by simp; omega)]
  simp

theorem ParseIntChars_invalid (c : Char) (cs : List Char) (hc : c ≠ '+' ∧ c ≠ '-')
    (hu : ParseUintChars (c :: cs) 0 64 = (0, some .errSyntax)) :
    ParseIntChars (c :: cs) 0 64 = (0, some .errSyntax) := by
  unfold ParseIntChars
  simp only [hc.1, hc.2, or_self, if_false, hu]
  rw [if_pos (by decide)]

theorem getInt_singleton (s : String) : getInt [s] 0 = .ok (ParseInt s 0 64).1 := rfl

theorem digit_range_of_octDigit (c : Char) (d : Nat) (h : octDigit c = some d) :
    48 ≤ c.toNat ∧ c.toNat ≤ 57 := by
  unfold octDigit at h
  split_ifs at h with h1
  omega

theorem zero_not_sign : ('0' : Char) ≠ '+' ∧ ('0' : Char) ≠ '-' := by decide

theorem ParseIntChars_hex (h : List Char) (v : Nat) (hne : h ≠ [])
    (hv : digitsValue hexDigit 16 h 0 = some v) (hr : v < 2 ^ 63) :
    ParseIntChars ('0' :: 'x' :: h) 0 64 = ((v : Int), none) := by
  obtain ⟨c2, cs, rfl⟩ := List.exists_cons_of_ne_nil hne
  have hp := parseDigits_of_digits hexDigit 16 hexDigit_digitsOf (by decide) true []
    (c2 :: cs) 0 v false hv (by omega)
  rw [List.append_nil] at hp
  exact ParseIntChars_unsigned '0' _ v zero_not_sign
    (ParseUintChars_digits _ _ 16 v (by simp) (detectBase_hex c2 cs) (by rw [hp]; rfl)) hr

theorem ParseIntChars_octal (o : List Char) (v : Nat) (hne : o ≠ [])
    (hv : digitsValue octDigit 8 o 0 = some v) (hr : v < 2 ^ 63) :
    ParseIntChars ('0' :: o) 0 64 = ((v : Int), none) := by
  obtain ⟨c1, cs, rfl⟩ := List.exists_cons_of_ne_nil hne
  have hc1 : ∃ d, octDigit c1 = some d := by
    unfold digitsValue at hv
    cases hd : octDigit c1 with
    | none => rw [hd] at hv; simp at hv
    | some d => exact ⟨d, rfl⟩
  obtain ⟨d, hd⟩ := hc1
  have hrange := digit_range_of_octDigit c1 d hd
  have hp := parseDigits_of_digits octDigit 8 octDigit_digitsOf (by decide) true []
    (c1 :: cs) 0 v false hv (by omega)
  rw [List.append_nil] at hp
  exact ParseIntChars_unsigned '0' _ v zero_not_sign
    (ParseUintChars_digits _ _ 8 v (by simp)
      (detectBase_zero_digit c1 cs hrange.1 hrange.2) (by rw [hp]; rfl)) hr

theorem ParseIntChars_octal_bad_digit (o t : List Char) (d : Char) (v : Nat)
    (hv : digitsValue octDigit 8 o 0 = some v) (hr : v < 2 ^ 64) (hd : d = '8' ∨ d = '9') :
    ParseIntChars ('0' :: (o ++ d :: t)) 0 64 = (0, some .errSyntax) := by
  have hstep : ∀ us, parseDigits 8 ((2 ^ 64 - 1) / 8 + 1) (2 ^ 64 - 1) true (d :: t) v us =
      (0, us, some .errSyntax) := by
    intro us
    rw [parseDigits_cons]
    rcases hd with rfl | rfl
    · rw [if_neg (by decide)]
      have : digitVal '8' = some 8 := by decide
      simp only [this]
      rw [if_pos (by decide)]
    · rw [if_neg (by decide)]
      have : digitVal '9' = some 9 := by decide
      simp only [this]
      rw [if_pos (by decide)]
  have hp := parseDigits_of_digits octDigit 8 octDigit_digitsOf (by decide) true (d :: t)
    o 0 v false hv hr
  rw [hstep] at hp
  have hdr : 48 ≤ d.toNat ∧ d.toNat ≤ 57 := by
    rcases hd with rfl | rfl <;> decide
  have hdb : detectBase ('0' :: (o ++ d :: t)) = (8, o ++ d :: t) := by
    cases o with
    | nil => exact detectBase_zero_digit d t hdr.1 hdr.2
    | cons c1 cs =>
      have hc1 : ∃ k, octDigit c1 = some k := by
        unfold digitsValue at hv
        cases hk : octDigit c1 with
        | none => rw [hk] at hv; simp at hv
        | some k => exact ⟨k, rfl⟩
      obtain ⟨k, hk⟩ := hc1
      have hrange := digit_range_of_octDigit c1 k hk
      exact detectBase_zero_digit c1 _ hrange.1 hrange.2
  exact ParseIntChars_invalid '0' _ zero_not_sign
    (ParseUintChars_invalid _ _ 8 false (by simp) hdb hp)

/-- C19 as stated fails: a column with a leading zero and the digit 8 does
not always give 0.  After `0x` the digit 8 is a hexadecimal digit, and when
the octal digits before the 8 already overflow the result is the largest
`int64`. -/
theorem getInt_leading_zero_with_eight :
    getInt ["0x8"] 0 = .ok 8 ∧ getInt ["0x19"] 0 = .ok 25 ∧
    getInt ["0100000000000000000000008"] 0 = .ok 9223372036854775807 ∧
    getInt ["08"] 0 = .ok 0 := by
  decide

/-- C19 as amended: `getInt` parses with base 0.  A text read in base 10 does
not start with `0`.  For every non-empty string `h` of hexadecimal digits
whose value is below `2^63`, `getInt("0x" + h)` is that base-16 value; for
every non-empty string `o` of digits 0-7 whose value is below `2^63`,
`getInt("0" + o)` is that base-8 value (`010` gives 8); and `"0" + o + d + t`
with `o` a string of digits 0-7 of value below `2^64`, `d` the digit 8 or 9
and `t` any text gives 0 (`08` gives 0). -/
theorem getInt_base_prefixed :
    (∀ s : List Char, (detectBase s).1 = 10 → s.head? ≠ some '0') ∧
    (∀ (h : List Char) (v : Nat), h ≠ [] → digitsValue hexDigit 16 h 0 = some v →
      v < 2 ^ 63 → getInt [String.mk ('0' :: 'x' :: h)] 0 = .ok (v : Int)) ∧
    (∀ (o : List Char) (v : Nat), o ≠ [] → digitsValue octDigit 8 o 0 = some v →
      v < 2 ^ 63 → getInt [String.mk ('0' :: o)] 0 = .ok (v : Int)) ∧
    (∀ (o t : List Char) (d : Char) (v : Nat), digitsValue octDigit 8 o 0 = some v →
      v < 2 ^ 64 → d = '8' ∨ d = '9' →
      getInt [String.mk ('0' :: (o ++ d :: t))] 0 = .ok 0) ∧
    getInt ["0x1F"] 0 = .ok 31 ∧ getInt ["010"] 0 = .ok 8 ∧ getInt ["10"] 0 = .ok 10 ∧
    getInt ["08"] 0 = .ok 0 ∧ getInt ["0779"] 0 = .ok 0 := by
  refine ⟨?_, ?_, ?_, ?_, by decide, by decide, by decide, by decide, by decide⟩
  · intro s h
    unfold detectBase at h
    split at h
    · split_ifs at h <;> simp at h
    · simp at h
    · rename_i h1 h2
      cases s with
      | nil => simp
      | cons c cs =>
        simp only [List.head?_cons, ne_eq, Option.some.injEq]
        intro hc
        subst hc
        exact h2 cs rfl
  · intro h v hne hv hr
    rw [getInt_singleton]
    exact congrArg (fun p => Except.ok p.1) (ParseIntChars_hex h v hne hv hr)
  · intro o v hne hv hr
    rw [getInt_singleton]
    exact congrArg (fun p => Except.ok p.1) (ParseIntChars_octal o v hne hv hr)
  · intro o t d v hv hr hd
    rw [getInt_singleton]
    exact congrArg (fun p => Except.ok p.1) (ParseIntChars_octal_bad_digit o t d v hv hr hd)

/-! ## Parse round trip -/

theorem natDigits_acc : ∀ (fuel n : Nat) (acc : List Char),
    natDigits fuel n acc = natDigits fuel n [] ++ acc := by
  intro fuel
  induction fuel with
  | zero => intro n acc; rfl
  | succ fuel ih =>
    intro n acc
    unfold natDigits
    by_cases h : n / 10 = 0
    · simp [h]
    · rw [if_neg h, if_neg h, ih (n / 10) (_ :: acc), ih (n / 10) [_]]
      simp

theorem natDigits_fuel : ∀ (f1 f2 n : Nat) (acc : List Char), n < f1 → n < f2 →
    natDigits f1 n acc = natDigits f2 n acc := by
  intro f1
  induction f1 with
  | zero => intro f2 n acc h; omega
  | succ f1 ih =>
    intro f2 n acc h1 h2
    obtain ⟨f2', rfl⟩ : ∃ k, f2 = k + 1 := ⟨f2 - 1, by omega⟩
    unfold natDigits
    by_cases h : n / 10 = 0
    · simp [h]
    · rw [if_neg h, if_neg h]
      have hlt : n / 10 < n := Nat.div_lt_self (by
        by_contra hc
        have : n = 0 := by omega
        rw [this] at h
        exact h rfl) (by decide)
      exact ih f2' (n / 10) _ (by omega) (by omega)

theorem decimal_small (n : Nat) (h : n < 10) : decimal n = [Char.ofNat (48 + n)] := by
  unfold decimal natDigits
  rw [if_pos (Nat.div_eq_of_lt h), Nat.mod_eq_of_lt h]

theorem decimal_step (n : Nat) (h : 10 ≤ n) :
    decimal n = decimal (n / 10) ++ [Char.ofNat (48 + n % 10)] := by
  have hne : ¬ n / 10 = 0 := by
    intro hc
    have := Nat.div_add_mod n 10
    have := Nat.mod_lt n (by decide : 10 > 0)
    omega
  have hlt : n / 10 < n := Nat.div_lt_self (by omega) (by decide)
  unfold decimal
  conv_lhs => unfold natDigits
  rw [if_neg hne, natDigits_acc, natDigits_fuel n (n / 10 + 1) (n / 10) [] hlt (by omega)]

theorem toNat_digitChar (k : Nat) (h : k < 10) : (Char.ofNat (48 + k)).toNat = 48 + k := by
  interval_cases k <;> rfl

theorem decDigit_digitChar (k : Nat) (h : k < 10) : decDigit (Char.ofNat (48 + k)) = some k := by
  unfold decDigit
  rw [toNat_digitChar k h, if_pos ⟨by omega, by omega⟩]
  exact congrArg some (by omega)

theorem digitsValue_cons (digit : Char → Option Nat) (base : Nat) (c : Char)
    (cs : List Char) (p d : Nat) (h : digit c = some d) :
    digitsValue digit base (c :: cs) p = digitsValue digit base cs (p * base + d) := by
  simp only [digitsValue, h]

theorem digitsValue_cons_none (digit : Char → Option Nat) (base : Nat) (c : Char)
    (cs : List Char) (p : Nat) (h : digit c = none) :
    digitsValue digit base (c :: cs) p = none := by
  simp only [digitsValue, h]

theorem digitsValue_append (digit : Char → Option Nat) (base : Nat) (B : List Char) :
    ∀ (A : List Char) (p : Nat), digitsValue digit base (A ++ B) p =
      (digitsValue digit base A p).bind (digitsValue digit base B) := by
  intro A
  induction A with
  | nil => intro p; rfl
  | cons c cs ih =>
    intro p
    rw [List.cons_append]
    cases h : digit c with
    | none =>
      rw [digitsValue_cons_none _ _ _ _ _ h, digitsValue_cons_none _ _ _ _ _ h]
      rfl
    | some d =>
      rw [digitsValue_cons _ _ _ _ _ _ h, digitsValue_cons _ _ _ _ _ _ h]
      exact ih _

theorem digitsValue_decimal (n : Nat) : digitsValue decDigit 10 (decimal n) 0 = some n := by
  induction n using Nat.strong_induction_on with
  | _ n ih =>
    by_cases h : n < 10
    · rw [decimal_small n h]
      simp [digitsValue, decDigit_digitChar n h]
    · have hlt : n / 10 < n := Nat.div_lt_self (by omega) (by decide)
      rw [decimal_step n (by omega), digitsValue_append, ih (n / 10) hlt]
      simp only [Option.some_bind, digitsValue,
        decDigit_digitChar (n % 10) (Nat.mod_lt n (by decide))]
      exact congrArg some (by have := Nat.div_add_mod n 10; omega)

theorem decimal_head (n : Nat) (hn : 0 < n) :
    ∃ c cs, decimal n = c :: cs ∧ 49 ≤ c.toNat ∧ c.toNat ≤ 57 := by
  induction n using Nat.strong_induction_on with
  | _ n ih =>
    by_cases h : n < 10
    · exact ⟨_, [], decimal_small n h, by rw [toNat_digitChar n h]; omega,
        by rw [toNat_digitChar n h]; omega⟩
    · have hlt : n / 10 < n := Nat.div_lt_self (by omega) (by decide)
      have hpos : 0 < n / 10 := Nat.div_pos (by omega) (by decide)
      obtain ⟨c, cs, hc, h1, h2⟩ := ih (n / 10) hlt hpos
      exact ⟨c, cs ++ [Char.ofNat (48 + n % 10)], by rw [decimal_step n (by omega), hc]; rfl,
        h1, h2⟩

theorem decimal_chars (n : Nat) : ∀ c ∈ decimal n, 48 ≤ c.toNat ∧ c.toNat ≤ 57 := by
  induction n using Nat.strong_induction_on with
  | _ n ih =>
    by_cases h : n < 10
    · intro c hc
      rw [decimal_small n h, List.mem_singleton] at hc
      rw [hc, toNat_digitChar n h]
      omega
    · have hlt : n / 10 < n := Nat.div_lt_self (by omega) (by decide)
      intro c hc
      rw [decimal_step n (by omega), List.mem_append, List.mem_singleton] at hc
      rcases hc with hc | hc
      · exact ih (n / 10) hlt c hc
      · have hm := Nat.mod_lt n (by decide : 10 > 0)
        rw [hc, toNat_digitChar _ hm]
        omega

theorem ParseUintChars_decimal (n : Nat) (hn : n < 2 ^ 64) :
    ParseUintChars (decimal n) 0 64 = (n, none) := by
  by_cases h0 : n = 0
  · subst h0; decide
  · obtain ⟨c, cs, hc, h1, h2⟩ := decimal_head n (by omega)
    have hp := parseDigits_of_digits decDigit 10 decDigit_digitsOf (by decide) true []
      (decimal n) 0 n false (digitsValue_decimal n) hn
    rw [List.append_nil] at hp
    have hne : c ≠ '0' := toNat_ne_of_ne _ _ (by
      have : '0'.toNat = 48 := rfl
      omega)
    rw [hc] at hp ⊢
    exact ParseUintChars_digits _ _ 10 n (by simp) (detectBase_dec c cs hne) (by rw [hp]; rfl)

theorem ParseInt_formatInt (i : Int) (h : InInt64 i) :
    ParseInt (formatInt i) 0 64 = (i, none) := by
  unfold ParseInt
  cases i with
  | ofNat n =>
    have hn : n < 2 ^ 63 := by
      have := h.2
      simp only [Int.ofNat_eq_coe] at this
      exact_mod_cast this
    show ParseIntChars (decimal n) 0 64 = _
    have hu := ParseUintChars_decimal n (by omega)
    by_cases h0 : n = 0
    · subst h0; decide
    · obtain ⟨c, cs, hc, h1, h2⟩ := decimal_head n (by omega)
      rw [hc] at hu ⊢
      have hs : c ≠ '+' ∧ c ≠ '-' := ⟨toNat_ne_of_ne _ _ (by
        have : '+'.toNat = 43 := rfl
        omega), toNat_ne_of_ne _ _ (by
        have : '-'.toNat = 45 := rfl
        omega)⟩
      exact ParseIntChars_unsigned c cs n hs hu hn
  | negSucc n =>
    have hn : n + 1 ≤ 2 ^ 63 := by
      have := h.1
      rw [Int.negSucc_eq] at this
      have h2 : ((n : Int) + 1) ≤ 2 ^ 63 := by omega
      exact_mod_cast h2
    show ParseIntChars ('-' :: decimal (n + 1)) 0 64 = _
    rw [ParseIntChars_negative (decimal (n + 1)) (n + 1)
      (ParseUintChars_decimal (n + 1) (by omega)) hn]
    rfl

theorem splitAux_no_sep (sep : Char) (ys : List Char) :
    ∀ (x cur : List Char), sep ∉ x →
      splitAux sep (x ++ ys) cur = splitAux sep ys (x.reverse ++ cur) := by
  intro x
  induction x with
  | nil => intro cur _; rfl
  | cons c cs ih =>
    intro cur h
    have hc : c ≠ sep := fun e => h (by rw [e]; exact List.mem_cons_self _ _)
    have hcs : sep ∉ cs := fun e => h (List.mem_cons_of_mem _ e)
    rw [List.cons_append, splitAux, if_neg hc, ih _ hcs]
    simp

theorem splitAux_joinWith (sep : Char) :
    ∀ (xs : List (List Char)) (x cur : List Char), (∀ y ∈ x :: xs, sep ∉ y) →
      splitAux sep (joinWith sep (x :: xs)) cur = (cur.reverse ++ x) :: xs := by
  intro xs
  induction xs with
  | nil =>
    intro x cur h
    have := splitAux_no_sep sep [] x cur (h x (List.mem_cons_self _ _))
    rw [List.append_nil] at this
    rw [joinWith, this, splitAux]
    simp
  | cons y rest ih =>
    intro x cur h
    rw [joinWith, splitAux_no_sep sep _ x cur (h x (List.mem_cons_self _ _)), splitAux,
      if_pos rfl, ih y [] (fun z hz => h z (List.mem_cons_of_mem _ hz))]
    simp

theorem formatInt_chars (i : Int) :
    ∀ c ∈ (formatInt i).data, c = '-' ∨ (48 ≤ c.toNat ∧ c.toNat ≤ 57) := by
  cases i with
  | ofNat n =>
    intro c hc
    exact Or.inr (decimal_chars n c hc)
  | negSucc n =>
    intro c hc
    have hc' : c ∈ '-' :: decimal (n + 1) := hc
    rw [List.mem_cons] at hc'
    rcases hc' with h | h
    · exact Or.inl h
    · exact Or.inr (decimal_chars (n + 1) c h)

theorem formatInt_no_char (i : Int) (k : Char) (hk : k ≠ '-')
    (hd : ¬ (48 ≤ k.toNat ∧ k.toNat ≤ 57)) : k ∉ (formatInt i).data := by
  intro h
  rcases formatInt_chars i k h with h1 | h1
  · exact hk h1
  · exact hd h1

theorem before_formatInt (i : Int) : before (formatInt i) ' ' = formatInt i := by
  unfold before
  have h : (formatInt i).data.takeWhile (fun c => c != ' ') = (formatInt i).data := by
    rw [List.takeWhile_eq_self_iff]
    intro c hc
    have hne : c ≠ ' ' := by
      intro e
      rw [e] at hc
      exact formatInt_no_char i ' ' (by decide) (by decide) hc
    simp [hne]
  rw [h]

theorem Split_renderLine (r : Counters) (hs : ',' ∉ r.Source.data) :
    Split (renderLine r) ',' = renderColumns r := by
  unfold Split renderLine
  have hall : ∀ y ∈ (renderColumns r).map String.data, ',' ∉ y := by
    intro y hy
    rw [List.mem_map] at hy
    obtain ⟨s, hs1, rfl⟩ := hy
    unfold renderColumns at hs1
    rw [List.mem_cons, List.mem_cons, List.mem_map] at hs1
    rcases hs1 with h | h | ⟨i, _, h⟩
    · rw [h]; exact formatInt_no_char _ ',' (by decide) (by decide)
    · rw [h]; exact hs
    · rw [← h]; exact formatInt_no_char _ ',' (by decide) (by decide)
  have hcols : (renderColumns r).map String.data =
      (formatInt r.TimeStamp.unix).data :: (r.Source :: r.ints.map formatInt).map String.data :=
    rfl
  rw [hcols] at hall ⊢
  rw [splitAux_joinWith ',' _ _ [] hall]
  simp [renderColumns]

/-! ## Unparseable timestamp -/

/-- C20 as stated fails: the leading token `99999999999999999999x` of the
first column is non-numeric and not parseable as an integer, the record is
produced, but its TimeStamp is epoch second 9223372036854775807, not 0: the
digits overflow before the parse reaches the letter.  The same holds for the
numeral `99999999999999999999`. -/
theorem scanN_huge_timestamp :
    WellFormed mixedStampLine ∧
    before ((Split mixedStampLine ',').getD 0 "") ' ' = "99999999999999999999x" ∧
    (ParseInt "99999999999999999999x" 0 64).2 = some .errRange ∧
    scanLine mixedStampLine =
      .ok { scenarioRecord with TimeStamp := Time.Unix 9223372036854775807 } ∧
    scanLine mixedStampLine ≠ .ok { scenarioRecord with TimeStamp := Time.Unix 0 } ∧
    WellFormed hugeStampLine ∧
    (ParseInt (before ((Split hugeStampLine ',').getD 0 "") ' ') 0 64).2 = some .errRange ∧
    scanLine hugeStampLine =
      .ok { scenarioRecord with TimeStamp := Time.Unix 9223372036854775807 } ∧
    scanLine hugeStampLine ≠ .ok { scenarioRecord with TimeStamp := Time.Unix 0 } := by
  decide

/-- C20 as amended: for every line with at least 21 columns whose first
column's leading space-delimited token fails to parse, `scanN` does not reject
the line: it produces the record whose Source and 19 integer fields are those
of the columns, the same as for any line that differs in the first column
only; the TimeStamp is epoch second 0 when the parse ends in a syntax error
(an empty token, as when the column is empty or starts with a space, or a
character that is no digit of the base met before any overflow), and when it
ends in a range error (the digits read overflow `int64`) the TimeStamp is the
nearest bound: 9223372036854775807 for a token that does not start with `-`,
-9223372036854775808 for one that does. -/
theorem scanN_unparseable_timestamp (line : String) (cols : List String)
    (hcols : Split line ',' = cols) (h21 : 21 ≤ cols.length)
    (hfail : (ParseInt (before (cols.getD 0 "") ' ') 0 64).2 ≠ none) :
    (∃ r, scanLine line = .ok r ∧ scanN [some line] 1 = .ok ([r], []) ∧
      r.Source = cols.getD 1 "" ∧
      r.ints = (List.range 19).map (fun k => columnInt cols (k + 2)) ∧
      (∀ line' r', (Split line' ',').drop 1 = cols.drop 1 → scanLine line' = .ok r' →
        r'.Source = r.Source ∧ r'.ints = r.ints) ∧
      (((ParseInt (before (cols.getD 0 "") ' ') 0 64).2 = some .errSyntax ∧
          r.TimeStamp = Time.Unix 0) ∨
       ((ParseInt (before (cols.getD 0 "") ' ') 0 64).2 = some .errRange ∧
          (before (cols.getD 0 "") ' ').data.head? ≠ some '-' ∧
          r.TimeStamp = Time.Unix 9223372036854775807) ∨
       ((ParseInt (before (cols.getD 0 "") ' ') 0 64).2 = some .errRange ∧
          (before (cols.getD 0 "") ' ').data.head? = some '-' ∧
          r.TimeStamp = Time.Unix (-9223372036854775808)))) ∧
    (ParseInt "" 0 64).2 = some .errSyntax ∧
    (∀ c0 : String, c0.data.head? = some ' ' → before c0 ' ' = "") ∧
    before "" ' ' = "" := by
  subst hcols
  have hl := scanLine_of_columns line h21
  refine ⟨⟨_, hl, by simp [scanN, scanLoop, hl], rfl, rfl, ?_, ?_⟩, by decide, ?_, rfl⟩
  · intro line' r' hd hl'
    have h21' : 21 ≤ (Split line' ',').length := by
      have := congrArg List.length hd
      simp only [List.length_drop] at this
      omega
    rw [scanLine_of_columns line' h21'] at hl'
    have hr' := Except.ok.inj hl'
    subst hr'
    obtain ⟨a, tl, ha⟩ : ∃ a tl, Split line ',' = a :: tl :=
      List.exists_cons_of_ne_nil (by intro e; rw [e] at h21; simp at h21)
    obtain ⟨a', tl', ha'⟩ : ∃ a tl, Split line' ',' = a :: tl :=
      List.exists_cons_of_ne_nil (by intro e; rw [e] at h21'; simp at h21')
    rw [ha, ha'] at hd ⊢
    simp only [List.drop_succ_cons, List.drop_zero] at hd
    subst hd
    exact ⟨rfl, rfl⟩
  · obtain ⟨e, he⟩ := Option.ne_none_iff_exists'.mp hfail
    rcases ParseIntChars_error _ e he with ⟨h1, h2⟩ | ⟨h1, hs, h2⟩ | ⟨h1, hs, h2⟩
    · refine Or.inl ⟨by rw [he, h1], ?_⟩
      show Time.Unix (ParseInt _ 0 64).1 = Time.Unix 0
      exact congrArg Time.Unix h2
    · exact Or.inr (Or.inl ⟨by rw [he, h1], hs, congrArg Time.Unix h2⟩)
    · exact Or.inr (Or.inr ⟨by rw [he, h1], hs, congrArg Time.Unix h2⟩)
  · intro c0 h
    unfold before
    cases hd : c0.data with
    | nil => rfl
    | cons c cs =>
      rw [hd] at h
      simp only [List.head?_cons, Option.some.injEq] at h
      subst h
      simp [List.takeWhile]

/-- Witness of amended C20: a first column that starts with a space. -/
theorem scanN_unparseable_timestamp_witness :
    Split blankStampLine ',' = Split blankStampLine ',' ∧
    21 ≤ (Split blankStampLine ',').length ∧
    (ParseInt (before ((Split blankStampLine ',').getD 0 "") ' ') 0 64).2 ≠ none ∧
    ∃ r, scanLine blankStampLine = .ok r ∧ r.TimeStamp = Time.Unix 0 ∧
      r.Source = "eth0" ∧ r.ints = scenarioRecord.ints := by
  obtain ⟨⟨r, h1, _, h2, h3, _, h4⟩, _⟩ := scanN_unparseable_timestamp blankStampLine
    (Split blankStampLine ',') rfl (by decide) (by decide)
  refine ⟨rfl, by decide, by decide, r, h1, ?_, ?_, ?_⟩
  · rcases h4 with ⟨_, h⟩ | ⟨h, _⟩ | ⟨h, _⟩
    · exact h
    · exact absurd h (by decide)
    · exact absurd h (by decide)
  · rw [h2]; decide
  · rw [h3]; decide

/-! ## Lines beyond the buffer of the scanner -/

theorem lineText_of_not_mem (l : String) (h : '\r' ∉ l.data) : lineText l = l := by
  apply lineText_of_no_cr
  intro e
  rw [List.getLast?_eq_some_iff] at e
  obtain ⟨ys, hys⟩ := e
  exact h (by rw [hys]; simp)

theorem scanLine_one_column (line : String) (h : ',' ∉ line.data) :
    scanLine line = .error (.indexOutOfRange 1 1) := by
  have hlen : (Split line ',').length = 1 := by
    rw [Split_length, List.count_eq_zero.mpr h]
  unfold scanLine
  generalize Split line ',' = cols at hlen
  simp only [index_of_lt cols 0 "" (by omega), index_of_ge cols 1 (by omega),
    index_Split_zero, ok_bind, error_bind, hlen]

theorem scanN_stops_at_none (n : Int) (hn : n ≠ 1) (good : String) (r : Counters)
    (rest : Scanner) (hgood : scanLine good = .ok r) :
    scanN (some good :: none :: rest) n = .ok ([r], rest) := by
  have hn1 : ¬ ((1 : Int) = n) := fun e => hn e.symm
  simp [scanN, scanLoop, hgood, hn1]

theorem runLoop_after_tooLong {σ : Type}
    (insert : List Counters → σ → Except Panic Unit × σ) (n : Int) (hn : n ≠ 1) (fuel : Nat)
    (good cut : String) (r : Counters) (e : Panic) (w : σ)
    (hgood : scanLine good = .ok r) (hcut : scanLine cut = .error e)
    (hins : (insert [r] w).1 = .ok ()) :
    runLoop insert n (fuel + 2) [some good, none, some cut] w =
      (some (.error e), (insert [r] w).2) := by
  rw [runLoop, scanN_stops_at_none n hn good r _ hgood]
  simp only
  rw [if_neg (by simp)]
  cases hi : insert [r] w with
  | mk res w1 =>
    rw [hi] at hins
    simp only at hins
    subst hins
    simp only
    have hs2 : scanN [some cut] n = .error e := by
      simp [scanN, scanLoop, hcut]
    rw [runLoop, hs2]

theorem longColumn_length : longColumn.length = maxScanTokenSize + 11 := by
  unfold longColumn
  rw [List.length_append, List.length_replicate]
  have : "1700000000 ".data.length = 11 := by decide
  omega

theorem mem_longColumn (c : Char) (h : c ∈ longColumn) : c ∈ "1700000000 ".data ∨ c = 'x' := by
  unfold longColumn at h
  rw [List.mem_append] at h
  rcases h with h | h
  · exact Or.inl h
  · exact Or.inr (List.eq_of_mem_replicate h)

theorem not_mem_longLine (c : Char) (h1 : c ∉ "1700000000 ".data) (h2 : c ≠ 'x')
    (h3 : c ∉ ',' :: "eth0,1,6,1000,1,1,10,20,0,0,0,0,0,5,6,0,0,1,1,0".data) :
    c ∉ longLine.data := by
  intro h
  have h' : c ∈ longColumn ++ ',' :: "eth0,1,6,1000,1,1,10,20,0,0,0,0,0,5,6,0,0,1,1,0".data := h
  rw [List.mem_append] at h'
  rcases h' with h4 | h4
  · rcases mem_longColumn c h4 with h5 | h5
    · exact h1 h5
    · exact h2 h5
  · exact h3 h4

theorem longLine_no_line_feed : '\n' ∉ longLine.data :=
  not_mem_longLine _ (by decide) (by decide) (by decide)

theorem longLine_no_cr : '\r' ∉ longLine.data :=
  not_mem_longLine _ (by decide) (by decide) (by decide)

theorem longLine_length : maxScanTokenSize ≤ longLine.data.length := by
  have : longLine.data.length =
      longColumn.length +
        (',' :: "eth0,1,6,1000,1,1,10,20,0,0,0,0,0,5,6,0,0,1,1,0".data).length :=
    List.length_append _ _
  rw [this, longColumn_length]
  omega

theorem longColumn_no_comma : ',' ∉ longColumn := by
  intro h
  rcases mem_longColumn _ h with h | h
  · exact absurd h (by decide)
  · exact absurd h (by decide)

theorem longLine_wellFormed : WellFormed longLine := by
  unfold WellFormed Split longLine
  rw [splitAux_no_sep ',' _ _ [] longColumn_no_comma]
  rw [splitAux, if_pos rfl, List.map_cons, List.length_cons]
  have : (splitAux ',' "eth0,1,6,1000,1,1,10,20,0,0,0,0,0,5,6,0,0,1,1,0".data []).length = 20 := by
    decide
  rw [List.length_map, this]

theorem longLineCut_data : longLineCut.data = longColumn.take maxScanTokenSize := by
  unfold longLineCut longLine
  show List.take maxScanTokenSize (longColumn ++ _) = _
  rw [List.take_append_of_le_length (by rw [longColumn_length]; omega)]

theorem longLineCut_no_comma : ',' ∉ longLineCut.data := by
  rw [longLineCut_data]
  exact fun h => longColumn_no_comma (List.mem_of_mem_take h)

theorem longLineCut_text : lineText longLineCut = longLineCut := by
  apply lineText_of_not_mem
  unfold longLineCut
  exact fun h => longLine_no_cr (List.mem_of_mem_take h)

theorem scanLine_longLineCut : scanLine longLineCut = .error (.indexOutOfRange 1 1) :=
  scanLine_one_column _ longLineCut_no_comma

theorem longStdin_lines : linesOf longStdin = [scenarioLine, longLine, scenarioLine] := by
  apply linesOf_unlines
  intro l hl
  simp only [List.mem_cons, List.mem_singleton, List.not_mem_nil, or_false] at hl
  rcases hl with h | h | h
  · rw [h]; decide
  · rw [h]; exact longLine_no_line_feed
  · rw [h]; decide

theorem longStdin_wellFormed : ∀ l ∈ linesOf longStdin, WellFormed l := by
  rw [longStdin_lines]
  intro l hl
  simp only [List.mem_cons, List.mem_singleton, List.not_mem_nil, or_false] at hl
  rcases hl with h | h | h
  · rw [h]; decide
  · rw [h]; exact longLine_wellFormed
  · rw [h]; decide

theorem longFirstStdin_lines : linesOf longFirstStdin = [longLine, scenarioLine] := by
  apply linesOf_unlines
  intro l hl
  simp only [List.mem_cons, List.mem_singleton, List.not_mem_nil, or_false] at hl
  rcases hl with h | h
  · rw [h]; exact longLine_no_line_feed
  · rw [h]; decide

theorem NewScanner_longStdin :
    NewScanner longStdin = [some scenarioLine, none, some longLineCut] := by
  have h := NewScanner_unlines_long [scenarioLine] longLine [scenarioLine]
    (by
      intro l hl
      rw [List.mem_singleton] at hl
      rw [hl]
      decide)
    longLine_no_line_feed longLine_length
  have e : lineText scenarioLine = scenarioLine := by decide
  have e2 : lineText (String.mk (List.take maxScanTokenSize longLine.data)) = longLineCut :=
    longLineCut_text
  rw [e2] at h
  rw [List.map_cons, List.map_nil, e] at h
  exact h

theorem NewScanner_longFirstStdin :
    NewScanner longFirstStdin = [none, some longLineCut] := by
  have h := NewScanner_unlines_long [] longLine [scenarioLine]
    (by intro l hl; simp at hl) longLine_no_line_feed longLine_length
  have e2 : lineText (String.mk (List.take maxScanTokenSize longLine.data)) = longLineCut :=
    longLineCut_text
  rw [e2] at h
  exact h

theorem scanLine_scenarioLine : scanLine scenarioLine = .ok scenarioRecord := by decide

theorem scanN_longStdin (n : Int) (hn : n ≠ 1) :
    scanN (NewScanner longStdin) n = .ok ([scenarioRecord], [some longLineCut]) := by
  rw [NewScanner_longStdin]
  exact scanN_stops_at_none n hn scenarioLine scenarioRecord _ scanLine_scenarioLine

theorem insert_scenario_ok :
    (insertIntoInflux healthyEnv (flagsWith 100) [scenarioRecord] World.initial).1 = .ok () := by
  decide

theorem insert_scenario_points :
    ((writes (insertIntoInflux healthyEnv (flagsWith 100) [scenarioRecord]
      World.initial).2.trace).map (fun cw => cw.2.Points)).flatten =
      recordPoints scenarioRecord := by
  decide

theorem run_longStdin :
    run healthyEnv (flagsWith 100) longStdin World.initial =
      (some (.error (.indexOutOfRange 1 1)),
        (insertIntoInflux healthyEnv (flagsWith 100) [scenarioRecord] World.initial).2) := by
  unfold run
  rw [NewScanner_longStdin]
  exact runLoop_after_tooLong _ 100 (by decide) 2 scenarioLine longLineCut scenarioRecord _ _
    scanLine_scenarioLine scanLine_longLineCut insert_scenario_ok

/-- C1 as stated fails: an input of three lines of 21 columns each, the second
one 65595 bytes long, and chunk size 100.  The scanner stops at the long line
with its error unread: `run` writes the 11 points of the first line, then
reads the first 65536 bytes of the long line as a line of one column and
panics.  The points written are 11, not the 33 of the three lines. -/
theorem run_long_line_loses_points :
    (flagsWith 100).chunkSize = 100 ∧ healthyEnv.Constructs (flagsWith 100) ∧
    linesOf longStdin = [scenarioLine, longLine, scenarioLine] ∧
    (∀ l ∈ linesOf longStdin, WellFormed l) ∧
    maxScanTokenSize ≤ longLine.data.length ∧
    NewScanner longStdin = [some scenarioLine, none, some longLineCut] ∧
    ∃ w', run healthyEnv (flagsWith 100) longStdin World.initial =
        (some (.error (.indexOutOfRange 1 1)), w') ∧
      ((writes w'.trace).map (fun cw => cw.2.Points)).flatten = recordPoints scenarioRecord ∧
      (((writes w'.trace).map (fun cw => cw.2.Points)).flatten).length = 11 ∧
      (((linesOf longStdin).map
        (fun l => recordPoints (parseLine (lineText l)))).flatten).length = 33 := by
  refine ⟨rfl, ⟨rfl, fun _ _ => rfl⟩, longStdin_lines, longStdin_wellFormed, longLine_length,
    NewScanner_longStdin, _, run_longStdin, insert_scenario_points, ?_, ?_⟩
  · rw [insert_scenario_points, recordPoints_length]
  · rw [longStdin_lines]
    simp only [List.map_cons, List.map_nil, List.flatten_cons, List.flatten_nil,
      List.length_append, recordPoints_length, List.length_nil]

theorem batches_longStdin (n : Int) (hn : n ≠ 1) :
    batches n longStdin = (some (.error (.indexOutOfRange 1 1)), [[scenarioRecord]]) := by
  unfold batches
  rw [NewScanner_longStdin]
  exact runLoop_after_tooLong _ n hn 2 scenarioLine longLineCut scenarioRecord _ _
    scanLine_scenarioLine scanLine_longLineCut rfl

/-- C2 as stated fails: on an input of three lines of 21 columns each, the
second one 65595 bytes long, and chunk size 100 the loop of `run` hands on one
batch of one record and then panics; it does not hand on `ceil(3/100) = 1`
batch of three records. -/
theorem batches_long_line :
    linesOf longStdin = [scenarioLine, longLine, scenarioLine] ∧
    (∀ l ∈ linesOf longStdin, WellFormed l) ∧
    maxScanTokenSize ≤ longLine.data.length ∧
    batches 100 longStdin = (some (.error (.indexOutOfRange 1 1)), [[scenarioRecord]]) ∧
    (([[scenarioRecord]] : List (List Counters)).map List.length).sum ≠
      (linesOf longStdin).length := by
  refine ⟨longStdin_lines, longStdin_wellFormed, longLine_length,
    batches_longStdin 100 (by decide), ?_⟩
  rw [longStdin_lines]
  decide

/-- C13 as stated fails: with a line of 65595 bytes in the stream `scanN`
returns one record, fewer than `n = 100`, although two lines remain; and with
that line first in the stream it returns nil although two lines remain. -/
theorem scanN_long_line_ends_early :
    linesOf longStdin = [scenarioLine, longLine, scenarioLine] ∧
    (∀ l ∈ linesOf longStdin, WellFormed l) ∧
    scanN (NewScanner longStdin) 100 = .ok ([scenarioRecord], [some longLineCut]) ∧
    linesOf longFirstStdin = [longLine, scenarioLine] ∧
    (∀ l ∈ linesOf longFirstStdin, WellFormed l) ∧
    scanN (NewScanner longFirstStdin) 100 = .ok ([], [some longLineCut]) := by
  refine ⟨longStdin_lines, longStdin_wellFormed,
    scanN_longStdin 100 (by decide), longFirstStdin_lines, ?_, ?_⟩
  · rw [longFirstStdin_lines]
    intro l hl
    simp only [List.mem_cons, List.mem_singleton, List.not_mem_nil, or_false] at hl
    rcases hl with h | h
    · rw [h]; exact longLine_wellFormed
    · rw [h]; decide
  · rw [NewScanner_longFirstStdin]
    simp [scanN, scanLoop]

/-- C18 as stated fails: with chunk size 0 and a stream of three lines of 21
columns each, the second one 65595 bytes long, `scanN` returns early with the
record of the first line only and leaves the scanner not empty. -/
theorem scanN_nonpositive_long_line :
    linesOf longStdin = [scenarioLine, longLine, scenarioLine] ∧
    (∀ l ∈ linesOf longStdin, WellFormed l) ∧
    scanN (NewScanner longStdin) 0 = .ok ([scenarioRecord], [some longLineCut]) ∧
    batches 0 longStdin = (some (.error (.indexOutOfRange 1 1)), [[scenarioRecord]]) :=
  ⟨longStdin_lines, longStdin_wellFormed, scanN_longStdin 0 (by decide),
    batches_longStdin 0 (by decide)⟩

/-- C14 as stated fails: with chunk size 100 and one well-formed line `run`
makes one `Write` of 11 points, not of 100 * 11; and with three lines of 21
columns each, the second one 65595 bytes long, it makes one `Write` of 11
points and panics, where 33 points in one write would be the three records. -/
theorem run_partial_batch_points :
    (flagsWith 100).chunkSize = 100 ∧ WellFormed scenarioLine ∧
    (run healthyEnv (flagsWith 100) (unlines [scenarioLine]) World.initial).1 =
      some (.ok ()) ∧
    (writes (run healthyEnv (flagsWith 100) (unlines [scenarioLine])
      World.initial).2.trace).map (fun cw => cw.2.Points.length) = [11] ∧
    (11 : Int) ≠ (flagsWith 100).chunkSize * 11 ∧
    (∀ l ∈ linesOf longStdin, WellFormed l) ∧ (linesOf longStdin).length = 3 ∧
    (run healthyEnv (flagsWith 100) longStdin World.initial).1 =
      some (.error (.indexOutOfRange 1 1)) ∧
    (writes (run healthyEnv (flagsWith 100) longStdin World.initial).2.trace).map
      (fun cw => cw.2.Points.length) = [11] := by
  refine ⟨rfl, by decide, by decide, by decide, by decide, longStdin_wellFormed, ?_, ?_, ?_⟩
  · rw [longStdin_lines]; rfl
  · rw [run_longStdin]
  · rw [run_longStdin]
    decide

/-! ## A rendered line as the input of the scanner -/

theorem linesAux_no_line_feed (l : List Char) (h : '\n' ∉ l) :
    ∀ cur : List Char, linesAux l cur =
      if cur.reverse ++ l = [] then [] else [String.mk (cur.reverse ++ l)] := by
  induction l with
  | nil =>
    intro cur
    rw [linesAux]
    by_cases hc : cur = []
    · simp [hc]
    · simp [hc]
  | cons a l ih =>
    intro cur
    have ha : a ≠ '\n' := fun e => h (by rw [e]; exact List.mem_cons_self _ _)
    have hl : '\n' ∉ l := fun e => h (List.mem_cons_of_mem _ e)
    rw [linesAux, if_neg ha, ih hl]
    simp

theorem linesOf_single (s : String) (h : '\n' ∉ s.data) (hne : s.data ≠ []) :
    linesOf s = [s] := by
  unfold linesOf
  rw [linesAux_no_line_feed _ h]
  simp [hne]

theorem NewScanner_single (s : String) (h : '\n' ∉ s.data) (hne : s.data ≠ [])
    (hshort : s.data.length < maxScanTokenSize) :
    NewScanner s = [some (lineText s)] ∧ NewScanner (unlines [s]) = [some (lineText s)] := by
  have h1 : linesOf s = [s] := linesOf_single s h hne
  have h2 : linesOf (unlines [s]) = [s] :=
    linesOf_unlines [s] (by intro l hl; rw [List.mem_singleton] at hl; rw [hl]; exact h)
  constructor
  · rw [NewScanner_of_short s (by unfold ShortLines; rw [h1]; simpa using hshort)]
    simp [tokens, h1]
  · rw [NewScanner_of_short _ (by unfold ShortLines; rw [h2]; simpa using hshort)]
    simp [tokens, h2]

theorem mem_joinWith (sep : Char) :
    ∀ (xs : List (List Char)) (c : Char), c ∈ joinWith sep xs → c = sep ∨ ∃ x ∈ xs, c ∈ x
  | [], c, h => by simp [joinWith] at h
  | [x], c, h => Or.inr ⟨x, List.mem_singleton.mpr rfl, by simpa [joinWith] using h⟩
  | x :: y :: rest, c, h => by
    rw [joinWith, List.mem_append, List.mem_cons] at h
    rcases h with h | h | h
    · exact Or.inr ⟨x, List.mem_cons_self _ _, h⟩
    · exact Or.inl h
    · rcases mem_joinWith sep (y :: rest) c h with h' | ⟨z, hz, hc⟩
      · exact Or.inl h'
      · exact Or.inr ⟨z, List.mem_cons_of_mem _ hz, hc⟩

theorem renderLine_no_char (r : Counters) (c : Char) (hc : c ≠ ',') (hm : c ≠ '-')
    (hd : ¬ (48 ≤ c.toNat ∧ c.toNat ≤ 57)) (hs : c ∉ r.Source.data) :
    c ∉ (renderLine r).data := by
  intro h
  rcases mem_joinWith ',' _ c h with h1 | ⟨x, hx, hcx⟩
  · exact hc h1
  · rw [List.mem_map] at hx
    obtain ⟨col, hcol, rfl⟩ := hx
    unfold renderColumns at hcol
    rw [List.mem_cons, List.mem_cons, List.mem_map] at hcol
    rcases hcol with e | e | ⟨i, _, e⟩
    · rw [e] at hcx; exact formatInt_no_char _ c hm hd hcx
    · rw [e] at hcx; exact hs hcx
    · rw [← e] at hcx; exact formatInt_no_char _ c hm hd hcx

theorem formatInt_ne_nil (i : Int) : (formatInt i).data ≠ [] := by
  cases i with
  | ofNat n =>
    show natDigits (n + 1) n [] ≠ []
    rw [natDigits]
    split
    · simp
    · rw [natDigits_acc]; simp
  | negSucc n => simp [formatInt]

theorem renderLine_data (r : Counters) :
    ∃ front : List Char, (renderLine r).data =
      (formatInt r.TimeStamp.unix).data ++ ',' :: (r.Source.data ++ ',' ::
        (front ++ (formatInt r.IfPromiscuousMode).data)) := by
  refine ⟨joinWith ',' ([r.IfIndex, r.IfType, r.IfSpeed, r.IfDirection, r.IfStatus,
    r.IfInOctets, r.IfInUcastPkts, r.IfInMulticastPkts, r.IfInBroadcastPkts, r.IfInDiscards,
    r.IfInErrors, r.IfInUnknownProtos, r.IfOutOctets, r.IfOutUcastPkts, r.IfOutMulticastPkts,
    r.IfOutBroadcastPkts, r.IfOutDiscards, r.IfOutErrors].map
      (fun i => (formatInt i).data)) ++ [','], ?_⟩
  simp only [renderLine, renderColumns, Counters.ints, List.map_cons, List.map_nil, joinWith,
    List.append_assoc, List.cons_append, List.nil_append, List.singleton_append]

theorem renderLine_text (r : Counters) : lineText (renderLine r) = renderLine r := by
  apply lineText_of_no_cr
  obtain ⟨front, h⟩ := renderLine_data r
  rw [h]
  have hne := formatInt_ne_nil r.IfPromiscuousMode
  intro e
  rw [List.getLast?_eq_some_iff] at e
  obtain ⟨ys, hys⟩ := e
  have hmem : '\r' ∈ (formatInt r.IfPromiscuousMode).data := by
    obtain ⟨zs, z, hz⟩ : ∃ zs z, (formatInt r.IfPromiscuousMode).data = zs ++ [z] :=
      ⟨_, _, (List.dropLast_append_getLast hne).symm⟩
    rw [hz] at hys ⊢
    have h2 : ((formatInt r.TimeStamp.unix).data ++ ',' :: (r.Source.data ++ ',' ::
        (front ++ zs))) ++ [z] = ys ++ ['\r'] := by
      rw [← hys]; simp
    have := List.append_inj_right' h2 rfl
    simp only [List.cons.injEq, and_true] at this
    rw [this]; simp
  exact formatInt_no_char _ '\r' (by decide) (by decide) hmem

theorem renderLine_ne_nil (r : Counters) : (renderLine r).data ≠ [] := by
  obtain ⟨front, h⟩ := renderLine_data r
  rw [h]
  intro e
  have := congrArg List.length e
  simp at this

theorem renderLine_length (r : Counters) : r.Source.data.length ≤ (renderLine r).data.length := by
  obtain ⟨front, h⟩ := renderLine_data r
  rw [h]
  simp only [List.length_append, List.length_cons]
  omega

theorem scanN_long_rendering (r : Counters) (hnl : '\n' ∉ r.Source.data)
    (hlen : maxScanTokenSize ≤ r.Source.data.length) :
    ∃ cut, NewScanner (renderLine r) = [none, some cut] ∧
      scanN (NewScanner (renderLine r)) 1 = .ok ([], [some cut]) := by
  have hfeed : '\n' ∉ (renderLine r).data :=
    renderLine_no_char _ _ (by decide) (by decide) (by decide) hnl
  have hlen2 : maxScanTokenSize ≤ (renderLine r).data.length :=
    Nat.le_trans hlen (renderLine_length r)
  have hsc := scanResults_long (renderLine r).data [] hfeed [] (by decide)
    (by simpa using hlen2)
  rw [List.append_nil] at hsc
  refine ⟨_, hsc, ?_⟩
  unfold NewScanner
  rw [hsc]
  simp [scanN, scanLoop]

theorem longSource_length : longSource.data.length = maxScanTokenSize :=
  List.length_replicate _ _

theorem not_mem_longSource (c : Char) (hc : c ≠ 'x') : c ∉ longSource.data :=
  fun h => hc (List.eq_of_mem_replicate h)

/-- C11 as stated fails: the record of scenario 1 with Source `a`, line feed,
`b` has its integers in range and no comma in its Source, but the scanner
cuts its rendering at the line feed and `scanN` panics on the first piece;
and with a Source of 65536 bytes the scanner stops at the rendering with its
error unread and `scanN` returns nil. -/
theorem scanN_round_trip_line_feed :
    (∀ i ∈ lineFeedRecord.ints, InInt64 i) ∧ InInt64 lineFeedRecord.TimeStamp.unix ∧
    ',' ∉ lineFeedRecord.Source.data ∧
    NewScanner (renderLine lineFeedRecord) =
      [some "1700000000,a", some "b,1,6,1000,1,1,10,20,0,0,0,0,0,5,6,0,0,1,1,0"] ∧
    scanN (NewScanner (renderLine lineFeedRecord)) 1 = .error (.indexOutOfRange 0 0) ∧
    (∀ i ∈ longSourceRecord.ints, InInt64 i) ∧ InInt64 longSourceRecord.TimeStamp.unix ∧
    ',' ∉ longSourceRecord.Source.data ∧
    ∃ cut, NewScanner (renderLine longSourceRecord) = [none, some cut] ∧
      scanN (NewScanner (renderLine longSourceRecord)) 1 = .ok ([], [some cut]) :=
  ⟨by decide, by decide, by decide, by decide, by decide, by decide, by decide,
    not_mem_longSource _ (by decide),
    scanN_long_rendering longSourceRecord (not_mem_longSource _ (by decide))
      (Nat.le_of_eq longSource_length.symm)⟩

/-- C11 as amended: for every record whose 19 integer fields and whose
timestamp seconds are in the range of `int64`, whose Source has neither a
comma nor a line feed and whose rendering is shorter than 65536 bytes, the
line `<seconds>,<Source>,<the 19 fields in decimal>` splits into its 21
columns, each decimal rendering parses back to its number, the scanner
delivers the line whole, with or without a line feed after it, and `scanN`
on that input returns exactly the record. -/
theorem scanN_round_trip (r : Counters) (hints : ∀ i ∈ r.ints, InInt64 i)
    (hts : InInt64 r.TimeStamp.unix) (hsrc : ',' ∉ r.Source.data)
    (hnl : '\n' ∉ r.Source.data) (hshort : (renderLine r).data.length < maxScanTokenSize) :
    Split (renderLine r) ',' = renderColumns r ∧
    (∀ i ∈ r.TimeStamp.unix :: r.ints, ParseInt (formatInt i) 0 64 = (i, none)) ∧
    scanLine (renderLine r) = .ok r ∧
    NewScanner (renderLine r) = [some (renderLine r)] ∧
    NewScanner (unlines [renderLine r]) = [some (renderLine r)] ∧
    scanN (NewScanner (renderLine r)) 1 = .ok ([r], []) ∧
    scanN (NewScanner (unlines [renderLine r])) 1 = .ok ([r], []) := by
  have hsplit := Split_renderLine r hsrc
  have hparse : ∀ i ∈ r.TimeStamp.unix :: r.ints, ParseInt (formatInt i) 0 64 = (i, none) := by
    intro i hi
    rw [List.mem_cons] at hi
    rcases hi with h | h
    · rw [h]; exact ParseInt_formatInt _ hts
    · exact ParseInt_formatInt i (hints i h)
  have hline : scanLine (renderLine r) = .ok r := by
    rw [scanLine_of_columns _ (by rw [hsplit]; simp [renderColumns, Counters.ints]), hsplit]
    have hp : ∀ i ∈ r.ints, ParseInt (formatInt i) 0 64 = (i, none) :=
      fun i hi => hparse i (List.mem_cons_of_mem _ hi)
    simp only [Counters.ints, List.mem_cons, List.mem_singleton, List.not_mem_nil, or_false,
      forall_eq_or_imp, forall_eq] at hp
    obtain ⟨h0, h1, h2, h3, h4, h5, h6, h7, h8, h9, h10, h11, h12, h13, h14, h15, h16, h17,
      h18⟩ := hp
    have ht := ParseInt_formatInt _ hts
    simp only [recordOfColumns, renderColumns, Counters.ints, columnInt, List.map_cons,
      List.map_nil, List.getD_cons_zero, List.getD_cons_succ, before_formatInt, ht, h0, h1, h2,
      h3, h4, h5, h6, h7, h8, h9, h10, h11, h12, h13, h14, h15, h16, h17, h18, Time.Unix]
  have hfeed : '\n' ∉ (renderLine r).data :=
    renderLine_no_char r _ (by decide) (by decide) (by decide) hnl
  obtain ⟨hs1, hs2⟩ := NewScanner_single (renderLine r) hfeed (renderLine_ne_nil r) hshort
  rw [renderLine_text] at hs1 hs2
  refine ⟨hsplit, hparse, hline, hs1, hs2, ?_, ?_⟩
  · rw [hs1]; simp [scanN, scanLoop, hline]
  · rw [hs2]; simp [scanN, scanLoop, hline]

/-- Witness of amended C11: the record of scenario 1 with a negative counter
and the smallest `int64` as another. -/
theorem scanN_round_trip_witness :
    (∀ i ∈ signedRecord.ints, InInt64 i) ∧ InInt64 signedRecord.TimeStamp.unix ∧
    ',' ∉ signedRecord.Source.data ∧ '\n' ∉ signedRecord.Source.data ∧
    (renderLine signedRecord).data.length < maxScanTokenSize ∧
    renderLine signedRecord =
      "1700000000,eth0,1,6,-5,1,1,10,20,0,0,0,-9223372036854775808,0,5,6,0,0,1,1,0" ∧
    scanLine (renderLine signedRecord) = .ok signedRecord ∧
    scanN (NewScanner (unlines [renderLine signedRecord])) 1 = .ok ([signedRecord], []) :=
  ⟨by decide, by decide, by decide, by decide, by decide, by decide,
    (scanN_round_trip signedRecord (by decide) (by decide) (by decide) (by decide)
      (by decide)).2.2.1,
    (scanN_round_trip signedRecord (by decide) (by decide) (by decide) (by decide)
      (by decide)).2.2.2.2.2.2⟩

end Sflux
